import Mathlib

/-!
# Intellistant: protocol envelope, tool dispatcher, agent loop and coordinator

A shallow embedding of `include/mcp_types.hpp`, `include/mcp_server.hpp`,
`include/agent.hpp` and `include/coordinator.hpp`, followed by the properties proved about
them.

Conventions of the embedding

* `nlohmann::json` is the inductive type `Json`.  An object keeps its members in a
  list ordered by key, as the `std::map` behind it does; `Json.set` is `j[key] = v`.
* A C++ exception derived from `std::exception` is a value `Except.error what`
  of `Except String α`; a `std::expected<T, JsonRpcError>` is `Except JsonRpcError T`.
* A tool handler is a function of its argument object and of an explicit world
  state `ω`, which stands for everything outside the dispatcher that the handler
  can read or write.  It returns a result, returns an error, or throws.
* The language-model backend is a function with an explicit state `σ`.
* `nlohmann::json::dump` belongs to the JSON library, which is not part of the
  repository sources; it is taken as a parameter `dump : Json → String`.
* Mutexes and the verbose console output have no counterpart: the embedding is
  sequential and models no I/O.
* Strings are sequences of Unicode code points.  The one failure of `dump`, on text that
  is not valid UTF-8, therefore has no counterpart, and `dump` is a total function.
* An exception is one derived from `std::exception`, which is what every `catch` clause
  of the embedded code names.  A handler, being a `std::function`, can also throw a value
  of another type, which no clause catches.  The part `Full` embeds the dispatcher, the
  client and the agent loop for such handlers: there a call returns or a thrown value
  leaves it.  The properties of the outcomes of tools/call (C5), of the invocation order
  (C10) and of failed tool calls (C11) are stated on `Full`; the theorems `lift_...` show
  that the two embeddings agree for handlers that throw nothing but exceptions derived
  from `std::exception`.
* A value of type `int` is an integer; a conversion to `int` is `toInt32`.  The counters of
  type `int` (`next_id_`, the usage counters) are incremented without reduction: their
  overflow is undefined behaviour and has no counterpart.  The counter of type `size_t`
  (`round_robin_index_`) is reduced modulo 2^64.
-/

namespace Intellistant

deriving instance DecidableEq for Except

/-! ## JSON values -/

/-- The value model of `nlohmann::json`.  `int` stands for both integer kinds
(`number_integer`, `number_unsigned`); `float` carries the IEEE-754 binary64 bit
pattern of a `number_float`. -/
inductive Json where
  | null
  | bool (b : Bool)
  | int (n : Int)
  | float (bits : Nat)
  | str (s : String)
  | arr (xs : List Json)
  | obj (kvs : List (String × Json))
  deriving Inhabited

mutual

/-- Decision of equality of two JSON values, by structural comparison. -/
def Json.decEq : (a b : Json) → Decidable (a = b)
  | .null, .null => isTrue rfl
  | .bool a, .bool b => decidable_of_iff (a = b) (by simp)
  | .int a, .int b => decidable_of_iff (a = b) (by simp)
  | .float a, .float b => decidable_of_iff (a = b) (by simp)
  | .str a, .str b => decidable_of_iff (a = b) (by simp)
  | .arr a, .arr b => @decidable_of_iff _ (a = b) (by simp) (Json.decEqList a b)
  | .obj a, .obj b => @decidable_of_iff _ (a = b) (by simp) (Json.decEqFields a b)
  | .null, .bool _ | .null, .int _ | .null, .float _ | .null, .str _ | .null, .arr _
  | .null, .obj _ => isFalse (by simp)
  | .bool _, .null | .bool _, .int _ | .bool _, .float _ | .bool _, .str _ | .bool _, .arr _
  | .bool _, .obj _ => isFalse (by simp)
  | .int _, .null | .int _, .bool _ | .int _, .float _ | .int _, .str _ | .int _, .arr _
  | .int _, .obj _ => isFalse (by simp)
  | .float _, .null | .float _, .bool _ | .float _, .int _ | .float _, .str _
  | .float _, .arr _ | .float _, .obj _ => isFalse (by simp)
  | .str _, .null | .str _, .bool _ | .str _, .int _ | .str _, .float _ | .str _, .arr _
  | .str _, .obj _ => isFalse (by simp)
  | .arr _, .null | .arr _, .bool _ | .arr _, .int _ | .arr _, .float _ | .arr _, .str _
  | .arr _, .obj _ => isFalse (by simp)
  | .obj _, .null | .obj _, .bool _ | .obj _, .int _ | .obj _, .float _ | .obj _, .str _
  | .obj _, .arr _ => isFalse (by simp)

/-- Decision of equality of two arrays. -/
def Json.decEqList : (a b : List Json) → Decidable (a = b)
  | [], [] => isTrue rfl
  | [], _ :: _ => isFalse (by simp)
  | _ :: _, [] => isFalse (by simp)
  | x :: xs, y :: ys =>
    @decidable_of_iff _ (x = y ∧ xs = ys) (by simp)
      (@instDecidableAnd _ _ (Json.decEq x y) (Json.decEqList xs ys))

/-- Decision of equality of two member lists. -/
def Json.decEqFields : (a b : List (String × Json)) → Decidable (a = b)
  | [], [] => isTrue rfl
  | [], _ :: _ => isFalse (by simp)
  | _ :: _, [] => isFalse (by simp)
  | (k, x) :: xs, (l, y) :: ys =>
    @decidable_of_iff _ (k = l ∧ x = y ∧ xs = ys) (by simp [and_assoc])
      (@instDecidableAnd _ _ inferInstance
        (@instDecidableAnd _ _ (Json.decEq x y) (Json.decEqFields xs ys)))

end

instance : DecidableEq Json := Json.decEq

/-- Lexicographic comparison of character lists by code point, which is the order of
`std::string::operator<` on UTF-8 text. -/
def charsLt : List Char → List Char → Bool
  | [], [] => false
  | [], _ :: _ => true
  | _ :: _, [] => false
  | a :: as, b :: bs =>
    if a.toNat < b.toNat then true
    else if b.toNat < a.toNat then false
    else charsLt as bs

/-- The key order of `std::map<std::string, T>`. -/
def strLt (a b : String) : Bool := charsLt a.data b.data

/-- Insertion into a `std::map` by `m[k] = v`: the value of an existing key is replaced,
a new key is inserted at its place in key order. -/
def mapInsert {α : Type} : List (String × α) → String → α → List (String × α)
  | [], k, v => [(k, v)]
  | (k', v') :: rest, k, v =>
    if k = k' then (k, v) :: rest
    else if strLt k k' then (k, v) :: (k', v') :: rest
    else (k', v') :: mapInsert rest k v

/-- Lookup by `m.find(k)`. -/
def mapFind {α : Type} : List (String × α) → String → Option α
  | [], _ => none
  | (k', v') :: rest, k => if k = k' then some v' else mapFind rest k

/-- Removal by `m.erase(k)`. -/
def mapErase {α : Type} : List (String × α) → String → List (String × α)
  | [], _ => []
  | (k', v') :: rest, k => if k = k' then rest else (k', v') :: mapErase rest k

/-- The keys of a map, in iteration order. -/
def mapKeys {α : Type} (m : List (String × α)) : List String := m.map Prod.fst

namespace Json

def is_null : Json → Bool
  | null => true
  | _ => false

def is_boolean : Json → Bool
  | bool _ => true
  | _ => false

def is_number_integer : Json → Bool
  | int _ => true
  | _ => false

def is_number : Json → Bool
  | int _ => true
  | float _ => true
  | _ => false

def is_string : Json → Bool
  | str _ => true
  | _ => false

def is_array : Json → Bool
  | arr _ => true
  | _ => false

def is_object : Json → Bool
  | obj _ => true
  | _ => false

/-- The library's `type_name()`, used in exception texts. -/
def type_name : Json → String
  | null => "null"
  | bool _ => "boolean"
  | int _ => "number"
  | float _ => "number"
  | str _ => "string"
  | arr _ => "array"
  | obj _ => "object"

/-- The member `j[key]` when `j` is an object that has it. -/
def get? : Json → String → Option Json
  | obj kvs, key => mapFind kvs key
  | _, _ => none

/-- The library's `j.contains(key)`: false on everything that is not an object. -/
def contains (j : Json) (key : String) : Bool := (j.get? key).isSome

/-- The assignment `j[key] = v` on a value that is null (it becomes an object) or an
object.  On other values the library throws; the embedded code only assigns into values
it has just default-constructed, so that case is left as the identity. -/
def set : Json → String → Json → Json
  | null, key, v => obj [(key, v)]
  | obj kvs, key, v => obj (mapInsert kvs key v)
  | j, _, _ => j

/-- The library's `j.at(key)`. -/
def at_ (j : Json) (key : String) : Except String Json :=
  match j with
  | obj kvs =>
    match mapFind kvs key with
    | some v => .ok v
    | none => .error ("[json.exception.out_of_range.403] key \x27" ++ key ++ "\x27 not found")
  | _ => .error ("[json.exception.type_error.304] cannot use at() with " ++ j.type_name)

/-- The library's `j.get<std::string>()`. -/
def get_string : Json → Except String String
  | str s => .ok s
  | j => .error ("[json.exception.type_error.302] type must be string, but is " ++ j.type_name)

/-- The library's `j.get<bool>()`. -/
def get_bool : Json → Except String Bool
  | bool b => .ok b
  | j => .error ("[json.exception.type_error.302] type must be boolean, but is " ++ j.type_name)

/-- The library's `j.get<std::vector<nlohmann::json>>()`. -/
def get_array : Json → Except String (List Json)
  | arr xs => .ok xs
  | j => .error ("[json.exception.type_error.302] type must be array, but is " ++ j.type_name)

/-- The library's `j.value(key, default)` with a JSON default. -/
def value (j : Json) (key : String) (dflt : Json) : Except String Json :=
  match j with
  | obj kvs =>
    match mapFind kvs key with
    | some v => .ok v
    | none => .ok dflt
  | _ => .error ("[json.exception.type_error.306] cannot use value() with " ++ j.type_name)

/-- The library's `j.value(key, default)` with a string default. -/
def value_string (j : Json) (key : String) (dflt : String) : Except String String :=
  match j with
  | obj kvs =>
    match mapFind kvs key with
    | some v => v.get_string
    | none => .ok dflt
  | _ => .error ("[json.exception.type_error.306] cannot use value() with " ++ j.type_name)

end Json

/-- Conversion of an integer to the 32-bit `int` of the C++ code (two-complement wrap). -/
def toInt32 (n : Int) : Int := (n + 2147483648) % 4294967296 - 2147483648

/-- Truncation toward zero of the binary64 value with the given bit pattern.  The C++
conversion is undefined outside the range of `int`; here it wraps. -/
def truncFloat (bits : Nat) : Int :=
  let sign := bits / 2 ^ 63 % 2
  let e := bits / 2 ^ 52 % 2048
  let m := bits % 2 ^ 52
  let mag : Nat :=
    if e = 0 then 0
    else if 1075 ≤ e then (2 ^ 52 + m) * 2 ^ (e - 1075)
    else (2 ^ 52 + m) / 2 ^ (1075 - e)
  toInt32 (if sign = 1 then - (mag : Int) else (mag : Int))

/-- The library's `j.get<int>()`. -/
def Json.get_int : Json → Except String Int
  | .int n => .ok (toInt32 n)
  | .float bits => .ok (truncFloat bits)
  | .bool b => .ok (if b then 1 else 0)
  | j => .error ("[json.exception.type_error.302] type must be number, but is " ++ j.type_name)

/-! ## JSON-RPC 2.0 error codes (`enum class JsonRpcErrorCode`) -/

namespace JsonRpcErrorCode

def parse_error : Int := -32700
def invalid_request : Int := -32600
def method_not_found : Int := -32601
def invalid_params : Int := -32602
def internal_error : Int := -32003
def tool_not_found : Int := -32001
def tool_execution_failed : Int := -32002
def invalid_tool_params : Int := -32003
def server_not_initialized : Int := -32004

end JsonRpcErrorCode

/-! ## JSON-RPC 2.0 types -/

/-- The variant `std::variant<std::string, int, std::nullptr_t>`. -/
inductive JsonRpcId where
  | str (s : String)
  | int (n : Int)
  | null
  deriving DecidableEq, Inhabited

def JsonRpcId.to_json : JsonRpcId → Json
  | .str s => .str s
  | .int n => .int n
  | .null => .null

def make_null_id : JsonRpcId := .null

structure JsonRpcError where
  code : Int
  message : String
  data : Option Json := none
  deriving DecidableEq, Inhabited

namespace JsonRpcError

def to_json (e : JsonRpcError) : Json :=
  let j := (Json.null.set "code" (.int e.code)).set "message" (.str e.message)
  match e.data with
  | some d => j.set "data" d
  | none => j

def from_json (j : Json) : Except String JsonRpcError :=
  match j.at_ "code" with
  | .error what => .error what
  | .ok c =>
    match c.get_int with
    | .error what => .error what
    | .ok code =>
      match j.at_ "message" with
      | .error what => .error what
      | .ok m =>
        match m.get_string with
        | .error what => .error what
        | .ok message =>
          .ok { code := code, message := message,
                data := if j.contains "data" then j.get? "data" else none }

end JsonRpcError

structure JsonRpcRequest where
  jsonrpc : String := "2.0"
  method : String
  params : Option Json := none
  id : Option JsonRpcId := none
  deriving DecidableEq, Inhabited

namespace JsonRpcRequest

def to_json (r : JsonRpcRequest) : Json :=
  let j := (Json.null.set "jsonrpc" (.str r.jsonrpc)).set "method" (.str r.method)
  let j := match r.params with
    | some p => j.set "params" p
    | none => j
  match r.id with
  | some i => j.set "id" i.to_json
  | none => j

/-- The decoder `JsonRpcRequest::from_json`.  Every member access in its body is guarded
by the `contains` and type tests in front of it, so nothing inside the `try` block can
throw and the `catch` branch (`parse_error`) has no counterpart here. -/
def from_json (j : Json) : Except JsonRpcError JsonRpcRequest :=
  match j.get? "jsonrpc" with
  | some (.str "2.0") =>
    match j.get? "method" with
    | some (.str method) =>
      .ok { jsonrpc := "2.0"
            method := method
            params := j.get? "params"
            id := match j.get? "id" with
              | some (.str s) => some (.str s)
              | some (.int n) => some (.int (toInt32 n))
              | some .null => some .null
              | _ => none }
    | _ => .error { code := JsonRpcErrorCode.invalid_request,
                    message := "Missing or invalid method field" }
  | _ => .error { code := JsonRpcErrorCode.invalid_request,
                  message := "Invalid JSON-RPC version" }

end JsonRpcRequest

structure JsonRpcResponse where
  jsonrpc : String := "2.0"
  result : Option Json := none
  error : Option JsonRpcError := none
  id : JsonRpcId := .null
  deriving DecidableEq, Inhabited

namespace JsonRpcResponse

def to_json (r : JsonRpcResponse) : Json :=
  let j := Json.null.set "jsonrpc" (.str r.jsonrpc)
  let j := match r.result with
    | some v => j.set "result" v
    | none => j
  let j := match r.error with
    | some e => j.set "error" e.to_json
    | none => j
  j.set "id" r.id.to_json

def success (result_data : Json) (request_id : JsonRpcId) : JsonRpcResponse :=
  { result := some result_data, id := request_id }

def error_response (err : JsonRpcError) (request_id : JsonRpcId) : JsonRpcResponse :=
  { error := some err, id := request_id }

end JsonRpcResponse

/-! ## MCP protocol types -/

structure McpServerInfo where
  name : String := ""
  version : String := ""
  deriving DecidableEq, Inhabited

def McpServerInfo.to_json (i : McpServerInfo) : Json :=
  (Json.null.set "name" (.str i.name)).set "version" (.str i.version)

structure McpClientInfo where
  name : String := ""
  version : String := ""
  deriving DecidableEq, Inhabited

def McpClientInfo.from_json (j : Json) : Except String McpClientInfo :=
  match j.value_string "name" "unknown" with
  | .error what => .error what
  | .ok name =>
    match j.value_string "version" "unknown" with
    | .error what => .error what
    | .ok version => .ok { name := name, version := version }

structure McpCapabilities where
  tools : Bool := true
  prompts : Bool := false
  resources : Bool := false
  logging : Bool := false
  deriving DecidableEq, Inhabited

namespace McpCapabilities

def to_json (c : McpCapabilities) : Json :=
  let j := Json.null
  let j := if c.tools then j.set "tools" (.obj []) else j
  let j := if c.prompts then j.set "prompts" (.obj []) else j
  let j := if c.resources then j.set "resources" (.obj []) else j
  if c.logging then j.set "logging" (.obj []) else j

def from_json (j : Json) : McpCapabilities :=
  { tools := j.contains "tools"
    prompts := j.contains "prompts"
    resources := j.contains "resources"
    logging := j.contains "logging" }

end McpCapabilities

structure McpInitializeParams where
  protocol_version : String := "2024-11-05"
  client_info : McpClientInfo := {}
  capabilities : McpCapabilities := {}
  deriving DecidableEq, Inhabited

def McpInitializeParams.from_json (j : Json) : Except String McpInitializeParams :=
  match j.value_string "protocolVersion" "2024-11-05" with
  | .error what => .error what
  | .ok pv =>
    match (match j.get? "clientInfo" with
           | some ci => McpClientInfo.from_json ci
           | none => .ok {}) with
    | .error what => .error what
    | .ok ci =>
      .ok { protocol_version := pv
            client_info := ci
            capabilities := match j.get? "capabilities" with
              | some c => McpCapabilities.from_json c
              | none => {} }

structure McpInitializeResult where
  protocol_version : String := "2024-11-05"
  server_info : McpServerInfo := {}
  capabilities : McpCapabilities := {}
  deriving DecidableEq, Inhabited

def McpInitializeResult.to_json (r : McpInitializeResult) : Json :=
  ((Json.null.set "protocolVersion" (.str r.protocol_version)).set
    "serverInfo" r.server_info.to_json).set "capabilities" r.capabilities.to_json

/-! ## MCP tool types -/

structure McpToolParameter where
  name : String
  type : String
  description : String
  required : Bool := true
  default_value : Option Json := none
  enum_values : Option (List String) := none
  deriving DecidableEq, Inhabited

def McpToolParameter.to_json_schema (p : McpToolParameter) : Json :=
  let schema := (Json.null.set "type" (.str p.type)).set "description" (.str p.description)
  let schema := match p.default_value with
    | some d => schema.set "default" d
    | none => schema
  match p.enum_values with
  | some es => schema.set "enum" (.arr (es.map Json.str))
  | none => schema

structure McpTool where
  name : String := ""
  description : String := ""
  input_schema : Json := .null
  deriving DecidableEq, Inhabited

namespace McpTool

def to_json (t : McpTool) : Json :=
  ((Json.null.set "name" (.str t.name)).set "description" (.str t.description)).set
    "inputSchema" t.input_schema

/-- One turn of the loop of `build_input_schema`; the state is the pair of
`schema["properties"]` and `schema["required"]`. -/
def build_step (acc : Json × List Json) (param : McpToolParameter) : Json × List Json :=
  (acc.1.set param.name param.to_json_schema,
   if param.required then acc.2 ++ [Json.str param.name] else acc.2)

def build_input_schema (parameters : List McpToolParameter) : Json :=
  let acc := parameters.foldl build_step (Json.obj [], [])
  ((Json.null.set "type" (.str "object")).set "properties" acc.1).set "required" (.arr acc.2)

end McpTool

structure McpListToolsResult where
  tools : List McpTool := []
  deriving DecidableEq, Inhabited

def McpListToolsResult.to_json (r : McpListToolsResult) : Json :=
  Json.null.set "tools" (.arr (r.tools.map McpTool.to_json))

structure McpCallToolParams where
  name : String
  arguments : Json
  deriving DecidableEq, Inhabited

def McpCallToolParams.from_json (j : Json) : Except String McpCallToolParams :=
  match j.at_ "name" with
  | .error what => .error what
  | .ok n =>
    match n.get_string with
    | .error what => .error what
    | .ok name =>
      match j.value "arguments" (.obj []) with
      | .error what => .error what
      | .ok arguments => .ok { name := name, arguments := arguments }

structure McpToolResult where
  content : List Json := []
  is_error : Bool := false
  deriving DecidableEq, Inhabited

namespace McpToolResult

def to_json (r : McpToolResult) : Json :=
  let j := Json.null.set "content" (.arr r.content)
  if r.is_error then j.set "isError" (.bool true) else j

def text_result (text : String) (error : Bool := false) : McpToolResult :=
  { content := [(Json.null.set "type" (.str "text")).set "text" (.str text)], is_error := error }

def error_result (error_msg : String) : McpToolResult := text_result error_msg true

end McpToolResult

/-! ## Validation (`class McpValidator`) -/

namespace McpValidator

def validate_json_type (value : Json) (type : String) : Bool :=
  if type = "string" then value.is_string
  else if type = "number" then value.is_number
  else if type = "integer" then value.is_number_integer
  else if type = "boolean" then value.is_boolean
  else if type = "object" then value.is_object
  else if type = "array" then value.is_array
  else if type = "null" then value.is_null
  else true

/-- The loop over `schema["required"]`.  `none`: the loop ran to its end;
`some e`: it returned `std::unexpected(e)`; `Except.error`: `req.get<std::string>()`
threw. -/
def check_required (params : Json) : List Json → Except String (Option JsonRpcError)
  | [] => .ok none
  | req :: rest =>
    match req.get_string with
    | .error what => .error what
    | .ok field =>
      if !params.contains field then
        .ok (some { code := JsonRpcErrorCode.invalid_tool_params,
                    message := "Missing required parameter: " ++ field })
      else check_required params rest

/-- The loop over the members of `params`, with `props` the value of
`schema["properties"]`.  Same result convention as `check_required`. -/
def check_types (props : Json) : List (String × Json) → Except String (Option JsonRpcError)
  | [] => .ok none
  | (field_name, v) :: rest =>
    match props.get? field_name with
    | none => check_types props rest
    | some field_schema =>
      match field_schema.get? "type" with
      | none => check_types props rest
      | some t =>
        match t.get_string with
        | .error what => .error what
        | .ok expected_type =>
          if !validate_json_type v expected_type then
            .ok (some { code := JsonRpcErrorCode.invalid_tool_params,
                        message := "Invalid type for parameter \x27" ++ field_name ++
                          "\x27: expected " ++ expected_type })
          else check_types props rest

/-- The body of the `try` block of `validate_tool_params`. -/
def validate_body (params schema : Json) : Except String (Except JsonRpcError Bool) :=
  match params with
  | .obj members =>
    match (match schema.get? "required" with
           | some (.arr reqs) => check_required params reqs
           | _ => .ok none) with
    | .error what => .error what
    | .ok (some e) => .ok (.error e)
    | .ok none =>
      match (match schema.get? "properties" with
             | some (.obj props) => check_types (.obj props) members
             | _ => .ok none) with
      | .error what => .error what
      | .ok (some e) => .ok (.error e)
      | .ok none => .ok (.ok true)
  | _ => .ok (.error { code := JsonRpcErrorCode.invalid_tool_params,
                       message := "Tool parameters must be an object" })

def validate_tool_params (params schema : Json) : Except JsonRpcError Bool :=
  match validate_body params schema with
  | .ok r => r
  | .error what => .error { code := JsonRpcErrorCode.invalid_tool_params,
                            message := "Validation error: " ++ what }

end McpValidator

/-! ## The tool dispatcher (`class McpServer`) -/

/-- What a call of a `ToolHandler` can come to when the handler throws nothing but
exceptions derived from `std::exception`: the value of the `std::expected`, its error, or
an exception (with its `what()` text).  `Full.HandlerOutcome` is the type for handlers
that may throw a value of any type. -/
inductive HandlerOutcome where
  | ok (r : McpToolResult)
  | err (e : JsonRpcError)
  | throws (what : String)
  deriving DecidableEq, Inhabited

/-- The handler type `std::function<std::expected<McpToolResult, JsonRpcError>(const json&)>`,
with the state `ω` it may act on made explicit. -/
abbrev ToolHandler (ω : Type) := Json → ω → HandlerOutcome × ω

structure McpServer (ω : Type) where
  server_info_ : McpServerInfo
  capabilities_ : McpCapabilities
  client_info_ : Option McpClientInfo
  initialized_ : Bool
  tools_ : List (String × McpTool)
  tool_handlers_ : List (String × ToolHandler ω)

namespace McpServer

variable {ω : Type}

/-- The constructor `McpServer(name, version)`. -/
def new (name version : String) : McpServer ω :=
  { server_info_ := { name := name, version := version }
    capabilities_ := { tools := true, prompts := false, resources := false, logging := false }
    client_info_ := none
    initialized_ := false
    tools_ := []
    tool_handlers_ := [] }

def register_tool (s : McpServer ω) (name description : String) (input_schema : Json)
    (handler : ToolHandler ω) : McpServer ω :=
  { s with
    tools_ := mapInsert s.tools_ name
      { name := name, description := description, input_schema := input_schema }
    tool_handlers_ := mapInsert s.tool_handlers_ name handler }

/-- The overload of `register_tool` that takes a parameter list. -/
def register_tool_params (s : McpServer ω) (name description : String)
    (parameters : List McpToolParameter) (handler : ToolHandler ω) : McpServer ω :=
  s.register_tool name description (McpTool.build_input_schema parameters) handler

def unregister_tool (s : McpServer ω) (name : String) : McpServer ω :=
  { s with
    tools_ := mapErase s.tools_ name
    tool_handlers_ := mapErase s.tool_handlers_ name }

def list_tool_names (s : McpServer ω) : List String := mapKeys s.tools_

def is_initialized (s : McpServer ω) : Bool := s.initialized_

def handle_initialize (s : McpServer ω) (params : Option Json) :
    Except JsonRpcError Json × McpServer ω :=
  match params with
  | none => (.error { code := JsonRpcErrorCode.invalid_params,
                      message := "Initialize requires parameters" }, s)
  | some p =>
    match McpInitializeParams.from_json p with
    | .ok init_params =>
      (.ok (McpInitializeResult.to_json
              { protocol_version := "2024-11-05"
                server_info := s.server_info_
                capabilities := s.capabilities_ }),
       { s with client_info_ := some init_params.client_info, initialized_ := true })
    | .error what =>
      (.error { code := JsonRpcErrorCode.invalid_params,
                message := "Invalid initialize params: " ++ what }, s)

def handle_list_tools (s : McpServer ω) (_params : Option Json) : Except JsonRpcError Json :=
  if !s.initialized_ then
    .error { code := JsonRpcErrorCode.server_not_initialized,
             message := "Server not initialized. Call \x27initialize\x27 first." }
  else
    .ok (McpListToolsResult.to_json { tools := s.tools_.map Prod.snd })

def handle_call_tool (s : McpServer ω) (params : Option Json) (w : ω) :
    Except JsonRpcError Json × ω :=
  if !s.initialized_ then
    (.error { code := JsonRpcErrorCode.server_not_initialized,
              message := "Server not initialized. Call \x27initialize\x27 first." }, w)
  else
    match params with
    | none => (.error { code := JsonRpcErrorCode.invalid_params,
                        message := "Tool call requires parameters" }, w)
    | some p =>
      match McpCallToolParams.from_json p with
      | .error what =>
        (.error { code := JsonRpcErrorCode.tool_execution_failed,
                  message := "Tool execution failed: " ++ what }, w)
      | .ok call_params =>
        match mapFind s.tools_ call_params.name with
        | none =>
          (.error { code := JsonRpcErrorCode.tool_not_found,
                    message := "Tool not found: " ++ call_params.name }, w)
        | some tool =>
          match mapFind s.tool_handlers_ call_params.name with
          | none =>
            (.error { code := JsonRpcErrorCode.internal_error,
                      message := "Tool handler not found: " ++ call_params.name }, w)
          | some handler =>
            match McpValidator.validate_tool_params call_params.arguments tool.input_schema with
            | .error e => (.error e, w)
            | .ok _ =>
              match handler call_params.arguments w with
              | (.ok r, w') => (.ok r.to_json, w')
              | (.err e, w') => (.error e, w')
              | (.throws what, w') =>
                (.error { code := JsonRpcErrorCode.tool_execution_failed,
                          message := "Tool execution failed: " ++ what }, w')

def handle_ping (_s : McpServer ω) (_params : Option Json) : Except JsonRpcError Json :=
  .ok (.obj [])

/-- The routing part of `handle_request(const nlohmann::json&)`: the `std::expected`
named `result` in the source, with the server and world state after the handler. -/
def dispatch (s : McpServer ω) (request : JsonRpcRequest) (w : ω) :
    Except JsonRpcError Json × McpServer ω × ω :=
  if request.method = "initialize" then
    let r := handle_initialize s request.params
    (r.1, r.2, w)
  else if request.method = "tools/list" then
    (s.handle_list_tools request.params, s, w)
  else if request.method = "tools/call" then
    let r := s.handle_call_tool request.params w
    (r.1, s, r.2)
  else if request.method = "ping" then
    (s.handle_ping request.params, s, w)
  else
    (.error { code := JsonRpcErrorCode.method_not_found,
              message := "Method not found: " ++ request.method }, s, w)

/-- The overload `handle_request(const nlohmann::json&)`: the response object, the server
after the request and the world after the request. -/
def handle_request (s : McpServer ω) (request_json : Json) (w : ω) :
    Json × McpServer ω × ω :=
  match JsonRpcRequest.from_json request_json with
  | .error e => ((JsonRpcResponse.error_response e make_null_id).to_json, s, w)
  | .ok request =>
    let response_id : JsonRpcId := match request.id with
      | some i => i
      | none => make_null_id
    match s.dispatch request w with
    | (.ok v, s', w') => ((JsonRpcResponse.success v response_id).to_json, s', w')
    | (.error e, s', w') => ((JsonRpcResponse.error_response e response_id).to_json, s', w')

/-- One entry of `get_function_schemas`. -/
def function_schema (tool : McpTool) : Json :=
  (Json.null.set "type" (.str "function")).set "function"
    (((Json.null.set "name" (.str tool.name)).set "description" (.str tool.description)).set
      "parameters" tool.input_schema)

def get_function_schemas (s : McpServer ω) : List Json :=
  s.tools_.map (fun kv => function_schema kv.2)

end McpServer

/-! ## The protocol client (`class McpClient`)

The client holds a shared pointer to its server; here the server is passed in and handed
back.  `next_id_` is an `int` that the code increments without bound (the increment
overflows only after 2147483647 requests, which the embedding does not model). -/

structure McpClient where
  next_id_ : Int := 1
  deriving DecidableEq, Inhabited

namespace McpClient

variable {ω : Type}

/-- The decoder at the end of `send_request`, applied to the response object. -/
def parse_response (response_json : Json) : Except JsonRpcError Json :=
  match response_json.get? "error" with
  | some e =>
    match JsonRpcError.from_json e with
    | .ok err => .error err
    | .error what => .error { code := JsonRpcErrorCode.internal_error,
                              message := "Failed to parse response: " ++ what }
  | none =>
    match response_json.get? "result" with
    | some r => .ok r
    | none => .error { code := JsonRpcErrorCode.internal_error,
                       message := "Invalid response: missing result or error" }

def send_request (c : McpClient) (s : McpServer ω) (method : String) (params : Json) (w : ω) :
    Except JsonRpcError Json × McpClient × McpServer ω × ω :=
  let request : JsonRpcRequest :=
    { method := method, params := some params, id := some (.int c.next_id_) }
  let r := s.handle_request request.to_json w
  (parse_response r.1, { c with next_id_ := c.next_id_ + 1 }, r.2.1, r.2.2)

/-- The decoder in `list_tools`, one element of the `tools` array. -/
def decode_tool (tool_json : Json) : Except String McpTool :=
  match tool_json.at_ "name" with
  | .error what => .error what
  | .ok n =>
    match n.get_string with
    | .error what => .error what
    | .ok name =>
      match tool_json.at_ "description" with
      | .error what => .error what
      | .ok d =>
        match d.get_string with
        | .error what => .error what
        | .ok description =>
          match tool_json.at_ "inputSchema" with
          | .error what => .error what
          | .ok schema =>
            .ok { name := name, description := description, input_schema := schema }

def decode_tools : List Json → Except String (List McpTool)
  | [] => .ok []
  | tool_json :: rest =>
    match decode_tool tool_json with
    | .error what => .error what
    | .ok tool =>
      match decode_tools rest with
      | .error what => .error what
      | .ok tools => .ok (tool :: tools)

def list_tools (c : McpClient) (s : McpServer ω) (w : ω) :
    Except JsonRpcError (List McpTool) × McpClient × McpServer ω × ω :=
  let r := c.send_request s "tools/list" (.obj []) w
  match r.1 with
  | .error e => (.error e, r.2)
  | .ok result =>
    match result.get? "tools" with
    | some (.arr tool_jsons) =>
      match decode_tools tool_jsons with
      | .ok tools => (.ok tools, r.2)
      | .error what =>
        (.error { code := JsonRpcErrorCode.internal_error,
                  message := "Failed to parse tools list: " ++ what }, r.2)
    | _ => (.ok [], r.2)

/-- The decoder in `call_tool`, applied to the `result` member of the response. -/
def decode_tool_result (result : Json) : Except String McpToolResult :=
  match (match result.get? "content" with
         | some (.arr blocks) => (.ok blocks : Except String (List Json))
         | _ => .ok []) with
  | .error what => .error what
  | .ok content =>
    match result.get? "isError" with
    | some flag =>
      match flag.get_bool with
      | .error what => .error what
      | .ok b => .ok { content := content, is_error := b }
    | none => .ok { content := content, is_error := false }

def call_tool (c : McpClient) (s : McpServer ω) (tool_name : String) (arguments : Json)
    (w : ω) : Except JsonRpcError McpToolResult × McpClient × McpServer ω × ω :=
  let params := (Json.null.set "name" (.str tool_name)).set "arguments" arguments
  let r := c.send_request s "tools/call" params w
  match r.1 with
  | .error e => (.error e, r.2)
  | .ok result =>
    match decode_tool_result result with
    | .ok tool_result => (.ok tool_result, r.2)
    | .error what =>
      (.error { code := JsonRpcErrorCode.internal_error,
                message := "Failed to parse tool result: " ++ what }, r.2)

end McpClient

namespace McpClient

variable {ω : Type}

/-- The decoder in `McpClient::initialize`, applied to the `result` member. -/
def decode_initialize_result (result : Json) : Except String McpInitializeResult :=
  match result.value_string "protocolVersion" "2024-11-05" with
  | .error what => .error what
  | .ok pv =>
    match (match result.get? "serverInfo" with
           | some si =>
             match si.value_string "name" "unknown" with
             | .error what => (.error what : Except String McpServerInfo)
             | .ok name =>
               match si.value_string "version" "unknown" with
               | .error what => .error what
               | .ok version => .ok { name := name, version := version }
           | none => .ok {}) with
    | .error what => .error what
    | .ok server_info =>
      .ok { protocol_version := pv
            server_info := server_info
            capabilities := match result.get? "capabilities" with
              | some caps => McpCapabilities.from_json caps
              | none => {} }

/-- The member function `McpClient::initialize` (the plain name is a reserved word). -/
def initialize_ (c : McpClient) (s : McpServer ω) (client_name client_version : String)
    (w : ω) : Except JsonRpcError McpInitializeResult × McpClient × McpServer ω × ω :=
  let params :=
    ((Json.null.set "protocolVersion" (.str "2024-11-05")).set "clientInfo"
      ((Json.null.set "name" (.str client_name)).set "version" (.str client_version))).set
      "capabilities" (McpCapabilities.to_json { tools := true })
  let r := c.send_request s "initialize" params w
  match r.1 with
  | .error e => (.error e, r.2)
  | .ok result =>
    match decode_initialize_result result with
    | .ok init_result => (.ok init_result, r.2)
    | .error what =>
      (.error { code := JsonRpcErrorCode.internal_error,
                message := "Failed to parse initialize result: " ++ what }, r.2)

/-- The request object that `send_request` fills in before it hands it to the server:
the method, the params and the current value of `next_id_` as identifier. -/
def build_request (c : McpClient) (method : String) (params : Json) : JsonRpcRequest :=
  { method := method, params := some params, id := some (.int c.next_id_) }

end McpClient

/-! ## Chat messages (`llm_client.hpp`) -/

namespace ChatRole

def System : String := "system"
def User : String := "user"
def Assistant : String := "assistant"
def Tool : String := "tool"

end ChatRole

inductive LlmErrorCode where
  | connection_failed
  | request_timeout
  | invalid_response
  | server_error
  | invalid_config
  | model_not_loaded
  | tokenization_failed
  | unknown_error
  deriving DecidableEq, Inhabited

structure LlmError where
  code : LlmErrorCode
  message : String
  http_status : Int := 0
  deriving DecidableEq, Inhabited

structure ToolCallFunction where
  name : String := ""
  arguments : Json := .null
  deriving DecidableEq, Inhabited

structure ToolCall where
  id : String := ""
  type : String := ""
  function : ToolCallFunction := {}
  deriving DecidableEq, Inhabited

structure ChatMessage where
  role : String := ""
  content : String := ""
  tool_calls : List ToolCall := []
  tool_call_id : String := ""
  deriving DecidableEq, Inhabited

/-- The call `LlmClient::chat_completion_with_tools(messages, tools, config)` as the agent
sees it: given the transcript and the tool catalog it returns a message or an error.  The
HTTP exchange behind it is outside the repository core; `σ` is whatever state the backend
keeps between calls.  The completion configuration is fixed per agent and only handed
through, so it is part of the function. -/
abbrev Backend (σ : Type) := List ChatMessage → List Json → σ → Except LlmError ChatMessage × σ

/-! ## The agent (`agent.hpp`) -/

structure AgentConfig where
  name : String := ""
  version : String := ""
  system_prompt : String := ""
  max_tool_iterations : Int := 10
  verbose : Bool := false
  deriving DecidableEq, Inhabited

structure AgentResponse where
  content : String := ""
  tool_calls_made : List String := []
  iterations : Int := 0
  stopped_by_limit : Bool := false
  deriving DecidableEq, Inhabited

structure Agent (ω : Type) where
  config_ : AgentConfig
  mcp_server_ : McpServer ω
  mcp_client_ : McpClient
  conversation_history_ : List ChatMessage

/-- The arguments of one `register_tool` call. -/
structure ToolRegistration (ω : Type) where
  name : String
  description : String
  input_schema : Json
  handler : ToolHandler ω

/-- The dispatcher after the given `register_tool` calls, made in list order. -/
def registerAll {ω : Type} (s : McpServer ω) (regs : List (ToolRegistration ω)) :
    McpServer ω :=
  regs.foldl (fun acc r => acc.register_tool r.name r.description r.input_schema r.handler) s

/-- What `Agent::process` leaves behind: the returned `std::expected`, the agent, the
backend state and the world. -/
structure ProcessResult (ω σ : Type) where
  result : Except String AgentResponse
  agent : Agent ω
  backend : σ
  world : ω

namespace Agent

variable {ω σ : Type}

/-- The constructor `Agent(config, llm_server_url)`.  The tools that
`ToolRegistry::register_*_tools` register are the list `builtin`; the constructor throws
when the initialization of the client fails. -/
def new (config : AgentConfig) (builtin : List (ToolRegistration ω)) (w : ω) :
    Except String (Agent ω) × ω :=
  let server : McpServer ω := McpServer.new config.name config.version
  let r := McpClient.initialize_ ({ next_id_ := 1 } : McpClient) server config.name
    config.version w
  match r.1 with
  | .error e => (.error ("Failed to initialize MCP client: " ++ e.message), r.2.2.2)
  | .ok _ =>
    (.ok { config_ := config
           mcp_server_ := registerAll r.2.2.1 builtin
           mcp_client_ := r.2.1
           conversation_history_ :=
             if config.system_prompt ≠ "" then
               [{ role := ChatRole.System, content := config.system_prompt }]
             else [] },
     r.2.2.2)

def get_conversation_history (a : Agent ω) : List ChatMessage := a.conversation_history_

/-- The member function `clear_conversation`: the loop pushes every message whose role is
system onto `system_messages`, which then replaces the history. -/
def clear_conversation (a : Agent ω) : Agent ω :=
  { a with
    conversation_history_ :=
      (a.conversation_history_.foldl
        (fun system_messages msg =>
          if msg.role = ChatRole.System then system_messages ++ [msg] else system_messages)
        []) }

def get_function_schemas (a : Agent ω) : List Json := a.mcp_server_.get_function_schemas

def add_system_instruction (a : Agent ω) (instruction : String) : Agent ω :=
  { a with conversation_history_ :=
      a.conversation_history_ ++ [{ role := ChatRole.System, content := instruction }] }

def register_tool (a : Agent ω) (name description : String)
    (parameters : List McpToolParameter) (function : ToolHandler ω) : Agent ω :=
  { a with
    mcp_server_ := (a.mcp_server_.register_tool_params name description parameters function) }

/-- The text of the tool message for one tool call outcome. -/
def result_content (dump : Json → String) (tool_result : Except JsonRpcError McpToolResult) :
    String :=
  match tool_result with
  | .ok r => dump ((Json.null.set "success" (.bool true)).set "content" (.arr r.content))
  | .error e => dump ((Json.null.set "success" (.bool false)).set "error" (.str e.message))

/-- The inner loop of `process` over the requested tool calls. -/
def run_tool_calls (dump : Json → String) :
    List ToolCall → Agent ω → AgentResponse → ω → Agent ω × AgentResponse × ω
  | [], a, response, w => (a, response, w)
  | tool_call :: rest, a, response, w =>
    let r := a.mcp_client_.call_tool a.mcp_server_ tool_call.function.name
      tool_call.function.arguments w
    run_tool_calls dump rest
      { a with
        mcp_client_ := r.2.1
        mcp_server_ := r.2.2.1
        conversation_history_ := a.conversation_history_ ++
          [{ role := ChatRole.Tool, content := result_content dump r.1, tool_calls := [],
             tool_call_id := tool_call.id }] }
      { response with tool_calls_made := response.tool_calls_made ++ [tool_call.function.name] }
      r.2.2.2

/-- The loop `for (int iteration = 0; iteration < max_tool_iterations; ++iteration)`, with
`remaining` the number of turns still allowed (`max_tool_iterations - iteration`) and the
code after the loop as the case of no turn left. -/
def process_loop (dump : Json → String) (backend : Backend σ) :
    Nat → Int → Agent ω → AgentResponse → σ → ω → ProcessResult ω σ
  | 0, _, a, response, b, w =>
    { result := .ok { response with
        stopped_by_limit := true
        content := "Maximum tool iterations reached. Please simplify your request." }
      agent := a, backend := b, world := w }
  | remaining + 1, iteration, a, response, b, w =>
    let response := { response with iterations := iteration + 1 }
    let functions := a.get_function_schemas
    match backend a.conversation_history_ functions b with
    | (.error e, b') =>
      { result := .error ("LLM error: " ++ e.message), agent := a, backend := b', world := w }
    | (.ok chat_result, b') =>
      if chat_result.tool_calls.isEmpty then
        { result := .ok { response with content := chat_result.content }
          agent := { a with conversation_history_ := a.conversation_history_ ++
            [{ role := ChatRole.Assistant, content := chat_result.content }] }
          backend := b', world := w }
      else
        let a1 := { a with conversation_history_ := a.conversation_history_ ++
          [{ role := ChatRole.Assistant, content := chat_result.content,
             tool_calls := chat_result.tool_calls }] }
        let r := run_tool_calls dump chat_result.tool_calls a1 response w
        process_loop dump backend remaining (iteration + 1) r.1 r.2.1 b' r.2.2

/-- The member function `Agent::process(user_message)`. -/
def process (dump : Json → String) (backend : Backend σ) (a : Agent ω)
    (user_message : String) (b : σ) (w : ω) : ProcessResult ω σ :=
  let a0 := { a with conversation_history_ := a.conversation_history_ ++
    [{ role := ChatRole.User, content := user_message }] }
  process_loop dump backend a.config_.max_tool_iterations.toNat 0 a0 {} b w

end Agent

/-! ## The coordinator (`coordinator.hpp`)

Agents are held by `std::shared_ptr<Agent>`.  A pointer is `none` (null) or the address of
an agent in a store `Nat → Agent ω`, so that two names can share one agent and a null
pointer can be registered, as the C++ types allow.  The members `llm_endpoint_` and
`mcp_server_` are set by the constructor and read by no member function embedded here.
Time stamps are natural numbers handed in by the caller in place of reads of the system
clock.  The usage counters are `int`; their increment overflows only after 2147483647
successful calls, which the embedding does not model. -/

structure UserRequest where
  user_id : String := ""
  session_id : String := ""
  message : String := ""
  preferred_agent : Option String := none
  metadata : Json := .obj []
  deriving DecidableEq, Inhabited

structure CoordinatorResponse where
  agent_name : String := ""
  response : String := ""
  tool_results : List String := []
  requires_followup : Bool := false
  next_agent_suggestion : Option String := none
  agents_used : Int := 1
  deriving DecidableEq, Inhabited

structure Session where
  session_id : String := ""
  user_id : String := ""
  request_history : List UserRequest := []
  context : List (String × String) := []
  created_at : Nat := 0
  last_activity : Nat := 0
  deriving DecidableEq, Inhabited

inductive RoutingStrategy where
  | IntentBased
  | KeywordBased
  | PreferredAgent
  | RoundRobin
  deriving DecidableEq, Inhabited

/-- A `std::shared_ptr<Agent>`: null, or the address of an agent in the store. -/
abbrev AgentPtr := Option Nat

structure Coordinator where
  agents_ : List (String × AgentPtr) := []
  sessions_ : List (String × Session) := []
  agent_usage_ : List (String × Int) := []
  routing_strategy_ : RoutingStrategy := .IntentBased
  verbose_ : Bool := false
  round_robin_index_ : Nat := 0
  deriving DecidableEq, Inhabited

/-- The external collaborators of the coordinator and its agents: the serializer, the
chat backend behind the `LlmClient` of the agent at each address, and the plain completion
call of the coordinator, which returns the texts of the choices or an error. -/
structure Services (σ : Type) where
  dump : Json → String
  agent_backend : Nat → Backend σ
  completion : String → σ → Except LlmError (List String) × σ

/-- Everything a coordinator call can change: the coordinator, the agents behind the
shared pointers, the state of the model backend and the world of the tools. -/
structure System (ω σ : Type) where
  coordinator : Coordinator
  store : Nat → Agent ω
  backend : σ
  world : ω

/-- The loop `std::transform(..., ::tolower)` in the C locale. -/
def to_lower (s : String) : String := ⟨s.data.map Char.toLower⟩

/-- The list `needle` stands at the front of the list `hay`. -/
def startsWith : List Char → List Char → Bool
  | [], _ => true
  | _ :: _, [] => false
  | a :: as, b :: bs => a == b && startsWith as bs

/-- The list `needle` occurs in the list `hay`. -/
def occursIn (needle : List Char) : List Char → Bool
  | [] => startsWith needle []
  | c :: cs => startsWith needle (c :: cs) || occursIn needle cs

/-- The test `hay.find(needle) != std::string::npos`. -/
def str_find (hay needle : String) : Bool := occursIn needle.data hay.data

/-- Membership in the set `" \t\n\r"`. -/
def is_trim_char (c : Char) : Bool := c == ' ' || c == '\t' || c == '\n' || c == '\r'

/-- The two `erase` calls of `route_by_intent` that trim white space at both ends. -/
def trim_whitespace (s : String) : String :=
  ⟨((s.data.dropWhile is_trim_char).reverse.dropWhile is_trim_char).reverse⟩

/-- The function `std::to_string` on a `size_t`. -/
def to_string (n : Nat) : String := toString n

namespace Coordinator

variable {ω σ : Type}

def register_agent (c : Coordinator) (name : String) (agent : AgentPtr) : Coordinator :=
  { c with
    agents_ := mapInsert c.agents_ name agent
    agent_usage_ := mapInsert c.agent_usage_ name 0 }

def remove_agent (c : Coordinator) (name : String) : Coordinator :=
  { c with
    agents_ := mapErase c.agents_ name
    agent_usage_ := mapErase c.agent_usage_ name }

def list_agents (c : Coordinator) : List String := mapKeys c.agents_

/-- The test `agents_.count(name)`. -/
def has_agent (c : Coordinator) (name : String) : Bool := (mapFind c.agents_ name).isSome

def get_agent (c : Coordinator) (name : String) : AgentPtr :=
  match mapFind c.agents_ name with
  | some agent => agent
  | none => none

def create_session (c : Coordinator) (session_id user_id : String)
    (created_at last_activity : Nat) : Coordinator :=
  { c with
    sessions_ := mapInsert c.sessions_ session_id
      { session_id := session_id, user_id := user_id, created_at := created_at,
        last_activity := last_activity } }

def end_session (c : Coordinator) (session_id : String) : Coordinator :=
  { c with sessions_ := mapErase c.sessions_ session_id }

def get_session (c : Coordinator) (session_id : String) : Option Session :=
  mapFind c.sessions_ session_id

def update_session_context (c : Coordinator) (session_id key value : String) (now : Nat) :
    Coordinator :=
  match mapFind c.sessions_ session_id with
  | some session =>
    { c with
      sessions_ := mapInsert c.sessions_ session_id
        { session with
          context := mapInsert session.context key value
          last_activity := now } }
  | none => c

def get_agent_usage_stats (c : Coordinator) : List (String × Int) := c.agent_usage_

def get_active_sessions_count (c : Coordinator) : Nat := c.sessions_.length

def route_by_keywords (c : Coordinator) (message : String) : Except String String :=
  let lower_message := to_lower message
  if (str_find lower_message "code" || str_find lower_message "review" ||
      str_find lower_message "refactor" || str_find lower_message "bug" ||
      str_find lower_message "function") && c.has_agent "CodeAssistant" then
    .ok "CodeAssistant"
  else if (str_find lower_message "deploy" || str_find lower_message "service" ||
      str_find lower_message "log" || str_find lower_message "infrastructure" ||
      str_find lower_message "monitoring") && c.has_agent "DevOpsAgent" then
    .ok "DevOpsAgent"
  else if (str_find lower_message "document" || str_find lower_message "docs" ||
      str_find lower_message "api" || str_find lower_message "readme") &&
      c.has_agent "DocumentationAgent" then
    .ok "DocumentationAgent"
  else if (str_find lower_message "test" || str_find lower_message "coverage" ||
      str_find lower_message "unittest") && c.has_agent "TestingAgent" then
    .ok "TestingAgent"
  else if (str_find lower_message "data" || str_find lower_message "analyze" ||
      str_find lower_message "statistics" || str_find lower_message "metrics") &&
      c.has_agent "DataAnalystAgent" then
    .ok "DataAnalystAgent"
  else if (str_find lower_message "security" || str_find lower_message "vulnerabilit" ||
      str_find lower_message "encryption" || str_find lower_message "authentication") &&
      c.has_agent "SecurityAgent" then
    .ok "SecurityAgent"
  else
    match c.agents_ with
    | first :: _ => .ok first.1
    | [] => .error "No agents available"

/-- The key that `std::advance(it, n)` reaches from `begin()`, for `n` below the size. -/
def key_at (m : List (String × AgentPtr)) (n : Nat) : String :=
  match m.drop n with
  | entry :: _ => entry.1
  | [] => ""

def route_round_robin (c : Coordinator) : Except String String × Coordinator :=
  match c.agents_ with
  | [] => (.error "No agents available", c)
  | _ :: _ =>
    (.ok (key_at c.agents_ (c.round_robin_index_ % c.agents_.length)),
     { c with round_robin_index_ := (c.round_robin_index_ + 1) % 18446744073709551616 })

/-- The prompt that `route_by_intent` sends to the backend. -/
def routing_prompt (c : Coordinator) (message : String) : String :=
  let routing_prompt :=
    "Analyze the following user request and determine which specialized agent " ++
    "should handle it.\n\nAvailable agents:\n"
  let routing_prompt :=
    c.agents_.foldl (fun acc entry => acc ++ ("- " ++ entry.1 ++ "\n")) routing_prompt
  let routing_prompt := routing_prompt ++ ("\nUser request: " ++ message ++ "\n\n")
  routing_prompt ++ "Respond with ONLY the agent name, nothing else."

def route_by_intent (sv : Services σ) (c : Coordinator) (message : String) (b : σ) :
    Except String String × σ :=
  match sv.completion (routing_prompt c message) b with
  | (.error _, b') => (route_by_keywords c message, b')
  | (.ok [], b') => (route_by_keywords c message, b')
  | (.ok (text :: _), b') =>
    let agent_name := trim_whitespace text
    if c.has_agent agent_name then (.ok agent_name, b')
    else (route_by_keywords c message, b')

def route_request (sv : Services σ) (c : Coordinator) (request : UserRequest) (b : σ) :
    Except String String × Coordinator × σ :=
  match (match request.preferred_agent with
         | some preferred => if c.has_agent preferred then some preferred else none
         | none => none) with
  | some preferred => (.ok preferred, c, b)
  | none =>
    match c.routing_strategy_ with
    | .IntentBased =>
      let r := route_by_intent sv c request.message b
      (r.1, c, r.2)
    | .KeywordBased => (route_by_keywords c request.message, c, b)
    | .RoundRobin =>
      let r := route_round_robin c
      (r.1, r.2, b)
    | .PreferredAgent => (route_by_keywords c request.message, c, b)

def should_suggest_followup (message : String) : Bool :=
  let lower := to_lower message
  str_find lower "then" || str_find lower "after" || str_find lower "next" ||
    str_find lower "also"

def suggest_next_agent (current_agent message : String) : Option String :=
  if current_agent = "CodeAssistant" && str_find message "test" then some "TestingAgent"
  else if current_agent = "CodeAssistant" && str_find message "deploy" then some "DevOpsAgent"
  else if current_agent = "TestingAgent" && str_find message "document" then
    some "DocumentationAgent"
  else none

/-- The first block of `handle_request`: the request is stored in the history of its
session, when it names a session that exists. -/
def record_request (c : Coordinator) (request : UserRequest) (now : Nat) : Coordinator :=
  if request.session_id ≠ "" then
    match mapFind c.sessions_ request.session_id with
    | some session =>
      { c with
        sessions_ := mapInsert c.sessions_ request.session_id
          { session with
            request_history := session.request_history ++ [request]
            last_activity := now } }
    | none => c
  else c

/-- The statement `agent_usage_[agent_name]++`. -/
def count_usage (c : Coordinator) (agent_name : String) : Coordinator :=
  { c with
    agent_usage_ := mapInsert c.agent_usage_ agent_name
      ((match mapFind c.agent_usage_ agent_name with
        | some n => n
        | none => 0) + 1) }

def handle_request (sv : Services σ) (sys : System ω σ) (request : UserRequest) (now : Nat) :
    Except String CoordinatorResponse × System ω σ :=
  let c := record_request sys.coordinator request now
  match route_request sv c request sys.backend with
  | (.error e, c', b') => (.error e, { sys with coordinator := c', backend := b' })
  | (.ok agent_name, c', b') =>
    match c'.get_agent agent_name with
    | none =>
      (.error ("Agent not found: " ++ agent_name),
       { sys with coordinator := c', backend := b' })
    | some agent =>
      let r := (sys.store agent).process sv.dump (sv.agent_backend agent) request.message b'
        sys.world
      let store := Function.update sys.store agent r.agent
      match r.result with
      | .error e =>
        (.error ("Agent processing failed: " ++ e),
         { coordinator := c', store := store, backend := r.backend, world := r.world })
      | .ok agent_response =>
        (.ok { agent_name := agent_name
               response := agent_response.content
               tool_results := agent_response.tool_calls_made
               requires_followup := agent_response.stopped_by_limit
               agents_used := 1
               next_agent_suggestion :=
                 if agent_response.stopped_by_limit || should_suggest_followup request.message
                 then suggest_next_agent agent_name request.message
                 else none },
         { coordinator := count_usage c' agent_name, store := store, backend := r.backend,
           world := r.world })

def aggregate_responses (responses : List String) : String :=
  match responses with
  | [only] => only
  | _ =>
    let aggregated := "## Collaborative Response\n\n"
    let aggregated := aggregated ++ "Multiple agents have contributed to this response:\n\n"
    let aggregated :=
      responses.foldl (fun acc response => acc ++ ("### " ++ response ++ "\n\n")) aggregated
    let aggregated := aggregated ++ "---\n\n"
    aggregated ++ ("**Summary**: This response combines insights from " ++
      to_string responses.length ++ " specialized agents.")

/-- The loop of `collaborate` over `agent_names`; the state is `all_responses`,
`all_tools` and the system. -/
def collaborate_loop (sv : Services σ) (task : String) :
    List String → List String × List String × System ω σ →
      List String × List String × System ω σ
  | [], st => st
  | agent_name :: rest, (all_responses, all_tools, sys) =>
    match sys.coordinator.get_agent agent_name with
    | none => collaborate_loop sv task rest (all_responses, all_tools, sys)
    | some agent =>
      let r := (sys.store agent).process sv.dump (sv.agent_backend agent) task sys.backend
        sys.world
      let store := Function.update sys.store agent r.agent
      match r.result with
      | .ok response =>
        collaborate_loop sv task rest
          (all_responses ++ [agent_name ++ ": " ++ response.content],
           all_tools ++ response.tool_calls_made,
           { coordinator := count_usage sys.coordinator agent_name, store := store,
             backend := r.backend, world := r.world })
      | .error _ =>
        collaborate_loop sv task rest
          (all_responses, all_tools,
           { sys with store := store, backend := r.backend, world := r.world })

def collaborate (sv : Services σ) (sys : System ω σ) (task : String)
    (agent_names : List String) : Except String CoordinatorResponse × System ω σ :=
  let st := collaborate_loop sv task agent_names ([], [], sys)
  if st.1.isEmpty then (.error "No agents provided valid responses", st.2.2)
  else
    (.ok { agent_name := "Collaboration"
           response := aggregate_responses st.1
           tool_results := st.2.1
           requires_followup := false
           agents_used := toInt32 agent_names.length },
     st.2.2)

end Coordinator

/-! ## Handlers that throw a value of any type

Every `catch` clause of the dispatcher and of the client names `std::exception`.  A tool
handler is a `std::function` and can throw a value of any other type (`throw 42;`).  No
clause catches such a value, so it leaves `McpServer::handle_request`,
`McpClient::call_tool` and `Agent::process`.  The parts above embed the code for handlers
whose exceptions derive from `std::exception`.  This part embeds the same member functions
for handlers that may throw anything: `Full.HandlerOutcome` has the fourth outcome, and a
call ends in a value of `Full.Outcome`, which tells a return from a call that a thrown
value has left.  The state that the call has reached by then stays as it is.  On handlers
of the narrower kind the two embeddings agree (`lift_handle_request`, `lift_call_tool`,
`lift_process`). -/

namespace Full

/-- What a call of a `ToolHandler` can come to: the value of the `std::expected`, its
error, an exception derived from `std::exception` (with its `what()` text), or a thrown
value of any other type (`thrown` stands for the value). -/
inductive HandlerOutcome where
  | ok (r : McpToolResult)
  | err (e : JsonRpcError)
  | throws (what : String)
  | throws_other (thrown : String)
  deriving DecidableEq, Inhabited

/-- The handler type `std::function<std::expected<McpToolResult, JsonRpcError>(const json&)>`,
with the state `ω` it may act on made explicit. -/
abbrev ToolHandler (ω : Type) := Json → ω → HandlerOutcome × ω

/-- How a call of a member function ends: it returns a value, or a thrown value that no
`catch` clause on the way names leaves it. -/
inductive Outcome (α : Type) where
  | returned (value : α)
  | escaped (thrown : String)
  deriving DecidableEq

structure McpServer (ω : Type) where
  server_info_ : McpServerInfo
  capabilities_ : McpCapabilities
  client_info_ : Option McpClientInfo
  initialized_ : Bool
  tools_ : List (String × McpTool)
  tool_handlers_ : List (String × ToolHandler ω)

namespace McpServer

variable {ω : Type}

/-- The constructor `McpServer(name, version)`. -/
def new (name version : String) : McpServer ω :=
  { server_info_ := { name := name, version := version }
    capabilities_ := { tools := true, prompts := false, resources := false, logging := false }
    client_info_ := none
    initialized_ := false
    tools_ := []
    tool_handlers_ := [] }

def register_tool (s : McpServer ω) (name description : String) (input_schema : Json)
    (handler : ToolHandler ω) : McpServer ω :=
  { s with
    tools_ := mapInsert s.tools_ name
      { name := name, description := description, input_schema := input_schema }
    tool_handlers_ := mapInsert s.tool_handlers_ name handler }

def unregister_tool (s : McpServer ω) (name : String) : McpServer ω :=
  { s with
    tools_ := mapErase s.tools_ name
    tool_handlers_ := mapErase s.tool_handlers_ name }

def list_tool_names (s : McpServer ω) : List String := mapKeys s.tools_

def handle_initialize (s : McpServer ω) (params : Option Json) :
    Except JsonRpcError Json × McpServer ω :=
  match params with
  | none => (.error { code := JsonRpcErrorCode.invalid_params,
                      message := "Initialize requires parameters" }, s)
  | some p =>
    match McpInitializeParams.from_json p with
    | .ok init_params =>
      (.ok (McpInitializeResult.to_json
              { protocol_version := "2024-11-05"
                server_info := s.server_info_
                capabilities := s.capabilities_ }),
       { s with client_info_ := some init_params.client_info, initialized_ := true })
    | .error what =>
      (.error { code := JsonRpcErrorCode.invalid_params,
                message := "Invalid initialize params: " ++ what }, s)

def handle_list_tools (s : McpServer ω) (_params : Option Json) : Except JsonRpcError Json :=
  if !s.initialized_ then
    .error { code := JsonRpcErrorCode.server_not_initialized,
             message := "Server not initialized. Call \x27initialize\x27 first." }
  else
    .ok (McpListToolsResult.to_json { tools := s.tools_.map Prod.snd })

/-- The member function `handle_call_tool`.  Its `try` block has the one clause
`catch (const std::exception&)`: a value of another type thrown by the handler is not
caught and leaves the function. -/
def handle_call_tool (s : McpServer ω) (params : Option Json) (w : ω) :
    Outcome (Except JsonRpcError Json) × ω :=
  if !s.initialized_ then
    (.returned (.error { code := JsonRpcErrorCode.server_not_initialized,
                         message := "Server not initialized. Call \x27initialize\x27 first." }),
     w)
  else
    match params with
    | none => (.returned (.error { code := JsonRpcErrorCode.invalid_params,
                                   message := "Tool call requires parameters" }), w)
    | some p =>
      match McpCallToolParams.from_json p with
      | .error what =>
        (.returned (.error { code := JsonRpcErrorCode.tool_execution_failed,
                             message := "Tool execution failed: " ++ what }), w)
      | .ok call_params =>
        match mapFind s.tools_ call_params.name with
        | none =>
          (.returned (.error { code := JsonRpcErrorCode.tool_not_found,
                               message := "Tool not found: " ++ call_params.name }), w)
        | some tool =>
          match mapFind s.tool_handlers_ call_params.name with
          | none =>
            (.returned (.error { code := JsonRpcErrorCode.internal_error,
                                 message := "Tool handler not found: " ++ call_params.name }),
             w)
          | some handler =>
            match McpValidator.validate_tool_params call_params.arguments tool.input_schema with
            | .error e => (.returned (.error e), w)
            | .ok _ =>
              match handler call_params.arguments w with
              | (.ok r, w') => (.returned (.ok r.to_json), w')
              | (.err e, w') => (.returned (.error e), w')
              | (.throws what, w') =>
                (.returned (.error { code := JsonRpcErrorCode.tool_execution_failed,
                                     message := "Tool execution failed: " ++ what }), w')
              | (.throws_other thrown, w') => (.escaped thrown, w')

def handle_ping (_s : McpServer ω) (_params : Option Json) : Except JsonRpcError Json :=
  .ok (.obj [])

/-- The routing part of `handle_request(const nlohmann::json&)`: the `std::expected`
named `result` in the source, or the value that has left `handle_call_tool`, with the
server and world state reached. -/
def dispatch (s : McpServer ω) (request : JsonRpcRequest) (w : ω) :
    Outcome (Except JsonRpcError Json) × McpServer ω × ω :=
  if request.method = "initialize" then
    let r := handle_initialize s request.params
    (.returned r.1, r.2, w)
  else if request.method = "tools/list" then
    (.returned (s.handle_list_tools request.params), s, w)
  else if request.method = "tools/call" then
    let r := s.handle_call_tool request.params w
    (r.1, s, r.2)
  else if request.method = "ping" then
    (.returned (s.handle_ping request.params), s, w)
  else
    (.returned (.error { code := JsonRpcErrorCode.method_not_found,
                         message := "Method not found: " ++ request.method }), s, w)

/-- The overload `handle_request(const nlohmann::json&)`, which has no `try` block: the
response object, or the value that has left the call, with the server and the world after
the request. -/
def handle_request (s : McpServer ω) (request_json : Json) (w : ω) :
    Outcome Json × McpServer ω × ω :=
  match JsonRpcRequest.from_json request_json with
  | .error e => (.returned (JsonRpcResponse.error_response e make_null_id).to_json, s, w)
  | .ok request =>
    let response_id : JsonRpcId := match request.id with
      | some i => i
      | none => make_null_id
    match s.dispatch request w with
    | (.returned (.ok v), s', w') =>
      (.returned (JsonRpcResponse.success v response_id).to_json, s', w')
    | (.returned (.error e), s', w') =>
      (.returned (JsonRpcResponse.error_response e response_id).to_json, s', w')
    | (.escaped thrown, s', w') => (.escaped thrown, s', w')

def get_function_schemas (s : McpServer ω) : List Json :=
  s.tools_.map (fun kv => Intellistant.McpServer.function_schema kv.2)

end McpServer

namespace McpClient

variable {ω : Type}

/-- The member function `send_request`: `next_id_` is incremented before the server is
called, and the call of the server stands in front of the `try` block. -/
def send_request (c : Intellistant.McpClient) (s : McpServer ω) (method : String)
    (params : Json) (w : ω) :
    Outcome (Except JsonRpcError Json) × Intellistant.McpClient × McpServer ω × ω :=
  let request : JsonRpcRequest :=
    { method := method, params := some params, id := some (.int c.next_id_) }
  match s.handle_request request.to_json w with
  | (.returned response_json, s', w') =>
    (.returned (Intellistant.McpClient.parse_response response_json),
     { c with next_id_ := c.next_id_ + 1 }, s', w')
  | (.escaped thrown, s', w') =>
    (.escaped thrown, { c with next_id_ := c.next_id_ + 1 }, s', w')

def call_tool (c : Intellistant.McpClient) (s : McpServer ω) (tool_name : String)
    (arguments : Json) (w : ω) :
    Outcome (Except JsonRpcError McpToolResult) × Intellistant.McpClient × McpServer ω × ω :=
  let params := (Json.null.set "name" (.str tool_name)).set "arguments" arguments
  match send_request c s "tools/call" params w with
  | (.escaped thrown, st) => (.escaped thrown, st)
  | (.returned (.error e), st) => (.returned (.error e), st)
  | (.returned (.ok result), st) =>
    match Intellistant.McpClient.decode_tool_result result with
    | .ok tool_result => (.returned (.ok tool_result), st)
    | .error what =>
      (.returned (.error { code := JsonRpcErrorCode.internal_error,
                           message := "Failed to parse tool result: " ++ what }), st)

end McpClient

structure Agent (ω : Type) where
  config_ : AgentConfig
  mcp_server_ : McpServer ω
  mcp_client_ : Intellistant.McpClient
  conversation_history_ : List ChatMessage

/-- What `Agent::process` leaves behind: the returned `std::expected` or the value that
has left the call, the agent, the backend state and the world. -/
structure ProcessResult (ω σ : Type) where
  result : Outcome (Except String AgentResponse)
  agent : Agent ω
  backend : σ
  world : ω

namespace Agent

variable {ω σ : Type}

def get_function_schemas (a : Agent ω) : List Json := a.mcp_server_.get_function_schemas

/-- The inner loop of `process` over the requested tool calls.  The loop has no `try`
block: a value that leaves `call_tool` leaves the loop, the calls behind it are not made
and the local `response` is lost. -/
def run_tool_calls (dump : Json → String) :
    List ToolCall → Agent ω → AgentResponse → ω → Outcome AgentResponse × Agent ω × ω
  | [], a, response, w => (.returned response, a, w)
  | tool_call :: rest, a, response, w =>
    match McpClient.call_tool a.mcp_client_ a.mcp_server_ tool_call.function.name
        tool_call.function.arguments w with
    | (.escaped thrown, c', s', w') =>
      (.escaped thrown, { a with mcp_client_ := c', mcp_server_ := s' }, w')
    | (.returned tool_result, c', s', w') =>
      run_tool_calls dump rest
        { a with
          mcp_client_ := c'
          mcp_server_ := s'
          conversation_history_ := a.conversation_history_ ++
            [{ role := ChatRole.Tool
               content := Intellistant.Agent.result_content dump tool_result
               tool_calls := [], tool_call_id := tool_call.id }] }
        { response with tool_calls_made := response.tool_calls_made ++ [tool_call.function.name] }
        w'

/-- The loop `for (int iteration = 0; iteration < max_tool_iterations; ++iteration)`, with
`remaining` the number of turns still allowed and the code after the loop as the case of
no turn left. -/
def process_loop (dump : Json → String) (backend : Backend σ) :
    Nat → Int → Agent ω → AgentResponse → σ → ω → ProcessResult ω σ
  | 0, _, a, response, b, w =>
    { result := .returned (.ok { response with
        stopped_by_limit := true
        content := "Maximum tool iterations reached. Please simplify your request." })
      agent := a, backend := b, world := w }
  | remaining + 1, iteration, a, response, b, w =>
    let response := { response with iterations := iteration + 1 }
    let functions := a.get_function_schemas
    match backend a.conversation_history_ functions b with
    | (.error e, b') =>
      { result := .returned (.error ("LLM error: " ++ e.message))
        agent := a, backend := b', world := w }
    | (.ok chat_result, b') =>
      if chat_result.tool_calls.isEmpty then
        { result := .returned (.ok { response with content := chat_result.content })
          agent := { a with conversation_history_ := a.conversation_history_ ++
            [{ role := ChatRole.Assistant, content := chat_result.content }] }
          backend := b', world := w }
      else
        let a1 := { a with conversation_history_ := a.conversation_history_ ++
          [{ role := ChatRole.Assistant, content := chat_result.content,
             tool_calls := chat_result.tool_calls }] }
        match run_tool_calls dump chat_result.tool_calls a1 response w with
        | (.escaped thrown, a2, w') =>
          { result := .escaped thrown, agent := a2, backend := b', world := w' }
        | (.returned response', a2, w') =>
          process_loop dump backend remaining (iteration + 1) a2 response' b' w'

/-- The member function `Agent::process(user_message)`. -/
def process (dump : Json → String) (backend : Backend σ) (a : Agent ω)
    (user_message : String) (b : σ) (w : ω) : ProcessResult ω σ :=
  let a0 := { a with conversation_history_ := a.conversation_history_ ++
    [{ role := ChatRole.User, content := user_message }] }
  process_loop dump backend a.config_.max_tool_iterations.toNat 0 a0 {} b w

end Agent

end Full

/-! ## Definitions used to state the properties -/

section Definitions

variable {ω σ : Type}

/-- The integer under `error.code` of a response object, when it has one. -/
def responseErrorCode (response : Json) : Option Json :=
  (response.get? "error").bind (fun e => e.get? "code")

/-- The members of an object; no members for any other value. -/
def Json.members : Json → List (String × Json)
  | .obj kvs => kvs
  | _ => []

/-- The fields named in `schema.required`: the strings of that array. -/
def specRequiredFields (schema : Json) : List String :=
  match schema.get? "required" with
  | some (.arr reqs) =>
    reqs.filterMap (fun entry => match entry with
      | .str f => some f
      | _ => none)
  | _ => []

/-- The type name that `schema.properties` declares for a field, when it declares one. -/
def specDeclaredType (schema : Json) (field : String) : Option String :=
  match schema.get? "properties" with
  | some props =>
    match props.get? field with
    | some field_schema =>
      match field_schema.get? "type" with
      | some (.str t) => some t
      | _ => none
    | none => none
  | none => none

/-- The names of the primitive types of JSON Schema. -/
def specPrimitiveTypes : List String :=
  ["string", "number", "integer", "boolean", "object", "array", "null"]

/-- The primitive types a value belongs to; an integer is also a number. -/
def specTypesOf : Json → List String
  | .null => ["null"]
  | .bool _ => ["boolean"]
  | .int _ => ["integer", "number"]
  | .float _ => ["number"]
  | .str _ => ["string"]
  | .arr _ => ["array"]
  | .obj _ => ["object"]

/-- A value has the declared primitive type; a declared name that is no primitive type
asks for nothing. -/
def specHasType (v : Json) (t : String) : Bool :=
  !(specPrimitiveTypes.contains t) || (specTypesOf v).contains t

/-- The acceptance condition as the specification words it: the arguments are an object,
every field named in `schema.required` is present, and every field present both in the
arguments and in `schema.properties` has a value of the declared primitive type. -/
def specAccepts (args schema : Json) : Bool :=
  args.is_object &&
    (specRequiredFields schema).all (fun f => args.contains f) &&
    args.members.all (fun kv =>
      match specDeclaredType schema kv.1 with
      | some t => specHasType kv.2 t
      | none => true)

/-- Every entry of the array `schema.required` is a string. -/
def requiredEntriesAreStrings (schema : Json) : Bool :=
  match schema.get? "required" with
  | some (.arr reqs) => reqs.all Json.is_string
  | _ => true

/-- Every `type` that `schema.properties` gives for a field of the arguments is a
string. -/
def declaredTypesAreStrings (args schema : Json) : Bool :=
  match schema.get? "properties" with
  | some (.obj props) =>
    args.members.all (fun kv =>
      match mapFind props kv.1 with
      | some field_schema =>
        match field_schema.get? "type" with
        | some t => t.is_string
        | none => true
      | none => true)
  | _ => true

/-- The invariant of `std::map`: the keys are strictly increasing. -/
def sortedKeys {α : Type} (m : List (String × α)) : Prop :=
  (mapKeys m).Pairwise (fun a b => strLt a b = true)

instance {α : Type} (m : List (String × α)) : Decidable (sortedKeys m) := by
  unfold sortedKeys; infer_instance

/-- The most recent registration of a name in a sequence of registrations. -/
def lastRegistration : List (ToolRegistration ω) → String → Option (ToolRegistration ω)
  | [], _ => none
  | r :: rest, n =>
    match lastRegistration rest n with
    | some later => some later
    | none => if r.name = n then some r else none

/-- The invariant of the tool table: keys strictly increasing, and every tool stored under
its own name. -/
def toolsInvariant (s : McpServer ω) : Prop :=
  sortedKeys s.tools_ ∧ ∀ kv ∈ s.tools_, kv.2.name = kv.1

/-- The calls that change a dispatcher: the two registration calls and the handling of a
request (with the world state it runs in). -/
inductive ServerOp (ω : Type) where
  | register (r : ToolRegistration ω)
  | unregister (name : String)
  | request (request_json : Json) (w : ω)

/-- The dispatcher after one call. -/
def applyOp (s : McpServer ω) : ServerOp ω → McpServer ω
  | .register r => s.register_tool r.name r.description r.input_schema r.handler
  | .unregister name => s.unregister_tool name
  | .request request_json w => (s.handle_request request_json w).2.1

/-- A well-formed request for a method the dispatcher does not know, used to test the
state requirement of C1. -/
def unknownMethodRequest : Json :=
  JsonRpcRequest.to_json { method := "resources/list", id := some (.int 7) }

/-- An initialize request as `McpClient::initialize` sends it. -/
def initializeRequest : Json :=
  JsonRpcRequest.to_json
    { method := "initialize"
      params := some (((Json.null.set "protocolVersion" (.str "2024-11-05")).set "clientInfo"
        ((Json.null.set "name" (.str "cli")).set "version" (.str "1.0"))).set "capabilities"
        (McpCapabilities.to_json { tools := true }))
      id := some (.int 1) }

/-- A handler that returns its arguments as the single content block and counts its runs
in the world state. -/
def echoHandler : ToolHandler Nat := fun args runs => (.ok { content := [args] }, runs + 1)

/-- A handler that fails with an error it labels with the code invalid_params. -/
def refusingHandler : ToolHandler Nat := fun _ runs =>
  (.err { code := JsonRpcErrorCode.invalid_params, message := "unsupported" }, runs + 1)

/-- A handler that throws. -/
def throwingHandler : ToolHandler Nat := fun _ runs => (.throws "boom", runs + 1)

/-- A dispatcher with the tools echo (one required string parameter text), refuse and
crash, after it has answered an initialize request. -/
def readyServer : McpServer Nat :=
  (((((McpServer.new "srv" "1.0").register_tool_params "echo" "Echo the text"
        [{ name := "text", type := "string", description := "the text" }] echoHandler).register_tool
      "refuse" "Always refuses" (.obj []) refusingHandler).register_tool
      "crash" "Always throws" (.obj []) throwingHandler).handle_request initializeRequest 0).2.1

/-- A tools/call request as `McpClient::call_tool` sends it. -/
def callRequest (tool_name : String) (arguments : Json) (id : Int) : JsonRpcRequest :=
  { method := "tools/call"
    params := some ((Json.null.set "name" (.str tool_name)).set "arguments" arguments)
    id := some (.int id) }

/-- The domain-level codes of `JsonRpcErrorCode`. -/
def domainLevel (code : Int) : Prop :=
  code = JsonRpcErrorCode.tool_not_found ∨ code = JsonRpcErrorCode.tool_execution_failed ∨
    code = JsonRpcErrorCode.invalid_tool_params ∨ code = JsonRpcErrorCode.server_not_initialized

instance (code : Int) : Decidable (domainLevel code) := by
  unfold domainLevel; infer_instance

/-- Some assistant message of `earlier` carries a tool call with the identifier `id`. -/
def requestsLinked (earlier : List ChatMessage) (id : String) : Bool :=
  earlier.any (fun a => a.role == ChatRole.Assistant && a.tool_calls.any (fun tc => tc.id == id))

/-- Check of the transcript invariant on `rest`, with `earlier` the messages in front. -/
def transcriptOkFrom (earlier : List ChatMessage) : List ChatMessage → Bool
  | [] => true
  | m :: rest =>
    (m.role != ChatRole.Tool || requestsLinked earlier m.tool_call_id) &&
      transcriptOkFrom (earlier ++ [m]) rest

/-- The transcript invariant: every tool message has the identifier of a tool call carried
by an assistant message somewhere in front of it. -/
def TranscriptInvariant (history : List ChatMessage) : Prop :=
  ∀ pre m post, history = pre ++ m :: post → m.role = ChatRole.Tool →
    ∃ a ∈ pre, a.role = ChatRole.Assistant ∧ ∃ tc ∈ a.tool_calls, tc.id = m.tool_call_id

/-- A backend wrapped so that its state also holds the list of the answers it has given,
oldest first; the wrapped backend answers as the given one does. -/
def recording (backend : Backend σ) : Backend (σ × List (Except LlmError ChatMessage)) :=
  fun history functions st =>
    ((backend history functions st.1).1,
     ((backend history functions st.1).2, st.2 ++ [(backend history functions st.1).1]))

/-- Role, linked identifier and tool calls of a message. -/
def messageShape (m : ChatMessage) : String × String × List ToolCall :=
  (m.role, m.tool_call_id, m.tool_calls)

/-- The messages that the answers of the backend call for, as shapes: per answer the
assistant message with the requested calls, then one tool message per requested call, in
request order. -/
def expectedShapes (answers : List ChatMessage) : List (String × String × List ToolCall) :=
  answers.flatMap (fun m =>
    (ChatRole.Assistant, "", m.tool_calls) ::
      m.tool_calls.map (fun tc => (ChatRole.Tool, tc.id, ([] : List ToolCall))))

/-- The tool names that the answers of the backend request, round by round in request
order. -/
def requestedNames (answers : List ChatMessage) : List String :=
  answers.flatMap (fun m => m.tool_calls.map (fun tc => tc.function.name))

/-- The successful answers in a list of backend outcomes. -/
def answersOf (log : List (Except LlmError ChatMessage)) : List ChatMessage :=
  log.filterMap (fun e => match e with
    | .ok m => some m
    | .error _ => none)

/-- A stand-in for the serializer of the JSON library: it only tells success payloads
from error payloads. -/
def demoDump : Json → String := fun j =>
  if j.get? "success" = some (.bool true) then "success" else "failure"

/-- An agent over the dispatcher `readyServer` with the given iteration limit. -/
def demoAgent (limit : Int) : Agent Nat :=
  { config_ := { name := "demo", version := "1.0", system_prompt := "be brief",
                 max_tool_iterations := limit }
    mcp_server_ := readyServer
    mcp_client_ := { next_id_ := 2 }
    conversation_history_ := [{ role := ChatRole.System, content := "be brief" }] }

/-- A backend that requests the tools echo and crash in every round. -/
def eagerBackend : Backend Nat := fun _ _ calls =>
  (.ok { role := ChatRole.Assistant, content := ""
         tool_calls :=
           [{ id := "call_a", type := "function"
              function := { name := "echo", arguments := .obj [("text", .str "hi")] } },
            { id := "call_b", type := "function"
              function := { name := "crash", arguments := .obj [] } }] },
   calls + 1)

/-- A backend that requests the tool echo once per round. -/
def singleCallBackend : Backend Nat := fun _ _ calls =>
  (.ok { role := ChatRole.Assistant, content := ""
         tool_calls :=
           [{ id := "call_a", type := "function"
              function := { name := "echo", arguments := .obj [("text", .str "hi")] } }] },
   calls + 1)

/-- The successful consultations of a collaboration, in invocation order: for every
name whose agent exists and whose `process` call succeeds, the name and the content of the
response.  The system moves on as in the loop of `collaborate`. -/
def contributions (sv : Services σ) (task : String) :
    List String → System ω σ → List (String × String)
  | [], _ => []
  | agent_name :: rest, sys =>
    match sys.coordinator.get_agent agent_name with
    | none => contributions sv task rest sys
    | some agent =>
      match ((sys.store agent).process sv.dump (sv.agent_backend agent) task sys.backend
          sys.world).result with
      | .ok response =>
        (agent_name, response.content) ::
          contributions sv task rest
            { coordinator := Coordinator.count_usage sys.coordinator agent_name
              store := Function.update sys.store agent
                ((sys.store agent).process sv.dump (sv.agent_backend agent) task sys.backend
                  sys.world).agent
              backend := ((sys.store agent).process sv.dump (sv.agent_backend agent) task
                sys.backend sys.world).backend
              world := ((sys.store agent).process sv.dump (sv.agent_backend agent) task
                sys.backend sys.world).world }
      | .error _ =>
        contributions sv task rest
          { sys with
            store := Function.update sys.store agent
              ((sys.store agent).process sv.dump (sv.agent_backend agent) task sys.backend
                sys.world).agent
            backend := ((sys.store agent).process sv.dump (sv.agent_backend agent) task
              sys.backend sys.world).backend
            world := ((sys.store agent).process sv.dump (sv.agent_backend agent) task
              sys.backend sys.world).world }

/-- The pointer registered under a name exists and is not null. -/
def agentPresent (c : Coordinator) (name : String) : Bool := (c.get_agent name).isSome

/-- The strings of a list, written one after the other. -/
def concatAll : List String → String
  | [] => ""
  | x :: xs => x ++ concatAll xs

/-- The value of the usage counter of a name; a name without counter counts as 0, which is
what `agent_usage_[name]` makes of it. -/
def usageCount (c : Coordinator) (name : String) : Int :=
  match mapFind c.agent_usage_ name with
  | some n => n
  | none => 0

/-- A backend that answers with the final text "done" and requests no tool. -/
def finalBackend : Backend Nat := fun _ _ calls =>
  (.ok { role := ChatRole.Assistant, content := "done" }, calls + 1)

/-- Services for the examples: every agent talks to `finalBackend`, and the completion
call of the coordinator fails. -/
def demoServices : Services Nat :=
  { dump := demoDump
    agent_backend := fun _ => finalBackend
    completion := fun _ b =>
      (.error { code := .connection_failed, message := "Failed to connect to server" }, b) }

/-- A coordinator with the keyword strategy in which exactly the agents Code and Docs are
registered. -/
def codeDocsCoordinator : Coordinator :=
  ((({ routing_strategy_ := .KeywordBased } : Coordinator).register_agent "Code"
    (some 0)).register_agent "Docs" (some 1))

/-- A coordinator with the keyword strategy in which exactly the agents CodeAssistant and
DocumentationAgent are registered. -/
def defaultNamesCoordinator : Coordinator :=
  ((({ routing_strategy_ := .KeywordBased } : Coordinator).register_agent "CodeAssistant"
    (some 0)).register_agent "DocumentationAgent" (some 1))

/-- A coordinator in which the name ghost is registered with a null agent pointer. -/
def ghostCoordinator : Coordinator :=
  ({ routing_strategy_ := .KeywordBased } : Coordinator).register_agent "ghost" none

/-- A coordinator in which exactly the agent Solo is registered, at address 0. -/
def soloCoordinator : Coordinator :=
  ({ routing_strategy_ := .KeywordBased } : Coordinator).register_agent "Solo" (some 0)

/-- A system around a coordinator: every address holds the demo agent, the backend has
answered nothing yet and no tool has run. -/
def demoSystem (c : Coordinator) : System Nat Nat :=
  { coordinator := c, store := fun _ => demoAgent 2, backend := 0, world := 0 }

/-- The transport-level codes of `JsonRpcErrorCode`, in the order of the enumeration. -/
def transportLevelCodes : List Int :=
  [JsonRpcErrorCode.parse_error, JsonRpcErrorCode.invalid_request,
   JsonRpcErrorCode.method_not_found, JsonRpcErrorCode.invalid_params,
   JsonRpcErrorCode.internal_error]

/-- The domain-level codes of `JsonRpcErrorCode`, in the order of the enumeration. -/
def domainLevelCodes : List Int :=
  [JsonRpcErrorCode.tool_not_found, JsonRpcErrorCode.tool_execution_failed,
   JsonRpcErrorCode.invalid_tool_params, JsonRpcErrorCode.server_not_initialized]

/-- A handler that fails with the error of the initialization guard of the dispatcher. -/
def mimicHandler : ToolHandler Nat := fun _ runs =>
  (.err { code := JsonRpcErrorCode.server_not_initialized
          message := "Server not initialized. Call \x27initialize\x27 first." }, runs + 1)

/-- A handler that returns an error-flagged result. -/
def flaggingHandler : ToolHandler Nat := fun _ runs =>
  (.ok (McpToolResult.error_result "disk full"), runs + 1)

/-- The dispatcher `readyServer` with two more tools: mimic, whose handler is
`mimicHandler`, and flag, whose handler is `flaggingHandler`. -/
def extendedServer : McpServer Nat :=
  (readyServer.register_tool "mimic" "Fails like the guard" (.obj []) mimicHandler).register_tool
    "flag" "Returns a flagged result" (.obj []) flaggingHandler

/-- One call of a public member function of `McpClient`. -/
inductive ClientCall where
  | init (client_name client_version : String)
  | list
  | call (tool_name : String) (arguments : Json)

/-- The method and the params that the member function hands to `send_request`. -/
def ClientCall.wire : ClientCall → String × Json
  | .init client_name client_version =>
    ("initialize",
     ((Json.null.set "protocolVersion" (.str "2024-11-05")).set "clientInfo"
        ((Json.null.set "name" (.str client_name)).set "version" (.str client_version))).set
      "capabilities" (McpCapabilities.to_json { tools := true }))
  | .list => ("tools/list", .obj [])
  | .call tool_name arguments =>
    ("tools/call", (Json.null.set "name" (.str tool_name)).set "arguments" arguments)

/-- The client, the server and the world after a call of a public member function. -/
def ClientCall.run (c : McpClient) (s : McpServer ω) (w : ω) :
    ClientCall → McpClient × McpServer ω × ω
  | .init client_name client_version => (c.initialize_ s client_name client_version w).2
  | .list => (c.list_tools s w).2
  | .call tool_name arguments => (c.call_tool s tool_name arguments w).2

/-- The request objects that a client builds in the course of a sequence of calls, in the
order in which it sends them. -/
def sentRequests (c : McpClient) (s : McpServer ω) (w : ω) :
    List ClientCall → List JsonRpcRequest
  | [] => []
  | call :: rest =>
    c.build_request call.wire.1 call.wire.2 ::
      sentRequests (call.run c s w).1 (call.run c s w).2.1 (call.run c s w).2.2 rest

/-- The integer identifier of a request, when it has one. -/
def requestIntId (r : JsonRpcRequest) : Option Int :=
  match r.id with
  | some (.int n) => some n
  | _ => none

/-- The keyword table of keyword routing, in priority order: per category its keywords and
the name of its agent. -/
def keywordCategories : List (List String × String) :=
  [(["code", "review", "refactor", "bug", "function"], "CodeAssistant"),
   (["deploy", "service", "log", "infrastructure", "monitoring"], "DevOpsAgent"),
   (["document", "docs", "api", "readme"], "DocumentationAgent"),
   (["test", "coverage", "unittest"], "TestingAgent"),
   (["data", "analyze", "statistics", "metrics"], "DataAnalystAgent"),
   (["security", "vulnerabilit", "encryption", "authentication"], "SecurityAgent")]

/-- A category applies to a message for a coordinator: one of its keywords occurs in the
lower-cased message and its agent is registered. -/
def categoryApplies (c : Coordinator) (message : String) (category : List String × String) :
    Bool :=
  category.1.any (fun keyword => str_find (to_lower message) keyword) &&
    c.has_agent category.2

/-- Keyword routing as the specification words it: the agent of the first category, in
priority order, that applies; without such a category the first registered name; an error
when nothing is registered. -/
def specKeywordRoute (c : Coordinator) (message : String) : Except String String :=
  match keywordCategories.find? (categoryApplies c message) with
  | some category => .ok category.2
  | none =>
    match c.list_agents with
    | first :: _ => .ok first
    | [] => .error "No agents available"

/-- The coordinator after the given `register_agent` calls, made in list order. -/
def registerAgents (c : Coordinator) (regs : List (String × AgentPtr)) : Coordinator :=
  regs.foldl (fun acc r => acc.register_agent r.1 r.2) c

/-- The results of the calls of `route_request` made one after the other for the given
requests; the coordinator and the backend move along. -/
def routeAll (sv : Services σ) : Coordinator → σ → List UserRequest → List (Except String String)
  | _, _, [] => []
  | c, b, request :: rest =>
    (Coordinator.route_request sv c request b).1 ::
      routeAll sv (Coordinator.route_request sv c request b).2.1
        (Coordinator.route_request sv c request b).2.2 rest

/-- A coordinator with the round-robin strategy in which the agents Ann, Bob and Cy are
registered, in another order. -/
def trioCoordinator : Coordinator :=
  registerAgents { routing_strategy_ := .RoundRobin }
    [("Cy", some 2), ("Ann", some 0), ("Bob", some 1)]

/-- A backend that cannot be reached. -/
def failingBackend : Backend Nat := fun _ _ calls =>
  (.error { code := .connection_failed, message := "Failed to connect to server" }, calls + 1)

/-- Services for the examples in which the backend of the agent at address 1 fails and
every other agent talks to `finalBackend`. -/
def mixedServices : Services Nat :=
  { dump := demoDump
    agent_backend := fun address => if address = 1 then failingBackend else finalBackend
    completion := fun _ b =>
      (.error { code := .connection_failed, message := "Failed to connect to server" }, b) }

/-- A coordinator in which the agents Good, at address 0, and Bad, at address 1, are
registered. -/
def goodBadCoordinator : Coordinator :=
  registerAgents { routing_strategy_ := .KeywordBased } [("Good", some 0), ("Bad", some 1)]

/-- The payload that `process` serializes into the tool message for the outcome of a tool
call. -/
def toolPayload (tool_result : Except JsonRpcError McpToolResult) : Json :=
  match tool_result with
  | .ok r => .obj [("content", .arr r.content), ("success", .bool true)]
  | .error e => .obj [("error", .str e.message), ("success", .bool false)]

/-- An agent over the given dispatcher with the given iteration limit. -/
def agentWith (limit : Int) (server : McpServer Nat) : Agent Nat :=
  { config_ := { name := "demo", version := "1.0", system_prompt := "be brief",
                 max_tool_iterations := limit }
    mcp_server_ := server
    mcp_client_ := { next_id_ := 2 }
    conversation_history_ := [{ role := ChatRole.System, content := "be brief" }] }

/-- A handler whose exceptions derive from `std::exception`, as a handler that may throw
anything. -/
def liftHandler (handler : ToolHandler ω) : Full.ToolHandler ω := fun arguments w =>
  match handler arguments w with
  | (.ok r, w') => (.ok r, w')
  | (.err e, w') => (.err e, w')
  | (.throws what, w') => (.throws what, w')

/-- A dispatcher whose handlers throw nothing but exceptions derived from
`std::exception`, as a dispatcher of the wider kind. -/
def liftServer (s : McpServer ω) : Full.McpServer ω :=
  { server_info_ := s.server_info_
    capabilities_ := s.capabilities_
    client_info_ := s.client_info_
    initialized_ := s.initialized_
    tools_ := s.tools_
    tool_handlers_ := s.tool_handlers_.map (fun kv => (kv.1, liftHandler kv.2)) }

/-- An agent over such a dispatcher, as an agent of the wider kind. -/
def liftAgent (a : Agent ω) : Full.Agent ω :=
  { config_ := a.config_
    mcp_server_ := liftServer a.mcp_server_
    mcp_client_ := a.mcp_client_
    conversation_history_ := a.conversation_history_ }

/-- A protocol error as the client reads it back from the wire: the code is an `int`. -/
def wireError (e : JsonRpcError) : JsonRpcError :=
  { code := toInt32 e.code, message := e.message, data := e.data }

/-- One tool call as the specification describes it, from the table of the dispatcher to
the value the client hands back: the call fails before the handler when the dispatcher is
not initialized, the tool or its handler is not registered or the arguments fail
validation; otherwise the handler runs on the arguments, in the world as it is, and its
result, its error or its exception is handed back.  A value of another type thrown by the
handler leaves the call. -/
def specToolCall (s : Full.McpServer ω) (tool_name : String) (arguments : Json) (w : ω) :
    Full.Outcome (Except JsonRpcError McpToolResult) × ω :=
  if s.initialized_ = false then
    (.returned (.error { code := JsonRpcErrorCode.server_not_initialized
                         message := "Server not initialized. Call \x27initialize\x27 first." }),
     w)
  else
    match mapFind s.tools_ tool_name with
    | none =>
      (.returned (.error { code := JsonRpcErrorCode.tool_not_found
                           message := "Tool not found: " ++ tool_name }), w)
    | some tool =>
      match mapFind s.tool_handlers_ tool_name with
      | none =>
        (.returned (.error { code := JsonRpcErrorCode.internal_error
                             message := "Tool handler not found: " ++ tool_name }), w)
      | some handler =>
        match McpValidator.validate_tool_params arguments tool.input_schema with
        | .error e => (.returned (.error (wireError e)), w)
        | .ok _ =>
          match handler arguments w with
          | (.ok r, w') => (.returned (.ok r), w')
          | (.err e, w') => (.returned (.error (wireError e)), w')
          | (.throws what, w') =>
            (.returned (.error { code := JsonRpcErrorCode.tool_execution_failed
                                 message := "Tool execution failed: " ++ what }), w')
          | (.throws_other thrown, w') => (.escaped thrown, w')

/-- What a run of tool calls leaves: the value that left it, if one did, the messages
appended to the transcript, the tool names recorded and the world. -/
structure RoundTrace (ω : Type) where
  thrown : Option String
  messages : List ChatMessage
  names : List String
  world : ω

/-- The requested calls of one answer, made one after the other in request order, each in
the world its predecessor left: per call the tool message linked to the call, with the
serialized payload of its outcome, and the tool name.  A call that a thrown value leaves
ends the round: it and the calls behind it leave no message and no name. -/
def specRound (dump : Json → String) (s : Full.McpServer ω) :
    List ToolCall → ω → RoundTrace ω
  | [], w => { thrown := none, messages := [], names := [], world := w }
  | tool_call :: rest, w =>
    match specToolCall s tool_call.function.name tool_call.function.arguments w with
    | (.escaped thrown, w') =>
      { thrown := some thrown, messages := [], names := [], world := w' }
    | (.returned tool_result, w') =>
      let next := specRound dump s rest w'
      { thrown := next.thrown
        messages :=
          { role := ChatRole.Tool, content := dump (toolPayload tool_result)
            tool_calls := [], tool_call_id := tool_call.id } :: next.messages
        names := tool_call.function.name :: next.names
        world := next.world }

/-- The rounds that the successful answers of the backend call for, answer by answer: an
answer without tool call ends the run with the assistant message of its content; any
other answer leaves the assistant message carrying its calls and then the round of these
calls, and the next answer goes on in the world that round left, unless a thrown value
has ended it. -/
def specRounds (dump : Json → String) (s : Full.McpServer ω) :
    List ChatMessage → ω → RoundTrace ω
  | [], w => { thrown := none, messages := [], names := [], world := w }
  | answer :: later, w =>
    if answer.tool_calls.isEmpty then
      { thrown := none
        messages := [{ role := ChatRole.Assistant, content := answer.content }]
        names := [], world := w }
    else
      let round := specRound dump s answer.tool_calls w
      match round.thrown with
      | some thrown =>
        { thrown := some thrown
          messages :=
            { role := ChatRole.Assistant, content := answer.content
              tool_calls := answer.tool_calls } :: round.messages
          names := round.names, world := round.world }
      | none =>
        let next := specRounds dump s later round.world
        { thrown := next.thrown
          messages :=
            ({ role := ChatRole.Assistant, content := answer.content
               tool_calls := answer.tool_calls } :: round.messages) ++ next.messages
          names := round.names ++ next.names
          world := next.world }

/-- A handler that throws a value of type `int`. -/
def abortHandler : Full.ToolHandler Nat := fun _ runs => (.throws_other "42", runs + 1)

/-- The dispatcher `readyServer` with one more tool, abort, whose handler throws a value
that is no exception object. -/
def fullServer : Full.McpServer Nat :=
  (liftServer readyServer).register_tool "abort" "Throws an int" (.obj []) abortHandler

/-- An agent over the dispatcher `fullServer` with the given iteration limit. -/
def fullAgent (limit : Int) : Full.Agent Nat :=
  { config_ := { name := "demo", version := "1.0", system_prompt := "be brief",
                 max_tool_iterations := limit }
    mcp_server_ := fullServer
    mcp_client_ := { next_id_ := 2 }
    conversation_history_ := [{ role := ChatRole.System, content := "be brief" }] }

/-- A tool call with the given identifier, tool name and arguments. -/
def toolCall (id name : String) (arguments : Json) : ToolCall :=
  { id := id, type := "function", function := { name := name, arguments := arguments } }

/-- A backend that goes through a list of answers, one per call, and then answers with the
final text "done"; its state is the number of answers given. -/
def scriptedBackend (script : List (List ToolCall)) : Backend Nat := fun _ _ calls =>
  (.ok { role := ChatRole.Assistant
         content := if calls < script.length then "" else "done"
         tool_calls := script.getD calls [] },
   calls + 1)

/-- A backend that requests the given tool call, and nothing else, in every round; its
state is the number of answers given. -/
def repeatingBackend (tool_call : ToolCall) : Backend Nat := fun _ _ calls =>
  (.ok { role := ChatRole.Assistant, content := "", tool_calls := [tool_call] }, calls + 1)

/-- A handler that writes the given mark at the end of the world, which is the list of
the marks written so far. -/
def markingHandler (mark : String) : Full.ToolHandler (List String) := fun _ marks =>
  (.ok { content := [.str mark] }, marks ++ [mark])

/-- A dispatcher with the tools first and second, whose handlers write their names into
the world, after it has answered an initialize request. -/
def markingServer : Full.McpServer (List String) :=
  ((((Full.McpServer.new "srv" "1.0").register_tool "first" "Marks first" (.obj [])
      (markingHandler "first")).register_tool "second" "Marks second" (.obj [])
      (markingHandler "second")).handle_request initializeRequest []).2.1

/-- An agent over the dispatcher `markingServer` with the given iteration limit. -/
def markingAgent (limit : Int) : Full.Agent (List String) :=
  { config_ := { name := "demo", version := "1.0", max_tool_iterations := limit }
    mcp_server_ := markingServer
    mcp_client_ := { next_id_ := 2 }
    conversation_history_ := [] }

end Definitions

/-! ## Properties of the dispatcher -/

section Dispatcher

variable {ω : Type}

theorem not_initialized_list (s : McpServer ω) (p : Option Json) (hs : s.initialized_ = false) :
    s.handle_list_tools p =
      .error { code := JsonRpcErrorCode.server_not_initialized,
               message := "Server not initialized. Call \x27initialize\x27 first." } := by
  simp [McpServer.handle_list_tools, hs]

theorem not_initialized_call (s : McpServer ω) (p : Option Json) (w : ω)
    (hs : s.initialized_ = false) :
    s.handle_call_tool p w =
      (.error { code := JsonRpcErrorCode.server_not_initialized,
                message := "Server not initialized. Call \x27initialize\x27 first." }, w) := by
  simp [McpServer.handle_call_tool, hs]

/-- The `error.code` member of an error response is the code of its error. -/
theorem responseErrorCode_error_response (e : JsonRpcError) (i : JsonRpcId) :
    responseErrorCode (JsonRpcResponse.error_response e i).to_json = some (.int e.code) := by
  obtain ⟨code, message, data⟩ := e
  cases data <;>
    simp +decide [responseErrorCode, JsonRpcResponse.error_response, JsonRpcResponse.to_json,
      JsonRpcError.to_json, Json.set, Json.get?, mapInsert, mapFind]

/-- An error response has no `result` member. -/
theorem error_response_no_result (e : JsonRpcError) (i : JsonRpcId) :
    (JsonRpcResponse.error_response e i).to_json.get? "result" = none := by
  simp +decide [JsonRpcResponse.error_response, JsonRpcResponse.to_json,
    Json.set, Json.get?, mapInsert, mapFind]

/-- A success response has no `error` member and carries the result. -/
theorem success_response_members (v : Json) (i : JsonRpcId) :
    (JsonRpcResponse.success v i).to_json.get? "error" = none ∧
      (JsonRpcResponse.success v i).to_json.get? "result" = some v := by
  simp +decide [JsonRpcResponse.success, JsonRpcResponse.to_json,
    Json.set, Json.get?, mapInsert, mapFind]

theorem mapFind_eq_none_iff {α : Type} (m : List (String × α)) (k : String) :
    mapFind m k = none ↔ k ∉ mapKeys m := by
  induction m with
  | nil => simp [mapFind, mapKeys]
  | cons hd tl ih =>
    obtain ⟨k', v'⟩ := hd
    by_cases h : k = k'
    · simp [mapFind, mapKeys, h]
    · simp only [mapKeys] at ih
      simp [mapFind, mapKeys, h, ih]

/-- The response to a well-formed tools/call request is the wrapped outcome of
`handle_call_tool`; the dispatcher itself does not change. -/
theorem handle_request_call (s : McpServer ω) (j : Json) (r : JsonRpcRequest) (w : ω)
    (hj : JsonRpcRequest.from_json j = .ok r) (hm : r.method = "tools/call") :
    s.handle_request j w =
      ((match (s.handle_call_tool r.params w).1 with
        | .ok v => (JsonRpcResponse.success v (r.id.getD make_null_id)).to_json
        | .error e => (JsonRpcResponse.error_response e (r.id.getD make_null_id)).to_json),
       s, (s.handle_call_tool r.params w).2) := by
  have hid : (match r.id with | some i => i | none => make_null_id) =
      r.id.getD make_null_id := by cases r.id <;> rfl
  simp only [McpServer.handle_request, hj, McpServer.dispatch, hm, hid]
  simp +decide only [if_false, if_true]
  cases h : (s.handle_call_tool r.params w).1 <;> simp

/-- Decoding of call parameters that name a tool. -/
theorem call_params_of_name (p : Json) (n : String) (hn : p.get? "name" = some (.str n)) :
    McpCallToolParams.from_json p =
      .ok { name := n, arguments := (p.get? "arguments").getD (.obj []) } := by
  cases p with
  | obj kvs =>
    simp only [Json.get?] at hn
    simp only [McpCallToolParams.from_json, Json.at_, hn, Json.get_string, Json.value,
      Json.get?]
    cases mapFind kvs "arguments" <;> rfl
  | _ => simp [Json.get?] at hn

theorem check_required_code (params : Json) (reqs : List Json) (e : JsonRpcError)
    (h : McpValidator.check_required params reqs = .ok (some e)) :
    e.code = JsonRpcErrorCode.invalid_tool_params := by
  induction reqs with
  | nil => simp [McpValidator.check_required] at h
  | cons req rest ih =>
    simp only [McpValidator.check_required] at h
    split at h
    · simp at h
    · split at h
      · simp only [Except.ok.injEq, Option.some.injEq] at h
        rw [← h]
      · exact ih h

theorem check_types_code (props : Json) (members : List (String × Json)) (e : JsonRpcError)
    (h : McpValidator.check_types props members = .ok (some e)) :
    e.code = JsonRpcErrorCode.invalid_tool_params := by
  induction members with
  | nil => simp [McpValidator.check_types] at h
  | cons hd rest ih =>
    obtain ⟨k, v⟩ := hd
    simp only [McpValidator.check_types] at h
    split at h
    · exact ih h
    · split at h
      · exact ih h
      · split at h
        · simp at h
        · split at h
          · simp only [Except.ok.injEq, Option.some.injEq] at h
            rw [← h]
          · exact ih h

/-- Every error that `validate_tool_params` returns has the code invalid_tool_params. -/
theorem validate_tool_params_code (params schema : Json) (e : JsonRpcError)
    (h : McpValidator.validate_tool_params params schema = .error e) :
    e.code = JsonRpcErrorCode.invalid_tool_params := by
  unfold McpValidator.validate_tool_params at h
  split at h
  next r hb =>
    subst h
    unfold McpValidator.validate_body at hb
    split at hb
    next members =>
      split at hb
      · simp at hb
      next e1 h1 =>
        simp only [Except.ok.injEq, Except.error.injEq] at hb
        subst hb
        split at h1
        · exact check_required_code _ _ _ h1
        · simp at h1
      · split at hb
        · simp at hb
        next e2 h2 =>
          simp only [Except.ok.injEq, Except.error.injEq] at hb
          subst hb
          split at h2
          · exact check_types_code _ _ _ h2
          · simp at h2
        · simp at hb
    · simp only [Except.ok.injEq, Except.error.injEq] at hb
      rw [← hb]
  next what hb =>
    simp only [Except.error.injEq] at h
    rw [← h]

/-- A required field that the arguments lack stops `check_required` before its end. -/
theorem check_required_missing (params : Json) (reqs : List Json) (f : String)
    (hf : Json.str f ∈ reqs) (hc : params.contains f = false) :
    McpValidator.check_required params reqs ≠ .ok none := by
  induction reqs with
  | nil => simp at hf
  | cons req rest ih =>
    simp only [McpValidator.check_required]
    cases req with
    | str g =>
      simp only [Json.get_string]
      by_cases hg : params.contains g = true
      · simp only [hg, Bool.not_true, Bool.false_eq_true, if_false]
        apply ih
        rcases List.mem_cons.1 hf with h | h
        · simp only [Json.str.injEq] at h
          rw [← h, hc] at hg
          simp at hg
        · exact h
      · simp [hg]
    | _ => simp [Json.get_string]

/-- Arguments that lack a field listed under `required` are rejected. -/
theorem validate_missing_required (args schema : Json) (members : List (String × Json))
    (reqs : List Json) (f : String) (ha : args = .obj members)
    (hr : schema.get? "required" = some (.arr reqs)) (hf : Json.str f ∈ reqs)
    (hc : args.contains f = false) :
    ∃ e, McpValidator.validate_tool_params args schema = .error e ∧
      e.code = JsonRpcErrorCode.invalid_tool_params := by
  subst ha
  have hne := check_required_missing (.obj members) reqs f hf hc
  cases hv : McpValidator.validate_tool_params (.obj members) schema with
  | error e => exact ⟨e, rfl, validate_tool_params_code _ _ _ hv⟩
  | ok b =>
    exfalso
    simp only [McpValidator.validate_tool_params, McpValidator.validate_body, hr] at hv
    cases hq : McpValidator.check_required (.obj members) reqs with
    | error what => simp [hq] at hv
    | ok o =>
      cases o with
      | none => exact hne hq
      | some e => simp [hq] at hv

/-! ### The validator and the acceptance condition of the specification -/

theorem validate_json_type_eq_spec (v : Json) (t : String) :
    McpValidator.validate_json_type v t = specHasType v t := by
  unfold McpValidator.validate_json_type specHasType specPrimitiveTypes
  by_cases h1 : t = "string"
  · subst h1; cases v <;> rfl
  by_cases h2 : t = "number"
  · subst h2; cases v <;> rfl
  by_cases h3 : t = "integer"
  · subst h3; cases v <;> rfl
  by_cases h4 : t = "boolean"
  · subst h4; cases v <;> rfl
  by_cases h5 : t = "object"
  · subst h5; cases v <;> rfl
  by_cases h6 : t = "array"
  · subst h6; cases v <;> rfl
  by_cases h7 : t = "null"
  · subst h7; cases v <;> rfl
  simp [h1, h2, h3, h4, h5, h6, h7]

/-- The loop over `required` runs to its end exactly when every entry is a string that
names a member of the arguments. -/
theorem check_required_ok_iff (params : Json) (reqs : List Json) :
    McpValidator.check_required params reqs = .ok none ↔
      ∀ entry ∈ reqs, ∃ f, entry = Json.str f ∧ params.contains f = true := by
  induction reqs with
  | nil => simp [McpValidator.check_required]
  | cons req rest ih =>
    simp only [McpValidator.check_required, List.forall_mem_cons]
    cases req with
    | str g =>
      simp only [Json.get_string]
      by_cases hg : params.contains g = true
      · simp [hg, ih]
      · simp [hg]
    | _ => simp [Json.get_string]

/-- The loop over the members of the arguments runs to its end exactly when every member
that the properties declare with a `type` has a string there that its value matches. -/
theorem check_types_ok_iff (props : Json) (members : List (String × Json)) :
    McpValidator.check_types props members = .ok none ↔
      ∀ kv ∈ members, ∀ field_schema, props.get? kv.1 = some field_schema →
        ∀ t, field_schema.get? "type" = some t →
          ∃ ty, t = Json.str ty ∧ McpValidator.validate_json_type kv.2 ty = true := by
  induction members with
  | nil => simp [McpValidator.check_types]
  | cons hd rest ih =>
    obtain ⟨k, v⟩ := hd
    simp only [McpValidator.check_types, List.forall_mem_cons]
    cases hp : props.get? k with
    | none => simp [ih]
    | some field_schema =>
      cases ht : field_schema.get? "type" with
      | none => simp [ih, ht]
      | some t =>
        cases t with
        | str ty =>
          simp only [Json.get_string]
          by_cases hv : McpValidator.validate_json_type v ty = true
          · simp [hv, ih, ht]
          · simp [hv, ht]
        | _ => simp [Json.get_string, ht]

theorem get?_of_not_object (j : Json) (k : String) (h : j.is_object = false) :
    j.get? k = none := by
  cases j <;> simp_all [Json.get?, Json.is_object]

theorem required_entries_iff (args : Json) (reqs : List Json) :
    (∀ entry ∈ reqs, ∃ f, entry = Json.str f ∧ args.contains f = true) ↔
      ((reqs.filterMap (fun entry => match entry with
          | .str f => some f
          | _ => none)).all (fun f => args.contains f) = true ∧
        reqs.all Json.is_string = true) := by
  induction reqs with
  | nil => simp
  | cons req rest ih =>
    rw [List.forall_mem_cons, ih]
    cases req <;> simp [Json.is_string, List.filterMap_cons]
    tauto

theorem required_part_iff (args schema : Json) :
    (match schema.get? "required" with
      | some (.arr reqs) => McpValidator.check_required args reqs
      | _ => .ok none) = .ok none ↔
      ((specRequiredFields schema).all (fun f => args.contains f) = true ∧
        requiredEntriesAreStrings schema = true) := by
  unfold specRequiredFields requiredEntriesAreStrings
  cases h : schema.get? "required" with
  | none => simp
  | some r =>
    cases r with
    | arr reqs =>
      simp only []
      rw [check_required_ok_iff, required_entries_iff]
    | _ => simp

theorem types_entries_iff (schema : Json) (props members : List (String × Json))
    (hp : schema.get? "properties" = some (.obj props)) :
    (∀ kv ∈ members, ∀ field_schema, (Json.obj props).get? kv.1 = some field_schema →
        ∀ t, field_schema.get? "type" = some t →
          ∃ ty, t = Json.str ty ∧ McpValidator.validate_json_type kv.2 ty = true) ↔
      (members.all (fun kv =>
          match specDeclaredType schema kv.1 with
          | some t => specHasType kv.2 t
          | none => true) = true ∧
        members.all (fun kv =>
          match mapFind props kv.1 with
          | some field_schema =>
            match field_schema.get? "type" with
            | some t => t.is_string
            | none => true
          | none => true) = true) := by
  simp only [List.all_eq_true, ← forall_and]
  refine forall_congr' (fun kv => ?_)
  refine imp_congr_right (fun _ => ?_)
  have h1 : (Json.obj props).get? kv.1 = mapFind props kv.1 := rfl
  simp only [specDeclaredType, hp, h1]
  cases hm : mapFind props kv.1 with
  | none => simp
  | some field_schema =>
    cases ht : field_schema.get? "type" with
    | none => simp [ht]
    | some t =>
      cases t <;> simp [ht, Json.is_string, validate_json_type_eq_spec]

theorem types_part_iff (schema : Json) (members : List (String × Json)) :
    (match schema.get? "properties" with
      | some (.obj props) => McpValidator.check_types (.obj props) members
      | _ => .ok none) = .ok none ↔
      (members.all (fun kv =>
          match specDeclaredType schema kv.1 with
          | some t => specHasType kv.2 t
          | none => true) = true ∧
        declaredTypesAreStrings (.obj members) schema = true) := by
  cases h : schema.get? "properties" with
  | none => simp [declaredTypesAreStrings, specDeclaredType, h]
  | some ps =>
    cases ps with
    | obj props =>
      simp only [declaredTypesAreStrings, h, Json.members]
      rw [check_types_ok_iff, types_entries_iff schema props members h]
    | _ => simp [declaredTypesAreStrings, specDeclaredType, h, get?_of_not_object, Json.is_object]

/-- The validator accepts exactly when both of its loops run to their end on an
object. -/
theorem validate_ok_iff (args schema : Json) :
    McpValidator.validate_tool_params args schema = .ok true ↔
      ∃ members, args = .obj members ∧
        (match schema.get? "required" with
          | some (.arr reqs) => McpValidator.check_required args reqs
          | _ => .ok none) = .ok none ∧
        (match schema.get? "properties" with
          | some (.obj props) => McpValidator.check_types (.obj props) members
          | _ => .ok none) = .ok none := by
  cases args with
  | obj members =>
    simp only [McpValidator.validate_tool_params, McpValidator.validate_body, Json.obj.injEq,
      exists_eq_left']
    generalize (match schema.get? "required" with
      | some (.arr reqs) => McpValidator.check_required (.obj members) reqs
      | _ => .ok none) = X
    generalize (match schema.get? "properties" with
      | some (.obj props) => McpValidator.check_types (.obj props) members
      | _ => .ok none) = Y
    rcases X with what | _ | e <;> rcases Y with what2 | _ | e2 <;> simp
  | _ => simp [McpValidator.validate_tool_params, McpValidator.validate_body]

/-- The validator accepts exactly when the acceptance condition of the specification
holds and the schema entries it reads are strings. -/
theorem validate_ok_iff_spec (args schema : Json) :
    McpValidator.validate_tool_params args schema = .ok true ↔
      (specAccepts args schema = true ∧ requiredEntriesAreStrings schema = true ∧
        declaredTypesAreStrings args schema = true) := by
  rw [validate_ok_iff]
  cases args with
  | obj members =>
    simp only [Json.obj.injEq, exists_eq_left', required_part_iff, types_part_iff,
      specAccepts, Json.is_object, Json.members, Bool.true_and, Bool.and_eq_true]
    tauto
  | _ => simp [specAccepts, Json.is_object]

theorem mapFind_mapInsert {α : Type} (m : List (String × α)) (k k' : String) (v : α) :
    mapFind (mapInsert m k v) k' = if k' = k then some v else mapFind m k' := by
  induction m with
  | nil => simp [mapInsert, mapFind]
  | cons hd tl ih =>
    obtain ⟨a, b⟩ := hd
    simp only [mapInsert]
    by_cases h1 : k = a
    · subst h1
      by_cases h2 : k' = k <;> simp [mapFind, h2]
    · by_cases h3 : strLt k a = true
      · by_cases h2 : k' = k <;> simp [mapFind, h1, h2, h3]
      · by_cases h2 : k' = k
        · subst h2
          simp [mapFind, h1, h3, ih]
        · by_cases h4 : k' = a
          · subst h4
            simp [mapFind, h1, h2, h3]
          · simp [mapFind, h1, h2, h3, h4, ih]

theorem mem_mapInsert {α : Type} (m : List (String × α)) (k : String) (v : α)
    (x : String × α) (hx : x ∈ mapInsert m k v) : x = (k, v) ∨ x ∈ m := by
  induction m with
  | nil => simpa [mapInsert] using hx
  | cons hd tl ih =>
    obtain ⟨a, b⟩ := hd
    simp only [mapInsert] at hx
    split at hx
    · rcases List.mem_cons.1 hx with h | h
      · exact Or.inl h
      · exact Or.inr (List.mem_cons_of_mem _ h)
    · split at hx
      · rcases List.mem_cons.1 hx with h | h
        · exact Or.inl h
        · exact Or.inr h
      · rcases List.mem_cons.1 hx with h | h
        · exact Or.inr (h ▸ List.mem_cons_self _ _)
        · rcases ih h with h' | h'
          · exact Or.inl h'
          · exact Or.inr (List.mem_cons_of_mem _ h')

/-- A member that is present stays present when a member is assigned. -/
theorem contains_set (members : List (String × Json)) (k f : String) (v : Json)
    (h : (Json.obj members).contains f = true) :
    ((Json.obj members).set k v).contains f = true := by
  simp only [Json.contains, Json.set, Json.get?, mapFind_mapInsert] at h ⊢
  by_cases hf : f = k <;> simp [hf, h]

/-- Arguments that the validator accepts are still accepted after a field is assigned
that `schema.properties` does not declare. -/
theorem validate_set_undeclared (args schema : Json) (k : String) (v : Json)
    (hk : (schema.get? "properties").bind (fun props => props.get? k) = none)
    (h : McpValidator.validate_tool_params args schema = .ok true) :
    McpValidator.validate_tool_params (args.set k v) schema = .ok true := by
  rw [validate_ok_iff] at h ⊢
  obtain ⟨members, rfl, hreq, htyp⟩ := h
  refine ⟨mapInsert members k v, rfl, ?_, ?_⟩
  · cases hr : schema.get? "required" with
    | none => simp
    | some r =>
      cases r with
      | arr reqs =>
        simp only [hr] at hreq ⊢
        rw [check_required_ok_iff] at hreq ⊢
        intro entry he
        obtain ⟨f, hf, hc⟩ := hreq entry he
        exact ⟨f, hf, contains_set members k f v hc⟩
      | _ => simp
  · cases hp : schema.get? "properties" with
    | none => simp
    | some ps =>
      cases ps with
      | obj props =>
        simp only [hp] at htyp ⊢
        rw [check_types_ok_iff] at htyp ⊢
        intro kv hkv field_schema hfs
        rcases mem_mapInsert members k v kv hkv with h1 | h1
        · subst h1
          rw [hp] at hk
          have hk' : (Json.obj props).get? k = none := hk
          rw [hk'] at hfs
          cases hfs
        · exact htyp kv h1 field_schema hfs
      | _ => simp

theorem to_json_schema_type (p : McpToolParameter) :
    p.to_json_schema.get? "type" = some (.str p.type) := by
  obtain ⟨name, type, description, required, default_value, enum_values⟩ := p
  cases default_value <;> cases enum_values <;>
    simp +decide [McpToolParameter.to_json_schema, Json.set, Json.get?, mapInsert, mapFind]

/-- The loop of `build_input_schema` keeps `properties` an object whose values are
parameter schemas and `required` a list of strings. -/
theorem build_fold_invariant (parameters : List McpToolParameter) (acc : Json × List Json)
    (h1 : ∃ props, acc.1 = .obj props ∧ ∀ kv ∈ props, ∃ p : McpToolParameter,
      kv.2 = p.to_json_schema)
    (h2 : acc.2.all Json.is_string = true) :
    (∃ props, (parameters.foldl McpTool.build_step acc).1 = .obj props ∧
        ∀ kv ∈ props, ∃ p : McpToolParameter, kv.2 = p.to_json_schema) ∧
      (parameters.foldl McpTool.build_step acc).2.all Json.is_string = true := by
  induction parameters generalizing acc with
  | nil => exact ⟨h1, h2⟩
  | cons p rest ih =>
    rw [List.foldl_cons]
    apply ih
    · obtain ⟨props, hp, hall⟩ := h1
      refine ⟨mapInsert props p.name p.to_json_schema, ?_, ?_⟩
      · simp [McpTool.build_step, hp, Json.set]
      · intro kv hkv
        rcases mem_mapInsert _ _ _ _ hkv with h | h
        · exact ⟨p, by rw [h]⟩
        · exact hall kv h
    · simp only [McpTool.build_step]
      split
      · simp [List.all_append, h2, Json.is_string]
      · exact h2

theorem build_input_schema_members (parameters : List McpToolParameter) :
    (McpTool.build_input_schema parameters).get? "required" =
        some (.arr (parameters.foldl McpTool.build_step (Json.obj [], [])).2) ∧
      (McpTool.build_input_schema parameters).get? "properties" =
        some (parameters.foldl McpTool.build_step (Json.obj [], [])).1 := by
  simp +decide [McpTool.build_input_schema, Json.set, Json.get?, mapInsert, mapFind]

/-- A schema made by `build_input_schema` has strings under `required` and a string as
the `type` of every property. -/
theorem build_input_schema_strings (parameters : List McpToolParameter) (args : Json) :
    requiredEntriesAreStrings (McpTool.build_input_schema parameters) = true ∧
      declaredTypesAreStrings args (McpTool.build_input_schema parameters) = true := by
  obtain ⟨⟨props, hp, hall⟩, hreq⟩ :=
    build_fold_invariant parameters (Json.obj [], []) ⟨[], rfl, by simp⟩ (by simp)
  obtain ⟨h1, h2⟩ := build_input_schema_members parameters
  constructor
  · simp only [requiredEntriesAreStrings, h1, hreq]
  · simp only [declaredTypesAreStrings, h2, hp, List.all_eq_true]
    intro kv _
    cases hm : mapFind props kv.1 with
    | none => rfl
    | some field_schema =>
      have hmem : (kv.1, field_schema) ∈ props := by
        clear hall hp
        induction props with
        | nil => simp [mapFind] at hm
        | cons hd tl ih =>
          obtain ⟨a, b⟩ := hd
          simp only [mapFind] at hm
          split at hm
          · simp_all
          · exact List.mem_cons_of_mem _ (ih hm)
      obtain ⟨p, hp'⟩ := hall _ hmem
      simp only at hp'
      simp [hp', to_json_schema_type, Json.is_string]

/-! ### The key order and the map invariant -/

theorem charsLt_irrefl : ∀ a : List Char, charsLt a a = false
  | [] => rfl
  | x :: xs => by simp [charsLt, charsLt_irrefl xs]

theorem charsLt_trans : ∀ a b c : List Char,
    charsLt a b = true → charsLt b c = true → charsLt a c = true
  | [], [], _, h, _ => by simp [charsLt] at h
  | [], _ :: _, [], _, h => by simp [charsLt] at h
  | [], _ :: _, _ :: _, _, _ => by simp [charsLt]
  | _ :: _, [], _, h, _ => by simp [charsLt] at h
  | _ :: _, _ :: _, [], _, h => by simp [charsLt] at h
  | x :: xs, y :: ys, z :: zs, h1, h2 => by
    simp only [charsLt] at h1 h2 ⊢
    by_cases hxy : x.toNat < y.toNat
    · by_cases hyz : y.toNat < z.toNat
      · have : x.toNat < z.toNat := by omega
        simp [this]
      · by_cases hzy : z.toNat < y.toNat
        · simp [hyz, hzy] at h2
        · have : x.toNat < z.toNat := by omega
          simp [this]
    · by_cases hyx : y.toNat < x.toNat
      · simp [hxy, hyx] at h1
      · simp only [hxy, hyx, if_false] at h1
        by_cases hyz : y.toNat < z.toNat
        · have : x.toNat < z.toNat := by omega
          simp [this]
        · by_cases hzy : z.toNat < y.toNat
          · simp [hyz, hzy] at h2
          · simp only [hyz, hzy, if_false] at h2
            have e1 : ¬ x.toNat < z.toNat := by omega
            have e2 : ¬ z.toNat < x.toNat := by omega
            simp only [e1, e2, if_false]
            exact charsLt_trans xs ys zs h1 h2

theorem char_eq_of_toNat_eq (x y : Char) (h : x.toNat = y.toNat) : x = y := by
  apply Char.ext
  apply UInt32.ext
  exact h

theorem charsLt_total :
    ∀ a b : List Char, charsLt a b = false → a ≠ b → charsLt b a = true
  | [], [], _, h => absurd rfl h
  | [], _ :: _, h, _ => by simp [charsLt] at h
  | _ :: _, [], _, _ => by simp [charsLt]
  | x :: xs, y :: ys, h1, h2 => by
    simp only [charsLt] at h1 ⊢
    by_cases hxy : x.toNat < y.toNat
    · simp [hxy] at h1
    · by_cases hyx : y.toNat < x.toNat
      · simp [hyx]
      · simp only [hxy, hyx, if_false] at h1 ⊢
        have e : x = y := char_eq_of_toNat_eq x y (by omega)
        subst e
        exact charsLt_total xs ys h1 (fun h => h2 (by rw [h]))

theorem strLt_irrefl (a : String) : strLt a a = false := charsLt_irrefl _

theorem strLt_trans (a b c : String) (h1 : strLt a b = true) (h2 : strLt b c = true) :
    strLt a c = true := charsLt_trans _ _ _ h1 h2

theorem strLt_total (a b : String) (h1 : strLt a b = false) (h2 : a ≠ b) :
    strLt b a = true :=
  charsLt_total _ _ h1 (fun h => h2 (String.ext h))

theorem mem_mapKeys_mapInsert {α : Type} (m : List (String × α)) (k x : String) (v : α) :
    x ∈ mapKeys (mapInsert m k v) ↔ x = k ∨ x ∈ mapKeys m := by
  have h := mapFind_mapInsert m k x v
  have h1 := mapFind_eq_none_iff (mapInsert m k v) x
  have h2 := mapFind_eq_none_iff m x
  by_cases hx : x = k
  · simp only [hx, if_true] at h
    subst hx
    simp only [true_or, iff_true]
    by_contra hc
    rw [h1.2 hc] at h
    cases h
  · simp only [hx, if_false, false_or] at h ⊢
    rw [← not_iff_not, ← h1, ← h2, h]

theorem sortedKeys_mapInsert {α : Type} (m : List (String × α)) (k : String) (v : α)
    (h : sortedKeys m) : sortedKeys (mapInsert m k v) := by
  induction m with
  | nil => simp [sortedKeys, mapInsert, mapKeys]
  | cons hd tl ih =>
    obtain ⟨a, b⟩ := hd
    have h' : (∀ x ∈ mapKeys tl, strLt a x = true) ∧ sortedKeys tl := by
      simpa [sortedKeys, mapKeys] using h
    simp only [mapInsert]
    by_cases h1 : k = a
    · subst h1
      simpa [sortedKeys, mapKeys] using h
    · by_cases h3 : strLt k a = true
      · simp only [h1, h3, if_false, if_true]
        have : sortedKeys ((k, v) :: (a, b) :: tl) := by
          unfold sortedKeys mapKeys
          simp only [List.map_cons, List.pairwise_cons]
          refine ⟨?_, ?_, h'.2⟩
          · intro x hx
            rcases List.mem_cons.1 hx with e | e
            · rw [e]; exact h3
            · exact strLt_trans _ _ _ h3 (h'.1 x e)
          · exact h'.1
        exact this
      · rw [if_neg h1, if_neg h3]
        have hak : strLt a k = true :=
          strLt_total k a (by simpa using h3) h1
        have ih' := ih h'.2
        unfold sortedKeys at ih' ⊢
        simp only [mapKeys, List.map_cons, List.pairwise_cons]
        refine ⟨?_, ih'⟩
        intro x hx
        rcases (mem_mapKeys_mapInsert tl k x v).1 hx with e | e
        · rw [e]; exact hak
        · exact h'.1 x e

theorem sortedKeys_nodup {α : Type} (m : List (String × α)) (h : sortedKeys m) :
    (mapKeys m).Nodup := by
  unfold sortedKeys at h
  refine List.Pairwise.imp ?_ h
  intro a b hab e
  rw [e, strLt_irrefl] at hab
  cases hab

theorem mapFind_some_mem {α : Type} (m : List (String × α)) (k : String) (v : α)
    (h : mapFind m k = some v) : (k, v) ∈ m := by
  induction m with
  | nil => simp [mapFind] at h
  | cons hd tl ih =>
    obtain ⟨a, b⟩ := hd
    simp only [mapFind] at h
    split at h
    · simp_all
    · exact List.mem_cons_of_mem _ (ih h)

theorem mapFind_of_mem_nodup {α : Type} (m : List (String × α)) (k : String) (v : α)
    (hn : (mapKeys m).Nodup) (h : (k, v) ∈ m) : mapFind m k = some v := by
  induction m with
  | nil => simp at h
  | cons hd tl ih =>
    obtain ⟨a, b⟩ := hd
    simp only [mapKeys, List.map_cons, List.nodup_cons] at hn
    rcases List.mem_cons.1 h with e | e
    · cases e
      simp [mapFind]
    · have hne : k ≠ a := by
        intro e'
        subst e'
        exact hn.1 (List.mem_map.2 ⟨(k, v), e, rfl⟩)
      simp only [mapFind, hne, if_false]
      exact ih hn.2 e

/-! ### Sequences of registrations -/

theorem toolsInvariant_register (s : McpServer ω) (r : ToolRegistration ω)
    (h : toolsInvariant s) :
    toolsInvariant (s.register_tool r.name r.description r.input_schema r.handler) := by
  refine ⟨sortedKeys_mapInsert _ _ _ h.1, ?_⟩
  intro kv hkv
  rcases mem_mapInsert _ _ _ _ hkv with e | e
  · rw [e]
  · exact h.2 kv e

theorem registerAll_invariant (s : McpServer ω) (regs : List (ToolRegistration ω))
    (h : toolsInvariant s) : toolsInvariant (registerAll s regs) := by
  induction regs generalizing s with
  | nil => exact h
  | cons r rest ih => exact ih _ (toolsInvariant_register s r h)

theorem registerAll_initialized (s : McpServer ω) (regs : List (ToolRegistration ω)) :
    (registerAll s regs).initialized_ = s.initialized_ := by
  induction regs generalizing s with
  | nil => rfl
  | cons r rest ih => exact (ih _).trans rfl

/-- Last writer wins: the tool stored under a name is the one of the most recent
registration of that name, or the one stored before when the name was not registered
again. -/
theorem mapFind_registerAll (s : McpServer ω) (regs : List (ToolRegistration ω))
    (n : String) :
    mapFind (registerAll s regs).tools_ n =
      match lastRegistration regs n with
      | some r => some { name := r.name, description := r.description,
                         input_schema := r.input_schema }
      | none => mapFind s.tools_ n := by
  induction regs generalizing s with
  | nil => rfl
  | cons r rest ih =>
    have h := ih (s.register_tool r.name r.description r.input_schema r.handler)
    simp only [registerAll, List.foldl_cons] at h ⊢
    rw [h]
    simp only [lastRegistration]
    cases lastRegistration rest n with
    | some later => rfl
    | none =>
      simp only [McpServer.register_tool, mapFind_mapInsert]
      by_cases e : n = r.name
      · simp [e]
      · have e' : ¬ r.name = n := fun h => e h.symm
        simp [e, e']

theorem mem_names_registerAll (s : McpServer ω) (regs : List (ToolRegistration ω))
    (n : String) :
    n ∈ mapKeys (registerAll s regs).tools_ ↔
      n ∈ mapKeys s.tools_ ∨ n ∈ regs.map (fun r => r.name) := by
  induction regs generalizing s with
  | nil => simp [registerAll]
  | cons r rest ih =>
    have h := ih (s.register_tool r.name r.description r.input_schema r.handler)
    simp only [registerAll, List.foldl_cons] at h ⊢
    rw [h]
    simp only [McpServer.register_tool, mem_mapKeys_mapInsert, List.map_cons, List.mem_cons]
    tauto

theorem mem_mapErase {α : Type} (m : List (String × α)) (k : String) (x : String × α)
    (hx : x ∈ mapErase m k) : x ∈ m := by
  induction m with
  | nil => simp [mapErase] at hx
  | cons hd tl ih =>
    obtain ⟨a, b⟩ := hd
    simp only [mapErase] at hx
    split at hx
    · exact List.mem_cons_of_mem _ hx
    · rcases List.mem_cons.1 hx with e | e
      · exact e ▸ List.mem_cons_self _ _
      · exact List.mem_cons_of_mem _ (ih e)

theorem sortedKeys_mapErase {α : Type} (m : List (String × α)) (k : String)
    (h : sortedKeys m) : sortedKeys (mapErase m k) := by
  induction m with
  | nil => simpa [mapErase] using h
  | cons hd tl ih =>
    obtain ⟨a, b⟩ := hd
    have h' : (∀ x ∈ mapKeys tl, strLt a x = true) ∧ sortedKeys tl := by
      simpa [sortedKeys, mapKeys] using h
    simp only [mapErase]
    split
    · exact h'.2
    · have ih' := ih h'.2
      unfold sortedKeys at ih' ⊢
      simp only [mapKeys, List.map_cons, List.pairwise_cons]
      refine ⟨?_, ih'⟩
      intro x hx
      obtain ⟨kv, hkv, rfl⟩ := List.mem_map.1 hx
      exact h'.1 _ (List.mem_map.2 ⟨kv, mem_mapErase tl k kv hkv, rfl⟩)

/-- Handling a request never touches the tool table. -/
theorem handle_request_tools (s : McpServer ω) (j : Json) (w : ω) :
    (s.handle_request j w).2.1.tools_ = s.tools_ := by
  unfold McpServer.handle_request
  cases JsonRpcRequest.from_json j with
  | error e => rfl
  | ok request =>
    simp only
    have hd : (s.dispatch request w).2.1.tools_ = s.tools_ := by
      unfold McpServer.dispatch
      split
      · unfold McpServer.handle_initialize
        cases request.params with
        | none => rfl
        | some p =>
          simp only
          cases McpInitializeParams.from_json p <;> rfl
      · split
        · rfl
        · split
          · rfl
          · split <;> rfl
    rcases hr : s.dispatch request w with ⟨out, s', w'⟩
    rw [hr] at hd
    cases out <;> exact hd

/-- Every dispatcher that the code can build, from the constructor by registrations,
removals and requests, satisfies the invariant of the tool table. -/
theorem toolsInvariant_reachable (name version : String) (ops : List (ServerOp ω)) :
    toolsInvariant (ops.foldl applyOp (McpServer.new name version)) := by
  have hnew : toolsInvariant (McpServer.new name version : McpServer ω) := by
    refine ⟨?_, ?_⟩
    · simp [sortedKeys, McpServer.new, mapKeys]
    · intro kv hkv
      simp [McpServer.new] at hkv
  generalize (McpServer.new name version : McpServer ω) = s at hnew
  induction ops generalizing s with
  | nil => exact hnew
  | cons op rest ih =>
    apply ih
    cases op with
    | register r => exact toolsInvariant_register s r hnew
    | unregister n =>
      exact ⟨sortedKeys_mapErase _ _ hnew.1,
        fun kv hkv => hnew.2 kv (mem_mapErase _ _ _ hkv)⟩
    | request j w =>
      unfold toolsInvariant at hnew ⊢
      simp only [applyOp]
      rw [handle_request_tools]
      exact hnew

/-! ### The client side of tools/list -/

/-- A request built by `send_request` is decoded by the dispatcher as it was built, with
the id reduced to the range of `int`. -/
theorem from_json_sent_request (method : String) (params : Json) (i : Int) :
    JsonRpcRequest.from_json
        (JsonRpcRequest.to_json { method := method, params := some params, id := some (.int i) })
      = .ok { method := method, params := some params, id := some (.int (toInt32 i)) } := by
  simp +decide [JsonRpcRequest.to_json, JsonRpcRequest.from_json, Json.set, Json.get?,
    mapInsert, mapFind, JsonRpcId.to_json]

theorem parse_response_success (v : Json) (i : JsonRpcId) :
    McpClient.parse_response (JsonRpcResponse.success v i).to_json = .ok v := by
  have h := success_response_members v i
  simp [McpClient.parse_response, h.1, h.2]

theorem decode_tool_to_json (t : McpTool) : McpClient.decode_tool t.to_json = .ok t := by
  obtain ⟨name, description, input_schema⟩ := t
  simp +decide [McpClient.decode_tool, McpTool.to_json, Json.set, Json.at_, mapInsert,
    mapFind, Json.get_string]

theorem decode_tools_to_json (ts : List McpTool) :
    McpClient.decode_tools (ts.map McpTool.to_json) = .ok ts := by
  induction ts with
  | nil => rfl
  | cons t rest ih => simp [McpClient.decode_tools, decode_tool_to_json, ih]

/-- On an initialized dispatcher `McpClient::list_tools` returns the stored tools in key
order and uses up one request id. -/
theorem list_tools_initialized (c : McpClient) (s : McpServer ω) (w : ω)
    (hi : s.initialized_ = true) :
    c.list_tools s w =
      (.ok (s.tools_.map Prod.snd), { next_id_ := c.next_id_ + 1 }, s, w) := by
  have hd := decode_tools_to_json (s.tools_.map Prod.snd)
  rw [List.map_map] at hd
  simp +decide [McpClient.list_tools, McpClient.send_request, McpServer.handle_request,
    from_json_sent_request, McpServer.dispatch, McpServer.handle_list_tools, hi,
    parse_response_success, McpListToolsResult.to_json, Json.set, Json.get?, mapFind, hd]

/-- C1 (as stated, refuted): on a freshly constructed dispatcher, which has processed no
initialize, the well-formed request for the method resources/list (neither initialize nor
ping) is answered with method_not_found (-32601), not with server_not_initialized
(-32004). -/
theorem C1_unknown_method_counterexample :
    (McpServer.new "srv" "1.0" : McpServer Unit).initialized_ = false ∧
      (JsonRpcRequest.from_json unknownMethodRequest).toOption.map (fun r => r.method)
        = some "resources/list" ∧
      "resources/list" ≠ "initialize" ∧ "resources/list" ≠ "ping" ∧
      responseErrorCode
          ((McpServer.new "srv" "1.0" : McpServer Unit).handle_request
            unknownMethodRequest ()).1
        = some (.int JsonRpcErrorCode.method_not_found) ∧
      responseErrorCode
          ((McpServer.new "srv" "1.0" : McpServer Unit).handle_request
            unknownMethodRequest ()).1
        ≠ some (.int JsonRpcErrorCode.server_not_initialized) := by
  decide

/-- C1 (amended): on a dispatcher that has not processed a successful initialize, every
well-formed JSON-RPC 2.0 request whose method is tools/list or tools/call, whatever its
params and id, is answered with the error response for server_not_initialized (-32004)
carrying the id of the request, and neither the dispatcher nor the world changes; a
well-formed request for a method other than initialize, tools/list, tools/call and ping is
answered with method_not_found (-32601) in every state of the dispatcher, initialized or
not, and changes neither the dispatcher nor the world. -/
theorem C1_uninitialized_list_and_call (s : McpServer ω) (j : Json) (r : JsonRpcRequest)
    (w : ω) (hj : JsonRpcRequest.from_json j = .ok r) :
    (s.initialized_ = false → (r.method = "tools/list" ∨ r.method = "tools/call") →
      s.handle_request j w =
          ((JsonRpcResponse.error_response
              { code := JsonRpcErrorCode.server_not_initialized,
                message := "Server not initialized. Call \x27initialize\x27 first." }
              (r.id.getD make_null_id)).to_json, s, w) ∧
        responseErrorCode (s.handle_request j w).1 = some (.int (-32004)) ∧
        (s.handle_request j w).1.get? "result" = none) ∧
    ((r.method ≠ "initialize" ∧ r.method ≠ "tools/list" ∧ r.method ≠ "tools/call" ∧
        r.method ≠ "ping") →
      s.handle_request j w =
          ((JsonRpcResponse.error_response
              { code := JsonRpcErrorCode.method_not_found,
                message := "Method not found: " ++ r.method }
              (r.id.getD make_null_id)).to_json, s, w) ∧
        responseErrorCode (s.handle_request j w).1 = some (.int (-32601)) ∧
        (s.handle_request j w).1.get? "result" = none) := by
  have hid : (match r.id with | some i => i | none => make_null_id) =
      r.id.getD make_null_id := by cases r.id <;> rfl
  constructor
  · intro hs hm
    have key : s.handle_request j w =
        ((JsonRpcResponse.error_response
            { code := JsonRpcErrorCode.server_not_initialized,
              message := "Server not initialized. Call \x27initialize\x27 first." }
            (r.id.getD make_null_id)).to_json, s, w) := by
      rcases hm with hm | hm
      · simp +decide [McpServer.handle_request, hj, McpServer.dispatch, hm,
          not_initialized_list s _ hs, hid]
      · simp +decide [McpServer.handle_request, hj, McpServer.dispatch, hm,
          not_initialized_call s _ w hs, hid]
    refine ⟨key, ?_, ?_⟩
    · rw [key, responseErrorCode_error_response]; rfl
    · rw [key, error_response_no_result]
  · rintro ⟨h1, h2, h3, h4⟩
    have key : s.handle_request j w =
        ((JsonRpcResponse.error_response
            { code := JsonRpcErrorCode.method_not_found,
              message := "Method not found: " ++ r.method }
            (r.id.getD make_null_id)).to_json, s, w) := by
      simp only [McpServer.handle_request, hj, McpServer.dispatch, h1, h2, h3, h4, if_false,
        hid]
    refine ⟨key, ?_, ?_⟩
    · rw [key, responseErrorCode_error_response]; rfl
    · rw [key, error_response_no_result]

/-- C1 witness: a tools/call request with id 3 sent to a freshly constructed dispatcher is
answered with server_not_initialized, and a request for the method resources/list sent to
the initialized dispatcher `readyServer` is answered with method_not_found. -/
theorem C1_uninitialized_list_and_call_witness :
    responseErrorCode
        ((McpServer.new "srv" "1.0" : McpServer Unit).handle_request
          (JsonRpcRequest.to_json
            { method := "tools/call", params := some (.obj [("name", .str "echo")]),
              id := some (.int 3) }) ()).1
      = some (.int (-32004)) ∧
      readyServer.initialized_ = true ∧
      responseErrorCode (readyServer.handle_request unknownMethodRequest 0).1
        = some (.int (-32601)) :=
  ⟨((C1_uninitialized_list_and_call (McpServer.new "srv" "1.0" : McpServer Unit)
      (JsonRpcRequest.to_json
        { method := "tools/call", params := some (.obj [("name", .str "echo")]),
          id := some (.int 3) })
      { method := "tools/call", params := some (.obj [("name", .str "echo")]),
        id := some (.int 3) } () (by rfl)).1 rfl (Or.inr rfl)).2.1,
    by decide,
    ((C1_uninitialized_list_and_call readyServer unknownMethodRequest
      { method := "resources/list", id := some (.int 7) } 0 (by rfl)).2
        (by decide)).2.1⟩

/-! ### The claims about the dispatcher -/

/-- C2: on an initialized dispatcher, a tools/call that names a registered tool whose
input schema lists the field f under required, with an arguments object that does not
contain f, is answered with an error response of code invalid_tool_params (-32003) and
no result; the world state is the one before the call whatever the handler is, so the
handler has not run. -/
theorem C2_missing_required_field (s : McpServer ω) (j : Json) (r : JsonRpcRequest)
    (p : Json) (n : String) (w : ω) (tool : McpTool) (handler : ToolHandler ω)
    (reqs : List Json) (f : String) (members : List (String × Json))
    (hs : s.initialized_ = true) (hj : JsonRpcRequest.from_json j = .ok r)
    (hm : r.method = "tools/call") (hp : r.params = some p)
    (hn : p.get? "name" = some (.str n))
    (ht : mapFind s.tools_ n = some tool) (hh : mapFind s.tool_handlers_ n = some handler)
    (hr : tool.input_schema.get? "required" = some (.arr reqs)) (hf : Json.str f ∈ reqs)
    (ha : (p.get? "arguments").getD (.obj []) = .obj members)
    (hc : (Json.obj members).contains f = false) :
    ∃ e : JsonRpcError, e.code = JsonRpcErrorCode.invalid_tool_params ∧
      s.handle_request j w =
        ((JsonRpcResponse.error_response e (r.id.getD make_null_id)).to_json, s, w) ∧
      responseErrorCode (s.handle_request j w).1 = some (.int (-32003)) ∧
      (s.handle_request j w).1.get? "result" = none := by
  obtain ⟨e, hv, hcode⟩ :=
    validate_missing_required (.obj members) tool.input_schema members reqs f rfl hr hf hc
  have key : s.handle_request j w =
      ((JsonRpcResponse.error_response e (r.id.getD make_null_id)).to_json, s, w) := by
    rw [handle_request_call s j r w hj hm]
    simp [McpServer.handle_call_tool, hs, hp, call_params_of_name p n hn, ht, hh, ha, hv]
  refine ⟨e, hcode, key, ?_, ?_⟩
  · rw [key, responseErrorCode_error_response, hcode]; rfl
  · rw [key, error_response_no_result]

/-- C2 witness: the tool echo requires text; a call whose arguments object has
the single member other is refused and the run counter of the handler stays 0. -/
theorem C2_missing_required_field_witness :
    ∃ e : JsonRpcError, e.code = JsonRpcErrorCode.invalid_tool_params ∧
      readyServer.handle_request (callRequest "echo" (.obj [("other", .int 1)]) 2).to_json 0 =
        ((JsonRpcResponse.error_response e
            ((callRequest "echo" (.obj [("other", .int 1)]) 2).id.getD make_null_id)).to_json,
          readyServer, 0) ∧
      responseErrorCode
        (readyServer.handle_request (callRequest "echo" (.obj [("other", .int 1)]) 2).to_json
          0).1 = some (.int (-32003)) ∧
      (readyServer.handle_request (callRequest "echo" (.obj [("other", .int 1)]) 2).to_json
          0).1.get? "result" = none :=
  C2_missing_required_field readyServer
    (callRequest "echo" (.obj [("other", .int 1)]) 2).to_json
    (callRequest "echo" (.obj [("other", .int 1)]) 2)
    ((Json.null.set "name" (.str "echo")).set "arguments" (.obj [("other", .int 1)]))
    "echo" 0
    { name := "echo", description := "Echo the text"
      input_schema := McpTool.build_input_schema
        [{ name := "text", type := "string", description := "the text" }] }
    echoHandler [.str "text"] "text" [("other", .int 1)]
    (by decide) (by rfl) (by decide) (by rfl) (by decide) (by decide) (by rfl) (by decide)
    (by decide) (by decide) (by decide)

/-- C3: on an initialized dispatcher, a tools/call whose params name a tool that is not
registered is answered with the error response for tool_not_found (-32001) and no result;
dispatcher and world state are unchanged whatever handlers are registered, so no handler
has run. -/
theorem C3_unregistered_tool (s : McpServer ω) (j : Json) (r : JsonRpcRequest)
    (p : Json) (n : String) (w : ω)
    (hs : s.initialized_ = true) (hj : JsonRpcRequest.from_json j = .ok r)
    (hm : r.method = "tools/call") (hp : r.params = some p)
    (hn : p.get? "name" = some (.str n)) (hu : n ∉ s.list_tool_names) :
    s.handle_request j w =
        ((JsonRpcResponse.error_response
            { code := JsonRpcErrorCode.tool_not_found, message := "Tool not found: " ++ n }
            (r.id.getD make_null_id)).to_json, s, w) ∧
      responseErrorCode (s.handle_request j w).1 = some (.int (-32001)) ∧
      (s.handle_request j w).1.get? "result" = none := by
  have hnone : mapFind s.tools_ n = none := (mapFind_eq_none_iff _ _).2 hu
  have key : s.handle_request j w =
      ((JsonRpcResponse.error_response
          { code := JsonRpcErrorCode.tool_not_found, message := "Tool not found: " ++ n }
          (r.id.getD make_null_id)).to_json, s, w) := by
    rw [handle_request_call s j r w hj hm]
    simp [McpServer.handle_call_tool, hs, hp, call_params_of_name p n hn, hnone]
  refine ⟨key, ?_, ?_⟩
  · rw [key, responseErrorCode_error_response]; rfl
  · rw [key, error_response_no_result]

/-- C3 witness: the tool name nonexistent_tool on the dispatcher with the tools echo,
refuse and crash. -/
theorem C3_unregistered_tool_witness :
    responseErrorCode
      (readyServer.handle_request (callRequest "nonexistent_tool" .null 5).to_json 0).1
        = some (.int (-32001)) :=
  (C3_unregistered_tool readyServer (callRequest "nonexistent_tool" .null 5).to_json
    (callRequest "nonexistent_tool" .null 5)
    ((Json.null.set "name" (.str "nonexistent_tool")).set "arguments" .null)
    "nonexistent_tool" 0 (by decide) (by rfl) (by decide) (by rfl) (by decide)
    (by decide)).2.1

/-- C4 (as stated, refuted): with the schema whose `required` array holds the number 5,
the empty arguments object meets the condition of the claim (it is an object, no field is
named by `required`, no property is declared), yet the validator rejects it: reading the
entry as a string throws and the validator turns that into a validation error.  The same
happens with a property whose `type` is an array of type names. -/
theorem C4_malformed_schema_counterexample :
    specAccepts (.obj []) (.obj [("required", .arr [.int 5])]) = true ∧
      McpValidator.validate_tool_params (.obj []) (.obj [("required", .arr [.int 5])]) =
        .error { code := JsonRpcErrorCode.invalid_tool_params
                 message := "Validation error: [json.exception.type_error.302] " ++
                   "type must be string, but is number" } ∧
      specAccepts (.obj [("x", .str "a")])
        (.obj [("properties",
          .obj [("x", .obj [("type", .arr [.str "string", .str "null"])])])]) = true ∧
      McpValidator.validate_tool_params (.obj [("x", .str "a")])
        (.obj [("properties",
          .obj [("x", .obj [("type", .arr [.str "string", .str "null"])])])]) =
        .error { code := JsonRpcErrorCode.invalid_tool_params
                 message := "Validation error: [json.exception.type_error.302] " ++
                   "type must be string, but is array" } := by
  decide

/-- C4 (amended): `validate_tool_params(args, schema)` succeeds exactly when args is a
JSON object, every field named in `schema.required` is present in args, every field
present both in args and in `schema.properties` has a value of the declared primitive
type, and in addition every entry of `schema.required` is a string and every `type` read
for a field of args is a string.  For a schema made by `build_input_schema` the two
additions always hold, so there the validator succeeds exactly on the condition of the
claim.  Assigning a field that `schema.properties` does not declare to accepted arguments
never causes rejection, and every rejection carries the code invalid_tool_params. -/
theorem C4_validate_tool_params_characterised (args schema : Json) :
    (McpValidator.validate_tool_params args schema = .ok true ↔
        (specAccepts args schema = true ∧ requiredEntriesAreStrings schema = true ∧
          declaredTypesAreStrings args schema = true)) ∧
      (∀ parameters : List McpToolParameter,
        McpValidator.validate_tool_params args (McpTool.build_input_schema parameters)
            = .ok true ↔
          specAccepts args (McpTool.build_input_schema parameters) = true) ∧
      (∀ (k : String) (v : Json),
        (schema.get? "properties").bind (fun props => props.get? k) = none →
        McpValidator.validate_tool_params args schema = .ok true →
        McpValidator.validate_tool_params (args.set k v) schema = .ok true) ∧
      (∀ e : JsonRpcError, McpValidator.validate_tool_params args schema = .error e →
        e.code = JsonRpcErrorCode.invalid_tool_params) := by
  refine ⟨validate_ok_iff_spec args schema, ?_, ?_, ?_⟩
  · intro parameters
    rw [validate_ok_iff_spec]
    have h := build_input_schema_strings parameters args
    constructor
    · exact fun hh => hh.1
    · exact fun hh => ⟨hh, h.1, h.2⟩
  · exact fun k v hk h => validate_set_undeclared args schema k v hk h
  · exact fun e h => validate_tool_params_code args schema e h

/-- C4 witness: the arguments with text "hi" are accepted for the schema built from one
required string parameter text, and stay accepted with the undeclared field extra. -/
theorem C4_validate_tool_params_characterised_witness :
    McpValidator.validate_tool_params
        ((Json.obj [("text", .str "hi")]).set "extra" (.int 1))
        (McpTool.build_input_schema
          [{ name := "text", type := "string", description := "the text" }]) = .ok true :=
  (C4_validate_tool_params_characterised (.obj [("text", .str "hi")])
    (McpTool.build_input_schema
      [{ name := "text", type := "string", description := "the text" }])).2.2.1
    "extra" (.int 1) (by decide) (by decide)

/-- C6: let an initialized dispatcher whose tool table is a proper map (keys increasing,
every tool stored under its name, as holds for every dispatcher the code can build) go
through any sequence of `register_tool` calls.  Then
tools/list answers with the stored tools, `McpClient::list_tools` decodes exactly that
list, the list holds no name twice, its names are the names stored before together with
the names registered, and the entry of every registered name has the description and the
input schema of the most recent registration of that name. -/
theorem C6_list_after_registrations (s : McpServer ω) (regs : List (ToolRegistration ω))
    (c : McpClient) (w : ω) (p : Option Json)
    (hi : s.initialized_ = true) (hinv : toolsInvariant s) :
    (registerAll s regs).handle_list_tools p =
        .ok (McpListToolsResult.to_json
          { tools := (registerAll s regs).tools_.map Prod.snd }) ∧
      c.list_tools (registerAll s regs) w =
        (.ok ((registerAll s regs).tools_.map Prod.snd), { next_id_ := c.next_id_ + 1 },
          registerAll s regs, w) ∧
      (((registerAll s regs).tools_.map Prod.snd).map (fun t => t.name)).Nodup ∧
      (∀ n, n ∈ ((registerAll s regs).tools_.map Prod.snd).map (fun t => t.name) ↔
        n ∈ s.list_tool_names ∨ n ∈ regs.map (fun r => r.name)) ∧
      (∀ t ∈ (registerAll s regs).tools_.map Prod.snd, ∀ r,
        lastRegistration regs t.name = some r →
          t.description = r.description ∧ t.input_schema = r.input_schema) := by
  have hi' : (registerAll s regs).initialized_ = true := by
    rw [registerAll_initialized, hi]
  have hinv' := registerAll_invariant s regs hinv
  have hnames : ((registerAll s regs).tools_.map Prod.snd).map (fun t => t.name) =
      mapKeys (registerAll s regs).tools_ := by
    simp only [mapKeys, List.map_map]
    apply List.map_congr_left
    intro kv hkv
    exact hinv'.2 kv hkv
  refine ⟨?_, list_tools_initialized c _ w hi', ?_, ?_, ?_⟩
  · simp [McpServer.handle_list_tools, hi']
  · rw [hnames]
    exact sortedKeys_nodup _ hinv'.1
  · intro n
    rw [hnames]
    exact mem_names_registerAll s regs n
  · intro t ht r hr
    obtain ⟨kv, hkv, rfl⟩ := List.mem_map.1 ht
    have hk := hinv'.2 kv hkv
    have hfind := mapFind_of_mem_nodup _ kv.1 kv.2 (sortedKeys_nodup _ hinv'.1) hkv
    rw [mapFind_registerAll, ← hk, hr] at hfind
    simp only [Option.some.injEq] at hfind
    rw [← hfind]
    exact ⟨rfl, rfl⟩

/-- C6 witness: on the initialized dispatcher with the tools crash, echo and refuse, the
tool echo is registered twice more; the listing then has the three names once each and
shows echo with the description of the later registration. -/
theorem C6_list_after_registrations_witness :
    ((registerAll readyServer
        [{ name := "echo", description := "first", input_schema := .obj [],
           handler := echoHandler },
         { name := "echo", description := "second", input_schema := .null,
           handler := echoHandler }]).tools_.map Prod.snd).map (fun t => t.name)
        = ["crash", "echo", "refuse"] ∧
      ∀ t ∈ (registerAll readyServer
          [{ name := "echo", description := "first", input_schema := .obj [],
             handler := echoHandler },
           { name := "echo", description := "second", input_schema := .null,
             handler := echoHandler }]).tools_.map Prod.snd,
        ∀ r, lastRegistration
            [{ name := "echo", description := "first", input_schema := .obj [],
               handler := echoHandler },
             { name := "echo", description := "second", input_schema := .null,
               handler := echoHandler }] t.name = some r →
          t.description = r.description ∧ t.input_schema = r.input_schema :=
  ⟨by decide,
   (C6_list_after_registrations readyServer
      [{ name := "echo", description := "first", input_schema := .obj [],
         handler := echoHandler },
       { name := "echo", description := "second", input_schema := .null,
         handler := echoHandler }]
      {} 0 none (by decide) (by unfold toolsInvariant; decide)).2.2.2.2⟩

theorem error_response_error_member (e : JsonRpcError) (i : JsonRpcId) :
    (JsonRpcResponse.error_response e i).to_json.get? "error" = some e.to_json := by
  simp +decide [JsonRpcResponse.error_response, JsonRpcResponse.to_json,
    Json.set, Json.get?, mapInsert, mapFind]

/-- The value `toInt32 n` is `n` for every `n` in the range of `int`. -/
theorem toInt32_of_range (n : Int) (h1 : -2147483648 ≤ n) (h2 : n ≤ 2147483647) :
    toInt32 n = n := by
  unfold toInt32
  omega

/-- C19: for every JSON value given to `McpServer::handle_request`, in every state of the
dispatcher and of the world, the response object has exactly one of the members result and
error. -/
theorem C19_result_xor_error (s : McpServer ω) (j : Json) (w : ω) :
    ((s.handle_request j w).1.contains "result" = true ∧
        (s.handle_request j w).1.contains "error" = false) ∨
      ((s.handle_request j w).1.contains "result" = false ∧
        (s.handle_request j w).1.contains "error" = true) := by
  unfold McpServer.handle_request
  cases JsonRpcRequest.from_json j with
  | error e =>
    right
    simp only [Json.contains, error_response_no_result, error_response_error_member]
    exact ⟨rfl, rfl⟩
  | ok request =>
    simp only
    rcases s.dispatch request w with ⟨out, s', w'⟩
    cases out with
    | error e =>
      right
      simp only [Json.contains, error_response_no_result, error_response_error_member]
      exact ⟨rfl, rfl⟩
    | ok v =>
      left
      simp only [Json.contains, (success_response_members v _).1,
        (success_response_members v _).2]
      exact ⟨rfl, rfl⟩

/-- C20: a request with jsonrpc "2.0", any method string, params absent or any JSON value,
and id absent, null, a string or an integer of type `int`, is decoded from its wire form
as it was: `from_json(r.to_json())` succeeds with r, an absent id stays absent and a null
id stays null. -/
theorem C20_request_round_trip (method : String) (params : Option Json)
    (id : Option JsonRpcId)
    (hid : ∀ n, id = some (.int n) → -2147483648 ≤ n ∧ n ≤ 2147483647) :
    JsonRpcRequest.from_json
        (JsonRpcRequest.to_json
          { jsonrpc := "2.0", method := method, params := params, id := id }) =
      .ok { jsonrpc := "2.0", method := method, params := params, id := id } := by
  cases params with
  | none =>
    cases id with
    | none =>
      simp +decide [JsonRpcRequest.to_json, JsonRpcRequest.from_json, Json.set, Json.get?,
        mapInsert, mapFind]
    | some i =>
      cases i with
      | int n =>
        have h := hid n rfl
        simp +decide [JsonRpcRequest.to_json, JsonRpcRequest.from_json, Json.set, Json.get?,
          mapInsert, mapFind, JsonRpcId.to_json, toInt32_of_range n h.1 h.2]
      | _ =>
        simp +decide [JsonRpcRequest.to_json, JsonRpcRequest.from_json, Json.set, Json.get?,
          mapInsert, mapFind, JsonRpcId.to_json]
  | some p =>
    cases id with
    | none =>
      simp +decide [JsonRpcRequest.to_json, JsonRpcRequest.from_json, Json.set, Json.get?,
        mapInsert, mapFind]
    | some i =>
      cases i with
      | int n =>
        have h := hid n rfl
        simp +decide [JsonRpcRequest.to_json, JsonRpcRequest.from_json, Json.set, Json.get?,
          mapInsert, mapFind, JsonRpcId.to_json, toInt32_of_range n h.1 h.2]
      | _ =>
        simp +decide [JsonRpcRequest.to_json, JsonRpcRequest.from_json, Json.set, Json.get?,
          mapInsert, mapFind, JsonRpcId.to_json]

/-- C20 witness: the request for tools/call with params null and the integer id -5. -/
theorem C20_request_round_trip_witness :
    JsonRpcRequest.from_json
        (JsonRpcRequest.to_json
          { jsonrpc := "2.0", method := "tools/call", params := some .null,
            id := some (.int (-5)) }) =
      .ok { jsonrpc := "2.0", method := "tools/call", params := some .null,
            id := some (.int (-5)) } :=
  C20_request_round_trip "tools/call" (some .null) (some (.int (-5)))
    (fun n h => by
      simp only [Option.some.injEq, JsonRpcId.int.injEq] at h
      subst h
      decide)

end Dispatcher

/-! ## Properties of the agent loop -/

section AgentLoop

variable {ω σ : Type}

theorem requestsLinked_iff (earlier : List ChatMessage) (id : String) :
    requestsLinked earlier id = true ↔
      ∃ a ∈ earlier, a.role = ChatRole.Assistant ∧ ∃ tc ∈ a.tool_calls, tc.id = id := by
  simp [requestsLinked, List.any_eq_true]

theorem requestsLinked_append (h x : List ChatMessage) (id : String)
    (hl : requestsLinked h id = true) : requestsLinked (h ++ x) id = true := by
  simp only [requestsLinked, List.any_append, Bool.or_eq_true] at hl ⊢
  exact Or.inl hl

theorem transcriptOkFrom_iff (e r : List ChatMessage) :
    transcriptOkFrom e r = true ↔
      ∀ pre m post, r = pre ++ m :: post → m.role = ChatRole.Tool →
        ∃ a ∈ e ++ pre, a.role = ChatRole.Assistant ∧
          ∃ tc ∈ a.tool_calls, tc.id = m.tool_call_id := by
  induction r generalizing e with
  | nil =>
    simp only [transcriptOkFrom, true_iff]
    intro pre m post h
    cases pre <;> simp at h
  | cons x rest ih =>
    simp only [transcriptOkFrom, Bool.and_eq_true, Bool.or_eq_true, bne_iff_ne, ne_eq, ih,
      requestsLinked_iff]
    constructor
    · rintro ⟨h1, h2⟩ pre m post hsplit hrole
      cases pre with
      | nil =>
        simp only [List.nil_append, List.cons.injEq] at hsplit
        obtain ⟨rfl, -⟩ := hsplit
        rcases h1 with h1 | h1
        · exact absurd hrole h1
        · simpa using h1
      | cons y pre' =>
        simp only [List.cons_append, List.cons.injEq] at hsplit
        obtain ⟨rfl, hrest⟩ := hsplit
        have := h2 pre' m post hrest hrole
        simpa [List.append_assoc] using this
    · intro h
      constructor
      · by_cases hr : x.role = ChatRole.Tool
        · right
          have := h [] x rest rfl hr
          simpa using this
        · exact Or.inl hr
      · intro pre m post hsplit hrole
        have := h (x :: pre) m post (by rw [hsplit]; rfl) hrole
        simpa [List.append_assoc] using this

theorem transcriptOkFrom_app (e r t : List ChatMessage) :
    transcriptOkFrom e (r ++ t) = (transcriptOkFrom e r && transcriptOkFrom (e ++ r) t) := by
  induction r generalizing e with
  | nil => simp [transcriptOkFrom]
  | cons x rest ih =>
    have h := ih (e ++ [x])
    rw [List.cons_append]
    simp only [transcriptOkFrom]
    rw [h]
    simp only [List.append_assoc, List.singleton_append, Bool.and_assoc]

/-- A run of tool messages whose identifiers are all requested in front of it satisfies
the check. -/
theorem transcriptOkFrom_tools (e tail : List ChatMessage) (ids : List String)
    (hs : tail.map messageShape = ids.map (fun i => (ChatRole.Tool, i, ([] : List ToolCall))))
    (hl : ∀ i ∈ ids, requestsLinked e i = true) : transcriptOkFrom e tail = true := by
  induction tail generalizing e ids with
  | nil => rfl
  | cons m rest ih =>
    cases ids with
    | nil => simp at hs
    | cons i ids' =>
      simp only [List.map_cons, List.cons.injEq, messageShape, Prod.mk.injEq] at hs
      obtain ⟨⟨-, hid, -⟩, hrest⟩ := hs
      simp only [transcriptOkFrom, Bool.and_eq_true, Bool.or_eq_true]
      refine ⟨Or.inr ?_, ih (e ++ [m]) ids' hrest ?_⟩
      · rw [hid]
        exact hl i (List.mem_cons_self _ _)
      · intro j hj
        exact requestsLinked_append _ _ _ (hl j (List.mem_cons_of_mem _ hj))

/-- The inner loop appends one tool message per requested call, in request order and with
the identifier of the call, records the tool names in the same order, and touches nothing
else of the response or of the configuration. -/
theorem run_tool_calls_spec (dump : Json → String) (calls : List ToolCall) (a : Agent ω)
    (response : AgentResponse) (w : ω) :
    ∃ tail,
      (Agent.run_tool_calls dump calls a response w).1.conversation_history_ =
          a.conversation_history_ ++ tail ∧
        tail.map messageShape =
          calls.map (fun tc => (ChatRole.Tool, tc.id, ([] : List ToolCall))) ∧
        (Agent.run_tool_calls dump calls a response w).1.config_ = a.config_ ∧
        (Agent.run_tool_calls dump calls a response w).2.1 =
          { response with tool_calls_made :=
              response.tool_calls_made ++ calls.map (fun tc => tc.function.name) } := by
  induction calls generalizing a response w with
  | nil => exact ⟨[], by simp [Agent.run_tool_calls]⟩
  | cons tc rest ih =>
    simp only [Agent.run_tool_calls]
    obtain ⟨tail, h1, h2, h3, h4⟩ := ih
      { a with
        mcp_client_ := (a.mcp_client_.call_tool a.mcp_server_ tc.function.name
          tc.function.arguments w).2.1
        mcp_server_ := (a.mcp_client_.call_tool a.mcp_server_ tc.function.name
          tc.function.arguments w).2.2.1
        conversation_history_ := a.conversation_history_ ++
          [{ role := ChatRole.Tool
             content := Agent.result_content dump (a.mcp_client_.call_tool a.mcp_server_
               tc.function.name tc.function.arguments w).1
             tool_calls := [], tool_call_id := tc.id }] }
      { response with tool_calls_made := response.tool_calls_made ++ [tc.function.name] }
      (a.mcp_client_.call_tool a.mcp_server_ tc.function.name tc.function.arguments w).2.2.2
    refine ⟨{ role := ChatRole.Tool
              content := Agent.result_content dump (a.mcp_client_.call_tool a.mcp_server_
                tc.function.name tc.function.arguments w).1
              tool_calls := [], tool_call_id := tc.id } :: tail, ?_, ?_, h3, ?_⟩
    · rw [h1]
      simp only [List.append_assoc, List.singleton_append]
    · simp only [List.map_cons, h2, messageShape]
    · rw [h4]
      simp only [List.append_assoc, List.singleton_append, List.map_cons]

/-- The list `a` is a prefix of `a ++ t ++ u`. -/
theorem prefix_append_append (a t u : List ChatMessage) : a <+: a ++ t ++ u := by
  rw [List.append_assoc]
  exact List.prefix_append _ _

/-- Whatever the backend answers, the loop of `process` only appends to the transcript and
keeps the transcript invariant. -/
theorem process_loop_transcript (dump : Json → String) (backend : Backend σ) (n : Nat)
    (iteration : Int) (a : Agent ω) (response : AgentResponse) (b : σ) (w : ω) :
    a.conversation_history_ <+:
        (Agent.process_loop dump backend n iteration a response b w).agent.conversation_history_ ∧
      (transcriptOkFrom [] a.conversation_history_ = true →
        transcriptOkFrom []
          (Agent.process_loop dump backend n iteration a response b w).agent.conversation_history_
            = true) := by
  induction n generalizing iteration a response b w with
  | zero => exact ⟨List.prefix_refl _, id⟩
  | succ n ih =>
    simp only [Agent.process_loop]
    rcases hb : backend a.conversation_history_ a.get_function_schemas b with ⟨out, b'⟩
    cases out with
    | error e => exact ⟨List.prefix_refl _, id⟩
    | ok chat_result =>
      simp only
      by_cases hempty : chat_result.tool_calls.isEmpty = true
      · simp only [hempty, if_true]
        refine ⟨List.prefix_append _ _, fun hok => ?_⟩
        rw [transcriptOkFrom_app, hok]
        rfl
      · simp only [hempty, Bool.false_eq_true, if_false]
        obtain ⟨tail, h1, h2, -, -⟩ := run_tool_calls_spec dump chat_result.tool_calls
          { a with conversation_history_ := a.conversation_history_ ++
            [{ role := ChatRole.Assistant, content := chat_result.content,
               tool_calls := chat_result.tool_calls }] }
          { response with iterations := iteration + 1 } w
        obtain ⟨ih1, ih2⟩ := ih (iteration + 1)
          (Agent.run_tool_calls dump chat_result.tool_calls
            { a with conversation_history_ := a.conversation_history_ ++
              [{ role := ChatRole.Assistant, content := chat_result.content,
                 tool_calls := chat_result.tool_calls }] }
            { response with iterations := iteration + 1 } w).1
          (Agent.run_tool_calls dump chat_result.tool_calls
            { a with conversation_history_ := a.conversation_history_ ++
              [{ role := ChatRole.Assistant, content := chat_result.content,
                 tool_calls := chat_result.tool_calls }] }
            { response with iterations := iteration + 1 } w).2.1
          b'
          (Agent.run_tool_calls dump chat_result.tool_calls
            { a with conversation_history_ := a.conversation_history_ ++
              [{ role := ChatRole.Assistant, content := chat_result.content,
                 tool_calls := chat_result.tool_calls }] }
            { response with iterations := iteration + 1 } w).2.2
        rw [h1] at ih1 ih2
        refine ⟨List.IsPrefix.trans (prefix_append_append _ _ _) ih1, fun hok => ih2 ?_⟩
        rw [transcriptOkFrom_app, transcriptOkFrom_app, hok]
        simp only [Bool.true_and, List.nil_append, Bool.and_eq_true]
        refine ⟨rfl, ?_⟩
        apply transcriptOkFrom_tools _ tail (chat_result.tool_calls.map (fun tc => tc.id))
        · rw [h2, List.map_map]
          rfl
        · intro i hi
          obtain ⟨tc, htc, rfl⟩ := List.mem_map.1 hi
          rw [requestsLinked_iff]
          exact ⟨_, List.mem_append_right _ (List.mem_singleton_self _), rfl, tc, htc, rfl⟩

/-- The executable check decides the transcript invariant. -/
theorem transcriptOk_iff (history : List ChatMessage) :
    transcriptOkFrom [] history = true ↔ TranscriptInvariant history := by
  rw [transcriptOkFrom_iff]
  simp [TranscriptInvariant]

/-- The loop of `clear_conversation` appends the system messages, in order, to what it has
collected. -/
theorem clear_loop_eq_filter (history acc : List ChatMessage) :
    history.foldl
        (fun system_messages msg =>
          if msg.role = ChatRole.System then system_messages ++ [msg] else system_messages)
        acc =
      acc ++ history.filter (fun msg => msg.role = ChatRole.System) := by
  induction history generalizing acc with
  | nil => simp
  | cons m rest ih =>
    rw [List.foldl_cons, ih]
    by_cases h : m.role = ChatRole.System
    · simp [h, List.filter_cons]
    · simp [h, List.filter_cons]

/-- The history after `clear_conversation` is the list of the system messages of the
history before it. -/
theorem clear_conversation_history (a : Agent ω) :
    a.clear_conversation.conversation_history_ =
      a.conversation_history_.filter (fun msg => msg.role = ChatRole.System) := by
  simp [Agent.clear_conversation, clear_loop_eq_filter]

/-- A list without tool messages satisfies the check. -/
theorem transcriptOkFrom_no_tools (e r : List ChatMessage)
    (h : ∀ m ∈ r, m.role ≠ ChatRole.Tool) : transcriptOkFrom e r = true := by
  induction r generalizing e with
  | nil => rfl
  | cons x rest ih =>
    simp only [transcriptOkFrom, Bool.and_eq_true, Bool.or_eq_true, bne_iff_ne, ne_eq]
    exact ⟨Or.inl (h x (List.mem_cons_self _ _)),
      ih _ (fun m hm => h m (List.mem_cons_of_mem _ hm))⟩

/-- Recording the answers does not change what the loop does: result, agent, world and
the state of the wrapped backend are those of the run against the backend itself. -/
theorem process_loop_recording (dump : Json → String) (backend : Backend σ) (n : Nat)
    (iteration : Int) (a : Agent ω) (response : AgentResponse) (b : σ)
    (log : List (Except LlmError ChatMessage)) (w : ω) :
    (Agent.process_loop dump (recording backend) n iteration a response (b, log) w).result =
        (Agent.process_loop dump backend n iteration a response b w).result ∧
      (Agent.process_loop dump (recording backend) n iteration a response (b, log) w).agent =
        (Agent.process_loop dump backend n iteration a response b w).agent ∧
      (Agent.process_loop dump (recording backend) n iteration a response (b, log) w).world =
        (Agent.process_loop dump backend n iteration a response b w).world ∧
      (Agent.process_loop dump (recording backend) n iteration a response (b, log) w).backend.1 =
        (Agent.process_loop dump backend n iteration a response b w).backend := by
  induction n generalizing iteration a response b log w with
  | zero => exact ⟨rfl, rfl, rfl, rfl⟩
  | succ n ih =>
    simp only [Agent.process_loop, recording]
    rcases hb : backend a.conversation_history_ a.get_function_schemas b with ⟨out, b'⟩
    cases out with
    | error e => exact ⟨rfl, rfl, rfl, rfl⟩
    | ok chat_result =>
      simp only
      by_cases hempty : chat_result.tool_calls.isEmpty = true
      · simp [hempty]
      · simp only [hempty, Bool.false_eq_true, if_false]
        exact ih _ _ _ _ _ _

/-- Against a backend that requests at least one tool call in every round, the loop runs
all its turns: it ends with the limit response after exactly as many backend calls as turns
were allowed. -/
theorem process_loop_always_tools (dump : Json → String) (backend : Backend σ)
    (hb : ∀ history functions st, ∃ m,
      (backend history functions st).1 = .ok m ∧ m.tool_calls ≠ [])
    (n : Nat) (iteration : Int) (a : Agent ω) (response : AgentResponse) (b : σ)
    (log : List (Except LlmError ChatMessage)) (w : ω) :
    (∃ r, (Agent.process_loop dump (recording backend) n iteration a response (b, log) w).result
          = .ok r ∧
        r.stopped_by_limit = true ∧
        r.content = "Maximum tool iterations reached. Please simplify your request." ∧
        r.iterations = if n = 0 then response.iterations else iteration + n) ∧
      (Agent.process_loop dump (recording backend) n iteration a response (b, log)
        w).backend.2.length = log.length + n := by
  induction n generalizing iteration a response b log w with
  | zero => exact ⟨⟨_, rfl, rfl, rfl, rfl⟩, rfl⟩
  | succ n ih =>
    obtain ⟨m, hm, hne⟩ := hb a.conversation_history_ a.get_function_schemas b
    have hempty : m.tool_calls.isEmpty = false := by
      cases hc : m.tool_calls with
      | nil => exact absurd hc hne
      | cons x xs => rfl
    simp only [Agent.process_loop, recording, hm, hempty, Bool.false_eq_true, if_false]
    obtain ⟨_, h4⟩ := run_tool_calls_spec dump m.tool_calls
      { a with conversation_history_ := a.conversation_history_ ++
        [{ role := ChatRole.Assistant, content := m.content, tool_calls := m.tool_calls }] }
      { response with iterations := iteration + 1 } w
    obtain ⟨⟨r, hr, hs, hc, hi⟩, hlen⟩ := ih (iteration + 1)
      (Agent.run_tool_calls dump m.tool_calls
        { a with conversation_history_ := a.conversation_history_ ++
          [{ role := ChatRole.Assistant, content := m.content, tool_calls := m.tool_calls }] }
        { response with iterations := iteration + 1 } w).1
      (Agent.run_tool_calls dump m.tool_calls
        { a with conversation_history_ := a.conversation_history_ ++
          [{ role := ChatRole.Assistant, content := m.content, tool_calls := m.tool_calls }] }
        { response with iterations := iteration + 1 } w).2.1
      (backend a.conversation_history_ a.get_function_schemas b).2
      (log ++ [Except.ok m])
      (Agent.run_tool_calls dump m.tool_calls
        { a with conversation_history_ := a.conversation_history_ ++
          [{ role := ChatRole.Assistant, content := m.content, tool_calls := m.tool_calls }] }
        { response with iterations := iteration + 1 } w).2.2
    refine ⟨⟨r, hr, hs, hc, ?_⟩, ?_⟩
    · rw [hi, h4.2.2.2]
      simp only [Nat.succ_ne_zero, if_false]
      split
      · next h0 => subst h0; simp
      · push_cast; ring
    · rw [hlen]
      simp only [List.length_append, List.length_singleton]
      omega

theorem answersOf_cons_ok (m : ChatMessage) (log : List (Except LlmError ChatMessage)) :
    answersOf (Except.ok m :: log) = m :: answersOf log := by
  simp [answersOf, List.filterMap_cons]

/-- What the loop appends to the transcript and records as tool names is laid down by
the answers of the backend: per answer the assistant message with the requested calls,
followed by one tool message per call in request order, and the tool names in that same
order. -/
theorem process_loop_shape (dump : Json → String) (backend : Backend σ) (n : Nat)
    (iteration : Int) (a : Agent ω) (response : AgentResponse) (b : σ)
    (log : List (Except LlmError ChatMessage)) (w : ω) :
    ∃ tail newlog,
      (Agent.process_loop dump (recording backend) n iteration a response (b, log)
          w).agent.conversation_history_ = a.conversation_history_ ++ tail ∧
        (Agent.process_loop dump (recording backend) n iteration a response (b, log)
          w).backend.2 = log ++ newlog ∧
        tail.map messageShape = expectedShapes (answersOf newlog) ∧
        (∀ r, (Agent.process_loop dump (recording backend) n iteration a response (b, log)
            w).result = .ok r →
          r.tool_calls_made = response.tool_calls_made ++ requestedNames (answersOf newlog)) ∧
        (∀ e ∈ newlog, ∃ history functions st, e = (backend history functions st).1) := by
  induction n generalizing iteration a response b log w with
  | zero =>
    refine ⟨[], [], by simp [Agent.process_loop], by simp [Agent.process_loop], rfl, ?_, ?_⟩
    · intro r hr
      simp only [Agent.process_loop, Except.ok.injEq] at hr
      rw [← hr]
      simp [answersOf, requestedNames]
    · simp
  | succ n ih =>
    simp only [Agent.process_loop, recording]
    rcases hb : backend a.conversation_history_ a.get_function_schemas b with ⟨out, b'⟩
    have hout : out = (backend a.conversation_history_ a.get_function_schemas b).1 := by
      rw [hb]
    cases out with
    | error e =>
      refine ⟨[], [Except.error e], by simp, rfl, rfl, ?_, ?_⟩
      · intro r hr
        simp at hr
      · intro x hx
        rw [List.mem_singleton] at hx
        exact ⟨_, _, _, hx.trans hout⟩
    | ok m =>
      simp only
      by_cases hempty : m.tool_calls.isEmpty = true
      · have hnil : m.tool_calls = [] := List.isEmpty_iff.1 hempty
        simp only [hempty, if_true]
        refine ⟨[{ role := ChatRole.Assistant, content := m.content }], [Except.ok m],
          rfl, rfl, ?_, ?_, ?_⟩
        · simp [answersOf, expectedShapes, messageShape, hnil]
        · intro r hr
          simp only [Except.ok.injEq] at hr
          rw [← hr]
          simp [answersOf, requestedNames, hnil]
        · intro x hx
          rw [List.mem_singleton] at hx
          exact ⟨_, _, _, hx.trans hout⟩
      · simp only [hempty, Bool.false_eq_true, if_false]
        obtain ⟨tail1, h1, h2, -, h4⟩ := run_tool_calls_spec dump m.tool_calls
          { a with conversation_history_ := a.conversation_history_ ++
            [{ role := ChatRole.Assistant, content := m.content,
               tool_calls := m.tool_calls }] }
          { response with iterations := iteration + 1 } w
        obtain ⟨tail2, newlog2, g1, g2, g3, g4, g5⟩ := ih (iteration + 1)
          (Agent.run_tool_calls dump m.tool_calls
            { a with conversation_history_ := a.conversation_history_ ++
              [{ role := ChatRole.Assistant, content := m.content,
                 tool_calls := m.tool_calls }] }
            { response with iterations := iteration + 1 } w).1
          (Agent.run_tool_calls dump m.tool_calls
            { a with conversation_history_ := a.conversation_history_ ++
              [{ role := ChatRole.Assistant, content := m.content,
                 tool_calls := m.tool_calls }] }
            { response with iterations := iteration + 1 } w).2.1
          b' (log ++ [Except.ok m])
          (Agent.run_tool_calls dump m.tool_calls
            { a with conversation_history_ := a.conversation_history_ ++
              [{ role := ChatRole.Assistant, content := m.content,
                 tool_calls := m.tool_calls }] }
            { response with iterations := iteration + 1 } w).2.2
        refine ⟨{ role := ChatRole.Assistant, content := m.content,
                  tool_calls := m.tool_calls } :: (tail1 ++ tail2),
          Except.ok m :: newlog2, ?_, ?_, ?_, ?_, ?_⟩
        · rw [g1, h1]
          simp only [List.append_assoc, List.singleton_append, List.cons_append,
            List.nil_append]
        · rw [g2]
          simp only [List.append_assoc, List.singleton_append]
        · rw [answersOf_cons_ok]
          simp only [expectedShapes, List.flatMap_cons, List.map_cons, List.map_append,
            List.cons_append, messageShape] at g3 ⊢
          rw [g3, h2]
        · intro r hr
          rw [g4 r hr, h4, answersOf_cons_ok]
          simp only [requestedNames, List.flatMap_cons, List.append_assoc]
        · intro x hx
          rcases List.mem_cons.1 hx with e | e
          · exact ⟨_, _, _, e.trans hout⟩
          · exact g5 x e

/-- When every recorded outcome is an answer with exactly one tool call, the answers
request as many tool names as there are outcomes. -/
theorem requestedNames_length_single (log : List (Except LlmError ChatMessage))
    (h : ∀ e ∈ log, ∃ m, e = Except.ok m ∧ m.tool_calls.length = 1) :
    (requestedNames (answersOf log)).length = log.length := by
  induction log with
  | nil => rfl
  | cons e rest ih =>
    obtain ⟨m, rfl, hm⟩ := h e (List.mem_cons_self _ _)
    rw [answersOf_cons_ok]
    have := ih (fun x hx => h x (List.mem_cons_of_mem _ hx))
    simp only [requestedNames, List.flatMap_cons, List.length_append, List.length_map,
      List.length_cons] at this ⊢
    omega

/-! ### The claims about the agent loop -/

/-- C7: for every limit `max_tool_iterations = N` with N at least 1 and every backend that
answers each round with at least one tool call, `Agent::process` returns a successful
response with `stopped_by_limit = true` and `iterations = N`, and the backend has been
called exactly N times: the list of answers recorded during the run has length N (and
recording does not change the result). -/
theorem C7_limit_after_N_rounds (dump : Json → String) (backend : Backend σ) (a : Agent ω)
    (user_message : String) (b : σ) (w : ω) (N : Nat) (hN : 1 ≤ N)
    (hcfg : a.config_.max_tool_iterations = (N : Int))
    (hb : ∀ history functions st, ∃ m,
      (backend history functions st).1 = .ok m ∧ m.tool_calls ≠ []) :
    (∃ r, (a.process dump backend user_message b w).result = .ok r ∧
        r.stopped_by_limit = true ∧ r.iterations = (N : Int)) ∧
      (a.process dump (recording backend) user_message (b, []) w).backend.2.length = N ∧
      (a.process dump (recording backend) user_message (b, []) w).result =
        (a.process dump backend user_message b w).result := by
  have hn : a.config_.max_tool_iterations.toNat = N := by rw [hcfg]; rfl
  obtain ⟨⟨r, hr, hs, -, hi⟩, hlen⟩ := process_loop_always_tools dump backend hb N 0
    { a with conversation_history_ := a.conversation_history_ ++
      [{ role := ChatRole.User, content := user_message }] } {} b [] w
  have hrec := process_loop_recording dump backend N 0
    { a with conversation_history_ := a.conversation_history_ ++
      [{ role := ChatRole.User, content := user_message }] } {} b [] w
  simp only [Agent.process, hn]
  refine ⟨⟨r, ?_, hs, ?_⟩, ?_, hrec.1⟩
  · rw [← hrec.1]; exact hr
  · rw [hi]
    have : N ≠ 0 := by omega
    simp [this]
  · simpa using hlen

/-- C7 witness: limit 2 and the backend that requests two tools in every round. -/
theorem C7_limit_after_N_rounds_witness :
    (∃ r, ((demoAgent 2).process demoDump eagerBackend "hello" 0 0).result = .ok r ∧
        r.stopped_by_limit = true ∧ r.iterations = ((2 : Nat) : Int)) ∧
      ((demoAgent 2).process demoDump (recording eagerBackend) "hello" (0, []) 0).backend.2.length
        = 2 ∧
      ((demoAgent 2).process demoDump (recording eagerBackend) "hello" (0, []) 0).result =
        ((demoAgent 2).process demoDump eagerBackend "hello" 0 0).result :=
  C7_limit_after_N_rounds demoDump eagerBackend (demoAgent 2) "hello" 0 0 2 (by decide)
    (by decide) (fun _ _ _ => ⟨_, rfl, by decide⟩)

/-- C8: if the conversation history satisfies the transcript invariant (every tool message
has the identifier of a tool call carried by an assistant message in front of it), then so
does the history after `Agent::process`, whatever the backend answers and whatever the
tools do (final answer, limit stop or backend error), the history after
`clear_conversation`, and the history after `add_system_instruction`. -/
theorem C8_transcript_invariant (dump : Json → String) (backend : Backend σ) (a : Agent ω)
    (user_message instruction : String) (b : σ) (w : ω)
    (h : TranscriptInvariant a.conversation_history_) :
    TranscriptInvariant (a.process dump backend user_message b w).agent.conversation_history_ ∧
      TranscriptInvariant a.clear_conversation.conversation_history_ ∧
      TranscriptInvariant (a.add_system_instruction instruction).conversation_history_ := by
  rw [← transcriptOk_iff] at h
  refine ⟨?_, ?_, ?_⟩
  · rw [← transcriptOk_iff]
    apply (process_loop_transcript dump backend _ 0 _ _ b w).2
    simp only
    rw [transcriptOkFrom_app, h]
    rfl
  · rw [← transcriptOk_iff]
    apply transcriptOkFrom_no_tools
    intro m hm
    rw [clear_conversation_history] at hm
    simp only [List.mem_filter, decide_eq_true_eq] at hm
    rw [hm.2]
    decide
  · rw [← transcriptOk_iff]
    simp only [Agent.add_system_instruction]
    rw [transcriptOkFrom_app, h]
    rfl

/-- C8 witness: the demo agent, whose history is one system message, after a limit-stopped
run of two rounds against the backend that requests two tools per round. -/
theorem C8_transcript_invariant_witness :
    TranscriptInvariant
        ((demoAgent 2).process demoDump eagerBackend "hello" 0 0).agent.conversation_history_ ∧
      TranscriptInvariant (demoAgent 2).clear_conversation.conversation_history_ ∧
      TranscriptInvariant
        ((demoAgent 2).add_system_instruction "be kind").conversation_history_ :=
  C8_transcript_invariant demoDump eagerBackend (demoAgent 2) "hello" "be kind" 0 0
    ((transcriptOk_iff _).1 (by decide))

/-- C9: `Agent::process` only appends to the transcript.  On every outcome the history
before the call, followed by the user message, is a prefix of the history after the call;
nothing that was in the transcript, and no tool message appended during the run, is
removed. -/
theorem C9_process_appends (dump : Json → String) (backend : Backend σ) (a : Agent ω)
    (user_message : String) (b : σ) (w : ω) :
    a.conversation_history_ ++ [{ role := ChatRole.User, content := user_message }] <+:
        (a.process dump backend user_message b w).agent.conversation_history_ ∧
      a.conversation_history_ <+:
        (a.process dump backend user_message b w).agent.conversation_history_ := by
  have h := (process_loop_transcript dump backend a.config_.max_tool_iterations.toNat 0
    { a with conversation_history_ := a.conversation_history_ ++
      [{ role := ChatRole.User, content := user_message }] } {} b w).1
  exact ⟨h, List.IsPrefix.trans (List.prefix_append _ _) h⟩

/-- A protocol error survives its wire form, with the code reduced to the range of
`int`. -/
theorem error_round_trip (e : JsonRpcError) :
    JsonRpcError.from_json e.to_json =
      .ok { code := toInt32 e.code, message := e.message, data := e.data } := by
  obtain ⟨code, message, data⟩ := e
  cases data <;>
    simp +decide [JsonRpcError.from_json, JsonRpcError.to_json, Json.set, Json.at_, Json.get?,
      Json.contains, mapInsert, mapFind, Json.get_int, Json.get_string]

theorem parse_response_error (e : JsonRpcError) (i : JsonRpcId) :
    McpClient.parse_response (JsonRpcResponse.error_response e i).to_json =
      .error { code := toInt32 e.code, message := e.message, data := e.data } := by
  simp [McpClient.parse_response, error_response_error_member, error_round_trip]

/-- The parameters that `McpClient::call_tool` sends name the tool and carry the
arguments. -/
theorem call_tool_params (tool_name : String) (arguments : Json) :
    McpCallToolParams.from_json
        ((Json.null.set "name" (.str tool_name)).set "arguments" arguments) =
      .ok { name := tool_name, arguments := arguments } := by
  simp +decide [McpCallToolParams.from_json, Json.set, Json.at_, Json.value, mapInsert,
    mapFind, Json.get_string]

/-- When the dispatcher answers a tools/call with an error, `McpClient::call_tool` returns
that error (its code reduced to the range of `int`) and uses up one request id. -/
theorem call_tool_of_error (c : McpClient) (s : McpServer ω) (tool_name : String)
    (arguments : Json) (w w' : ω) (e : JsonRpcError)
    (h : s.handle_call_tool
        (some ((Json.null.set "name" (.str tool_name)).set "arguments" arguments)) w
          = (.error e, w')) :
    c.call_tool s tool_name arguments w =
      (.error { code := toInt32 e.code, message := e.message, data := e.data },
       { next_id_ := c.next_id_ + 1 }, s, w') := by
  simp +decide [McpClient.call_tool, McpClient.send_request, McpServer.handle_request,
    from_json_sent_request, McpServer.dispatch, h, parse_response_error]

/-- The loop of `process` ends in an error only when the backend has answered with an
error. -/
theorem process_loop_error (dump : Json → String) (backend : Backend σ) (n : Nat)
    (iteration : Int) (a : Agent ω) (response : AgentResponse) (b : σ) (w : ω) (err : String)
    (h : (Agent.process_loop dump backend n iteration a response b w).result = .error err) :
    ∃ history functions st e,
      (backend history functions st).1 = .error e ∧ err = "LLM error: " ++ e.message := by
  induction n generalizing iteration a response b w with
  | zero => simp [Agent.process_loop] at h
  | succ n ih =>
    simp only [Agent.process_loop] at h
    rcases hb : backend a.conversation_history_ a.get_function_schemas b with ⟨out, b'⟩
    rw [hb] at h
    cases out with
    | error e =>
      simp only [Except.error.injEq] at h
      exact ⟨_, _, _, e, by rw [hb], h.symm⟩
    | ok m =>
      simp only at h
      by_cases hempty : m.tool_calls.isEmpty = true
      · simp [hempty] at h
      · simp only [hempty, Bool.false_eq_true, if_false] at h
        exact ih _ _ _ _ _ h

/-- C12: `Agent::clear_conversation` replaces the history by the list of its messages whose
role is system, in their original order: the new history is a sublist of the old one, a
message is in it exactly when it was in the old history with the role system, every system
message occurs in it as often as before, nothing else of the agent changes, and applying
it twice equals applying it once. -/
theorem C12_clear_conversation (a : Agent ω) :
    a.clear_conversation.conversation_history_ =
        a.conversation_history_.filter (fun msg => msg.role = ChatRole.System) ∧
      List.Sublist a.clear_conversation.conversation_history_ a.conversation_history_ ∧
      (∀ m, m ∈ a.clear_conversation.conversation_history_ ↔
        m ∈ a.conversation_history_ ∧ m.role = ChatRole.System) ∧
      (∀ m, m.role = ChatRole.System →
        a.clear_conversation.conversation_history_.count m = a.conversation_history_.count m) ∧
      a.clear_conversation.config_ = a.config_ ∧
      a.clear_conversation.mcp_client_ = a.mcp_client_ ∧
      a.clear_conversation.clear_conversation.conversation_history_ =
        a.clear_conversation.conversation_history_ := by
  have h := clear_conversation_history a
  refine ⟨h, ?_, ?_, ?_, rfl, rfl, ?_⟩
  · rw [h]
    exact List.filter_sublist _
  · intro m
    rw [h]
    simp [List.mem_filter]
  · intro m hm
    rw [h, List.count_filter]
    simpa using hm
  · rw [clear_conversation_history, h, List.filter_filter]
    simp

end AgentLoop

/-! ## Properties of the coordinator -/

section CoordinatorProps

variable {ω σ : Type}

theorem has_agent_iff (c : Coordinator) (name : String) :
    c.has_agent name = true ↔ name ∈ c.list_agents := by
  unfold Coordinator.has_agent Coordinator.list_agents
  rw [← not_iff_not, ← mapFind_eq_none_iff]
  cases mapFind c.agents_ name <;> simp

theorem record_request_agents (c : Coordinator) (request : UserRequest) (now : Nat) :
    (c.record_request request now).agents_ = c.agents_ ∧
      (c.record_request request now).agent_usage_ = c.agent_usage_ ∧
      (c.record_request request now).routing_strategy_ = c.routing_strategy_ ∧
      (c.record_request request now).round_robin_index_ = c.round_robin_index_ := by
  unfold Coordinator.record_request
  split
  · split <;> exact ⟨rfl, rfl, rfl, rfl⟩
  · exact ⟨rfl, rfl, rfl, rfl⟩

/-- Keyword routing fails exactly on an empty registry, and a name it returns is
registered. -/
theorem route_by_keywords_spec (c : Coordinator) (message : String) :
    (c.route_by_keywords message = .error "No agents available" ∧ c.agents_ = []) ∨
      (∃ name, c.route_by_keywords message = .ok name ∧ c.has_agent name = true) := by
  unfold Coordinator.route_by_keywords
  simp only
  split
  next h =>
    simp only [Bool.and_eq_true] at h
    exact Or.inr ⟨_, rfl, h.2⟩
  split
  next h =>
    simp only [Bool.and_eq_true] at h
    exact Or.inr ⟨_, rfl, h.2⟩
  split
  next h =>
    simp only [Bool.and_eq_true] at h
    exact Or.inr ⟨_, rfl, h.2⟩
  split
  next h =>
    simp only [Bool.and_eq_true] at h
    exact Or.inr ⟨_, rfl, h.2⟩
  split
  next h =>
    simp only [Bool.and_eq_true] at h
    exact Or.inr ⟨_, rfl, h.2⟩
  split
  next h =>
    simp only [Bool.and_eq_true] at h
    exact Or.inr ⟨_, rfl, h.2⟩
  cases hc : c.agents_ with
  | nil => exact Or.inl ⟨rfl, rfl⟩
  | cons first rest =>
    refine Or.inr ⟨first.1, rfl, ?_⟩
    obtain ⟨k, v⟩ := first
    simp [Coordinator.has_agent, hc, mapFind]

theorem key_at_mem (m : List (String × AgentPtr)) (n : Nat) (h : n < m.length) :
    Coordinator.key_at m n ∈ mapKeys m := by
  induction m generalizing n with
  | nil => simp at h
  | cons hd tl ih =>
    cases n with
    | zero => simp [Coordinator.key_at, mapKeys]
    | succ k =>
      have hk : k < tl.length := by simpa using h
      have := ih k hk
      simp only [Coordinator.key_at, List.drop_succ_cons, mapKeys, List.map_cons,
        List.mem_cons] at this ⊢
      exact Or.inr this

/-- Round-robin routing fails exactly on an empty registry, returns a registered name
otherwise, and changes nothing but the index. -/
theorem route_round_robin_spec (c : Coordinator) :
    ((c.route_round_robin.1 = .error "No agents available" ∧ c.agents_ = []) ∨
        (∃ name, c.route_round_robin.1 = .ok name ∧ c.has_agent name = true)) ∧
      c.route_round_robin.2.agents_ = c.agents_ ∧
      c.route_round_robin.2.agent_usage_ = c.agent_usage_ := by
  unfold Coordinator.route_round_robin
  split
  next hc => exact ⟨Or.inl ⟨rfl, hc⟩, rfl, rfl⟩
  next first rest hc =>
    refine ⟨Or.inr ⟨_, rfl, ?_⟩, rfl, rfl⟩
    rw [has_agent_iff]
    unfold Coordinator.list_agents
    apply key_at_mem
    apply Nat.mod_lt
    rw [hc]
    simp

/-- Intent routing fails exactly on an empty registry, and a name it returns is
registered, whatever the backend answers. -/
theorem route_by_intent_spec (sv : Services σ) (c : Coordinator) (message : String) (b : σ) :
    ((Coordinator.route_by_intent sv c message b).1 = .error "No agents available" ∧
        c.agents_ = []) ∨
      (∃ name, (Coordinator.route_by_intent sv c message b).1 = .ok name ∧
        c.has_agent name = true) := by
  unfold Coordinator.route_by_intent
  rcases sv.completion (Coordinator.routing_prompt c message) b with ⟨out, b'⟩
  cases out with
  | error e => exact route_by_keywords_spec c message
  | ok choices =>
    cases choices with
    | nil => exact route_by_keywords_spec c message
    | cons text rest =>
      simp only
      split
      next h => exact Or.inr ⟨_, rfl, h⟩
      next h => exact route_by_keywords_spec c message

/-- Routing fails exactly on an empty registry, returns a registered name otherwise, and
leaves the registry and the usage counters as they were. -/
theorem route_request_spec (sv : Services σ) (c : Coordinator) (request : UserRequest)
    (b : σ) :
    (((Coordinator.route_request sv c request b).1 = .error "No agents available" ∧
        c.agents_ = []) ∨
        (∃ name, (Coordinator.route_request sv c request b).1 = .ok name ∧
          c.has_agent name = true)) ∧
      (Coordinator.route_request sv c request b).2.1.agents_ = c.agents_ ∧
      (Coordinator.route_request sv c request b).2.1.agent_usage_ = c.agent_usage_ := by
  unfold Coordinator.route_request
  split
  next preferred hp =>
    refine ⟨Or.inr ⟨preferred, rfl, ?_⟩, rfl, rfl⟩
    split at hp
    · split at hp
      · next h =>
        simp only [Option.some.injEq] at hp
        rw [← hp]
        exact h
      · cases hp
    · cases hp
  next =>
    split
    · exact ⟨route_by_intent_spec sv c request.message b, rfl, rfl⟩
    · exact ⟨route_by_keywords_spec c request.message, rfl, rfl⟩
    · exact route_round_robin_spec c
    · exact ⟨route_by_keywords_spec c request.message, rfl, rfl⟩

/-- A registered preferred agent is the result of routing, under every strategy, and
routing then changes neither the coordinator nor the backend. -/
theorem route_request_preferred (sv : Services σ) (c : Coordinator) (request : UserRequest)
    (b : σ) (X : String) (hp : request.preferred_agent = some X)
    (hreg : c.has_agent X = true) :
    Coordinator.route_request sv c request b = (.ok X, c, b) := by
  simp [Coordinator.route_request, hp, hreg]

/-- What `handle_request` does once routing has chosen a name. -/
theorem handle_request_routed (sv : Services σ) (sys : System ω σ) (request : UserRequest)
    (now : Nat) (name : String) (c' : Coordinator) (b' : σ)
    (hr : Coordinator.route_request sv (sys.coordinator.record_request request now) request
      sys.backend = (.ok name, c', b')) :
    (c'.get_agent name = none →
        Coordinator.handle_request sv sys request now =
          (.error ("Agent not found: " ++ name),
           { sys with coordinator := c', backend := b' })) ∧
      (∀ agent, c'.get_agent name = some agent →
        (∀ e, ((sys.store agent).process sv.dump (sv.agent_backend agent) request.message b'
              sys.world).result = .error e →
          Coordinator.handle_request sv sys request now =
            (.error ("Agent processing failed: " ++ e),
             { coordinator := c'
               store := Function.update sys.store agent
                 ((sys.store agent).process sv.dump (sv.agent_backend agent) request.message
                   b' sys.world).agent
               backend := ((sys.store agent).process sv.dump (sv.agent_backend agent)
                 request.message b' sys.world).backend
               world := ((sys.store agent).process sv.dump (sv.agent_backend agent)
                 request.message b' sys.world).world })) ∧
        (∀ r, ((sys.store agent).process sv.dump (sv.agent_backend agent) request.message b'
              sys.world).result = .ok r →
          ∃ resp, Coordinator.handle_request sv sys request now =
            (.ok resp,
             { coordinator := c'.count_usage name
               store := Function.update sys.store agent
                 ((sys.store agent).process sv.dump (sv.agent_backend agent) request.message
                   b' sys.world).agent
               backend := ((sys.store agent).process sv.dump (sv.agent_backend agent)
                 request.message b' sys.world).backend
               world := ((sys.store agent).process sv.dump (sv.agent_backend agent)
                 request.message b' sys.world).world }) ∧
            resp.agent_name = name ∧ resp.response = r.content ∧
            resp.tool_results = r.tool_calls_made ∧ resp.agents_used = 1)) := by
  refine ⟨?_, ?_⟩
  · intro hnone
    simp only [Coordinator.handle_request, hr, hnone]
  · intro agent hag
    refine ⟨?_, ?_⟩
    · intro e he
      simp only [Coordinator.handle_request, hr, hag, he]
    · intro r hok
      refine ⟨{ agent_name := name
                response := r.content
                tool_results := r.tool_calls_made
                requires_followup := r.stopped_by_limit
                agents_used := 1
                next_agent_suggestion :=
                  if r.stopped_by_limit || Coordinator.should_suggest_followup request.message
                  then Coordinator.suggest_next_agent name request.message
                  else none }, ?_, rfl, rfl, rfl, rfl⟩
      simp only [Coordinator.handle_request, hr, hag, hok]

theorem get_agent_congr (c1 c2 : Coordinator) (h : c1.agents_ = c2.agents_)
    (name : String) :
    c1.get_agent name = c2.get_agent name ∧ c1.has_agent name = c2.has_agent name := by
  simp [Coordinator.get_agent, Coordinator.has_agent, h]

theorem failed_ne_not_found (e name : String) :
    "Agent processing failed: " ++ e ≠ "Agent not found: " ++ name := by
  intro h
  have h2 := congrArg (fun t => t.data.take 7) h
  simp only [String.data_append] at h2
  simp at h2

/-- C13: when a request names a registered agent X as its preferred agent, routing returns
X under every configured strategy and for every message, without consulting the backend
and without advancing the round-robin index.  `handle_request` then works with X: a
response it returns carries the agent name X and the content of the response of the agent
registered under X; it fails only when the pointer registered under X is null or when the
`process` call of that agent fails. -/
theorem C13_preferred_agent_wins (sv : Services σ) (sys : System ω σ)
    (request : UserRequest) (now : Nat) (X : String)
    (hp : request.preferred_agent = some X) (hreg : X ∈ sys.coordinator.list_agents) :
    Coordinator.route_request sv sys.coordinator request sys.backend =
        (.ok X, sys.coordinator, sys.backend) ∧
      (∀ resp, (Coordinator.handle_request sv sys request now).1 = .ok resp →
        resp.agent_name = X) ∧
      (sys.coordinator.get_agent X = none →
        (Coordinator.handle_request sv sys request now).1 =
          .error ("Agent not found: " ++ X)) ∧
      (∀ agent, sys.coordinator.get_agent X = some agent →
        (∀ e, ((sys.store agent).process sv.dump (sv.agent_backend agent) request.message
              sys.backend sys.world).result = .error e →
          (Coordinator.handle_request sv sys request now).1 =
            .error ("Agent processing failed: " ++ e)) ∧
        (∀ r, ((sys.store agent).process sv.dump (sv.agent_backend agent) request.message
              sys.backend sys.world).result = .ok r →
          ∃ resp, (Coordinator.handle_request sv sys request now).1 = .ok resp ∧
            resp.agent_name = X ∧ resp.response = r.content)) := by
  have hrec := record_request_agents sys.coordinator request now
  have hcong := get_agent_congr (sys.coordinator.record_request request now) sys.coordinator
    hrec.1 X
  have hhas : (sys.coordinator.record_request request now).has_agent X = true := by
    rw [hcong.2, has_agent_iff]
    exact hreg
  have hroute := route_request_preferred sv (sys.coordinator.record_request request now)
    request sys.backend X hp hhas
  obtain ⟨hnull, hagent⟩ := handle_request_routed sv sys request now X _ _ hroute
  rw [hcong.1] at hnull hagent
  refine ⟨route_request_preferred sv sys.coordinator request sys.backend X hp
    ((has_agent_iff _ _).2 hreg), ?_, ?_, ?_⟩
  · intro resp hresp
    cases hg : sys.coordinator.get_agent X with
    | none =>
      rw [hnull hg] at hresp
      cases hresp
    | some agent =>
      cases hpr : ((sys.store agent).process sv.dump (sv.agent_backend agent) request.message
          sys.backend sys.world).result with
      | error e =>
        rw [(hagent agent hg).1 e hpr] at hresp
        cases hresp
      | ok r =>
        obtain ⟨resp', heq, hname, -⟩ := (hagent agent hg).2 r hpr
        rw [heq] at hresp
        simp only [Except.ok.injEq] at hresp
        rw [← hresp]
        exact hname
  · intro hg
    rw [hnull hg]
  · intro agent hg
    refine ⟨?_, ?_⟩
    · intro e he
      rw [(hagent agent hg).1 e he]
    · intro r hr
      obtain ⟨resp, heq, hname, hcontent, -⟩ := (hagent agent hg).2 r hr
      exact ⟨resp, by rw [heq], hname, hcontent⟩

/-- C13 witness: the agent Docs is preferred for a message about code, under the keyword
strategy. -/
theorem C13_preferred_agent_wins_witness :
    Coordinator.route_request demoServices (demoSystem codeDocsCoordinator).coordinator
        { message := "please review this code", preferred_agent := some "Docs" }
        (demoSystem codeDocsCoordinator).backend =
      (.ok "Docs", (demoSystem codeDocsCoordinator).coordinator,
        (demoSystem codeDocsCoordinator).backend) :=
  (C13_preferred_agent_wins demoServices (demoSystem codeDocsCoordinator)
    { message := "please review this code", preferred_agent := some "Docs" } 0 "Docs" rfl
    (by decide)).1

/-- C14 (as stated, refuted): with exactly the agents Code and Docs registered and the
keyword strategy, the message "write docs for this" is routed to Code, not to Docs.  The
documentation keywords select the agent named DocumentationAgent only; it is not
registered, so the message falls through to the first registered name. -/
theorem C14_docs_message_counterexample :
    codeDocsCoordinator.list_agents = ["Code", "Docs"] ∧
      codeDocsCoordinator.routing_strategy_ = .KeywordBased ∧
      (Coordinator.route_request demoServices codeDocsCoordinator
        { message := "write docs for this" } 0).1 = .ok "Code" ∧
      (Coordinator.route_request demoServices codeDocsCoordinator
        { message := "write docs for this" } 0).1 ≠ .ok "Docs" := by
  decide

/-- C14 (amended): under the keyword strategy and without a preferred agent, a coordinator
in which exactly Code and Docs are registered routes both "please review this code" and
"write docs for this" to Code, the first registered name, because the keyword categories
select only the agents named CodeAssistant, DevOpsAgent, DocumentationAgent, TestingAgent,
DataAnalystAgent and SecurityAgent; a coordinator in which exactly CodeAssistant and
DocumentationAgent are registered routes "please review this code" to CodeAssistant and
"write docs for this" to DocumentationAgent. -/
theorem C14_keyword_routing_example (sv : Services σ) (c : Coordinator) (b : σ)
    (hs : c.routing_strategy_ = .KeywordBased) :
    (c.list_agents = ["Code", "Docs"] →
        (Coordinator.route_request sv c { message := "please review this code" } b).1
          = .ok "Code" ∧
        (Coordinator.route_request sv c { message := "write docs for this" } b).1
          = .ok "Code") ∧
      (c.list_agents = ["CodeAssistant", "DocumentationAgent"] →
        (Coordinator.route_request sv c { message := "please review this code" } b).1
          = .ok "CodeAssistant" ∧
        (Coordinator.route_request sv c { message := "write docs for this" } b).1
          = .ok "DocumentationAgent") := by
  have hshape : ∀ k1 k2 : String, c.list_agents = [k1, k2] →
      ∃ p1 p2, c.agents_ = [(k1, p1), (k2, p2)] := by
    intro k1 k2 h
    unfold Coordinator.list_agents mapKeys at h
    match hc : c.agents_, h with
    | [(a1, p1), (a2, p2)], h =>
      simp only [List.map_cons, List.map_nil, List.cons.injEq, and_true] at h
      exact ⟨p1, p2, by rw [h.1, h.2]⟩
  constructor
  · intro h
    obtain ⟨p1, p2, hc⟩ := hshape _ _ h
    simp only [Coordinator.route_request, hs, Coordinator.route_by_keywords,
      Coordinator.has_agent, hc]
    exact ⟨rfl, rfl⟩
  · intro h
    obtain ⟨p1, p2, hc⟩ := hshape _ _ h
    simp only [Coordinator.route_request, hs, Coordinator.route_by_keywords,
      Coordinator.has_agent, hc]
    exact ⟨rfl, rfl⟩

/-- C14 witness: the coordinator with CodeAssistant and DocumentationAgent. -/
theorem C14_keyword_routing_example_witness :
    (Coordinator.route_request demoServices defaultNamesCoordinator
        { message := "please review this code" } 0).1 = .ok "CodeAssistant" ∧
      (Coordinator.route_request demoServices defaultNamesCoordinator
        { message := "write docs for this" } 0).1 = .ok "DocumentationAgent" :=
  (C14_keyword_routing_example demoServices defaultNamesCoordinator 0 rfl).2 (by decide)

/-- C15 (as stated, refuted): `register_agent` accepts a null pointer.  With the name
ghost registered that way, routing succeeds with the registered name ghost, and
`handle_request` takes its branch for a missing agent: it fails with
"Agent not found: ghost". -/
theorem C15_null_agent_counterexample :
    "ghost" ∈ ghostCoordinator.list_agents ∧
      (Coordinator.route_request demoServices ghostCoordinator { message := "hello" } 0).1
        = .ok "ghost" ∧
      (Coordinator.handle_request demoServices (demoSystem ghostCoordinator)
        { message := "hello" } 0).1 = .error "Agent not found: ghost" := by
  decide

/-- C15 (amended): `Coordinator::route_request` returns an error if and only if no agent is
registered, for every strategy, message, preferred agent and backend answer; the error is
"No agents available", and whenever routing succeeds the returned name is a registered
name.  In `handle_request` the branch "Agent not found" is taken exactly when the pointer
registered under the routed name is null. -/
theorem C15_routing_fails_only_without_agents (sv : Services σ) (sys : System ω σ)
    (request : UserRequest) (now : Nat) :
    ((∃ e, (Coordinator.route_request sv sys.coordinator request sys.backend).1 = .error e) ↔
        sys.coordinator.agents_ = []) ∧
      (∀ e, (Coordinator.route_request sv sys.coordinator request sys.backend).1 = .error e →
        e = "No agents available") ∧
      (∀ name, (Coordinator.route_request sv sys.coordinator request sys.backend).1 = .ok name →
        name ∈ sys.coordinator.list_agents) ∧
      (∀ name,
        (Coordinator.route_request sv (sys.coordinator.record_request request now) request
          sys.backend).1 = .ok name →
        name ∈ sys.coordinator.list_agents ∧
        ((Coordinator.handle_request sv sys request now).1 =
            .error ("Agent not found: " ++ name) ↔
          sys.coordinator.get_agent name = none)) := by
  obtain ⟨hspec, -, -⟩ := route_request_spec sv sys.coordinator request sys.backend
  refine ⟨?_, ?_, ?_, ?_⟩
  · constructor
    · rintro ⟨e, he⟩
      rcases hspec with ⟨-, hnil⟩ | ⟨name, hname, -⟩
      · exact hnil
      · rw [hname] at he
        cases he
    · intro hnil
      rcases hspec with ⟨herr, -⟩ | ⟨name, -, hhas⟩
      · exact ⟨_, herr⟩
      · simp [Coordinator.has_agent, hnil, mapFind] at hhas
  · intro e he
    rcases hspec with ⟨herr, -⟩ | ⟨name, hname, -⟩
    · rw [herr] at he
      simp only [Except.error.injEq] at he
      exact he.symm
    · rw [hname] at he
      cases he
  · intro name hname
    rcases hspec with ⟨herr, -⟩ | ⟨name', hname', hhas⟩
    · rw [herr] at hname
      cases hname
    · rw [hname'] at hname
      simp only [Except.ok.injEq] at hname
      rw [← hname]
      exact (has_agent_iff _ _).1 hhas
  · intro name hname
    have hrec := record_request_agents sys.coordinator request now
    obtain ⟨hspec', hag, -⟩ := route_request_spec sv
      (sys.coordinator.record_request request now) request sys.backend
    rcases hr : Coordinator.route_request sv (sys.coordinator.record_request request now)
      request sys.backend with ⟨out, c', b'⟩
    rw [hr] at hname hag hspec'
    simp only at hname hag
    subst hname
    have hmem : name ∈ sys.coordinator.list_agents := by
      rcases hspec' with ⟨herr, -⟩ | ⟨name', hname', hhas⟩
      · cases herr
      · simp only [Except.ok.injEq] at hname'
        rw [← hname'] at hhas
        rw [(get_agent_congr _ _ hrec.1 name).2] at hhas
        exact (has_agent_iff _ _).1 hhas
    refine ⟨hmem, ?_⟩
    have hget : c'.get_agent name = sys.coordinator.get_agent name :=
      (get_agent_congr c' sys.coordinator (hag.trans hrec.1) name).1
    obtain ⟨hnull, hagent⟩ := handle_request_routed sv sys request now name c' b' hr
    rw [hget] at hnull hagent
    constructor
    · intro herr
      cases hg : sys.coordinator.get_agent name with
      | none => rfl
      | some agent =>
        exfalso
        cases hpr : ((sys.store agent).process sv.dump (sv.agent_backend agent)
            request.message b' sys.world).result with
        | error e =>
          rw [(hagent agent hg).1 e hpr] at herr
          simp only [Except.error.injEq] at herr
          exact failed_ne_not_found e name herr
        | ok r =>
          obtain ⟨resp, heq, -⟩ := (hagent agent hg).2 r hpr
          rw [heq] at herr
          cases herr
    · intro hg
      rw [hnull hg]

theorem count_usage_agents (c : Coordinator) (name : String) :
    (c.count_usage name).agents_ = c.agents_ := rfl

theorem agentPresent_congr (c1 c2 : Coordinator) (h : c1.agents_ = c2.agents_) :
    agentPresent c1 = agentPresent c2 := by
  funext name
  simp [agentPresent, (get_agent_congr c1 c2 h name).1]

/-- One turn of the loop of `collaborate` leaves the registry of agents as it was. -/
theorem collaborate_loop_agents (sv : Services σ) (task : String) (names : List String)
    (st : List String × List String × System ω σ) :
    (Coordinator.collaborate_loop sv task names st).2.2.coordinator.agents_ =
      st.2.2.coordinator.agents_ := by
  induction names generalizing st with
  | nil => rfl
  | cons name rest ih =>
    obtain ⟨rs, ts, sys⟩ := st
    simp only [Coordinator.collaborate_loop]
    split
    · exact ih _
    · split
      · exact (ih _).trans rfl
      · exact (ih _).trans rfl

/-- Names without an agent behind them can be dropped from the list of a collaboration:
the loop does the same with and without them. -/
theorem collaborate_loop_filter (sv : Services σ) (task : String) (names : List String)
    (st : List String × List String × System ω σ) :
    Coordinator.collaborate_loop sv task names st =
      Coordinator.collaborate_loop sv task
        (names.filter (agentPresent st.2.2.coordinator)) st := by
  induction names generalizing st with
  | nil => rfl
  | cons name rest ih =>
    obtain ⟨rs, ts, sys⟩ := st
    cases hg : sys.coordinator.get_agent name with
    | none =>
      have hp : agentPresent sys.coordinator name = false := by simp [agentPresent, hg]
      rw [List.filter_cons_of_neg (by simp [hp])]
      simp only [Coordinator.collaborate_loop, hg]
      exact ih _
    | some agent =>
      have hp : agentPresent sys.coordinator name = true := by simp [agentPresent, hg]
      rw [List.filter_cons_of_pos hp]
      simp only [Coordinator.collaborate_loop, hg]
      split
      · rw [ih]
        simp only
        rw [agentPresent_congr _ sys.coordinator (count_usage_agents _ _)]
      · rw [ih]

/-- The responses collected by the loop of `collaborate` are the contributions, each
written as the name, a colon and the content. -/
theorem collaborate_loop_responses (sv : Services σ) (task : String) (names : List String)
    (rs ts : List String) (sys : System ω σ) :
    (Coordinator.collaborate_loop sv task names (rs, ts, sys)).1 =
      rs ++ (contributions sv task names sys).map (fun p => p.1 ++ ": " ++ p.2) := by
  induction names generalizing rs ts sys with
  | nil => simp [Coordinator.collaborate_loop, contributions]
  | cons name rest ih =>
    simp only [Coordinator.collaborate_loop, contributions]
    cases hg : sys.coordinator.get_agent name with
    | none => exact ih _ _ _
    | some agent =>
      simp only
      cases hr : ((sys.store agent).process sv.dump (sv.agent_backend agent) task sys.backend
          sys.world).result with
      | error e => exact ih _ _ _
      | ok response =>
        simp only
        rw [ih]
        simp only [List.map_cons, List.append_assoc, List.singleton_append]

/-- The outcome of `collaborate` does not depend on names without an agent behind them,
except for the field `agents_used`. -/
theorem collaborate_filter (sv : Services σ) (sys : System ω σ) (task : String)
    (names : List String) :
    (Coordinator.collaborate sv sys task names).2 =
        (Coordinator.collaborate sv sys task
          (names.filter (agentPresent sys.coordinator))).2 ∧
      (Coordinator.collaborate sv sys task names).1 =
        ((Coordinator.collaborate sv sys task
          (names.filter (agentPresent sys.coordinator))).1).map
            (fun r => { r with agents_used := toInt32 names.length }) := by
  have h := collaborate_loop_filter sv task names (([] : List String), ([] : List String), sys)
  simp only [Coordinator.collaborate]
  simp only at h
  rw [← h]
  split
  · exact ⟨rfl, rfl⟩
  · exact ⟨rfl, rfl⟩

/-- C16: a collaboration over the names A and Z, with Z not registered and the `process`
call of the agent of A succeeding, returns a success value whose response text is the
contribution of A alone, A followed by a colon and the content; it is the text, and the
final state, of the collaboration over A alone.  In general names without an agent behind
them (not registered, or registered with a null pointer) are skipped without error: the
collaboration over a list of names has the result and the final state of the
collaboration over the list without those names, but for the field `agents_used`. -/
theorem C16_unregistered_names_are_skipped (sv : Services σ) (sys : System ω σ)
    (task : String) (names : List String) (A Z : String) :
    (Coordinator.collaborate sv sys task names).2 =
        (Coordinator.collaborate sv sys task
          (names.filter (agentPresent sys.coordinator))).2 ∧
      (Coordinator.collaborate sv sys task names).1 =
        ((Coordinator.collaborate sv sys task
          (names.filter (agentPresent sys.coordinator))).1).map
            (fun r => { r with agents_used := toInt32 names.length }) ∧
      (Z ∉ sys.coordinator.list_agents →
        ∀ agent r, sys.coordinator.get_agent A = some agent →
          ((sys.store agent).process sv.dump (sv.agent_backend agent) task sys.backend
            sys.world).result = .ok r →
          (Coordinator.collaborate sv sys task [A, Z]).1 =
              .ok { agent_name := "Collaboration", response := A ++ ": " ++ r.content
                    tool_results := r.tool_calls_made, requires_followup := false
                    agents_used := 2 } ∧
            (Coordinator.collaborate sv sys task [A]).1 =
              .ok { agent_name := "Collaboration", response := A ++ ": " ++ r.content
                    tool_results := r.tool_calls_made, requires_followup := false
                    agents_used := 1 } ∧
            (Coordinator.collaborate sv sys task [A, Z]).2 =
              (Coordinator.collaborate sv sys task [A]).2) := by
  refine ⟨(collaborate_filter sv sys task names).1, (collaborate_filter sv sys task names).2, ?_⟩
  intro hZ agent r hA hr
  have hnone : mapFind sys.coordinator.agents_ Z = none := (mapFind_eq_none_iff _ _).2 hZ
  have hgZ : ∀ c : Coordinator, c.agents_ = sys.coordinator.agents_ → c.get_agent Z = none := by
    intro c hc
    simp [Coordinator.get_agent, hc, hnone]
  simp only [Coordinator.collaborate, Coordinator.collaborate_loop, hA, hr,
    hgZ _ (count_usage_agents _ _)]
  simp [Coordinator.aggregate_responses]
  decide

/-- C16 witness: the coordinator with the single agent Solo and the names Solo and Z. -/
theorem C16_unregistered_names_are_skipped_witness :
    (Coordinator.collaborate demoServices (demoSystem soloCoordinator) "task" ["Solo", "Z"]).1 =
        .ok { agent_name := "Collaboration", response := "Solo" ++ ": " ++ "done"
              tool_results := [], requires_followup := false, agents_used := 2 } ∧
      (Coordinator.collaborate demoServices (demoSystem soloCoordinator) "task" ["Solo"]).1 =
        .ok { agent_name := "Collaboration", response := "Solo" ++ ": " ++ "done"
              tool_results := [], requires_followup := false, agents_used := 1 } ∧
      (Coordinator.collaborate demoServices (demoSystem soloCoordinator) "task"
          ["Solo", "Z"]).2 =
        (Coordinator.collaborate demoServices (demoSystem soloCoordinator) "task" ["Solo"]).2 :=
  (C16_unregistered_names_are_skipped demoServices (demoSystem soloCoordinator) "task" []
    "Solo" "Z").2.2 (by decide) 0
    { content := "done", tool_calls_made := [], iterations := 1, stopped_by_limit := false }
    (by decide) (by decide)

theorem aggregate_fold (responses : List String) (init : String) :
    responses.foldl (fun acc response => acc ++ ("### " ++ response ++ "\n\n")) init =
      init ++ concatAll (responses.map (fun response => "### " ++ response ++ "\n\n")) := by
  induction responses generalizing init with
  | nil => simp [concatAll]
  | cons r rest ih =>
    rw [List.foldl_cons, ih]
    simp only [List.map_cons, concatAll, String.append_assoc]

/-- The text that `aggregate_responses` builds from no response or from two and more. -/
theorem aggregate_responses_many (responses : List String) (h : responses.length ≠ 1) :
    Coordinator.aggregate_responses responses =
      "## Collaborative Response\n\n" ++
        "Multiple agents have contributed to this response:\n\n" ++
        concatAll (responses.map (fun response => "### " ++ response ++ "\n\n")) ++
        "---\n\n" ++
        ("**Summary**: This response combines insights from " ++
          to_string responses.length ++ " specialized agents.") := by
  unfold Coordinator.aggregate_responses
  split
  · simp at h
  · simp only [aggregate_fold]

/-- C17 (as stated, refuted): a collaboration in which one agent contributes returns the
line of that agent alone.  With the agent Solo answering "done", the response text is
"Solo: done"; it has no heading and no summary line. -/
theorem C17_single_contribution_counterexample :
    contributions demoServices "task" ["Solo"] (demoSystem soloCoordinator)
        = [("Solo", "done")] ∧
      (Coordinator.collaborate demoServices (demoSystem soloCoordinator) "task" ["Solo"]).1 =
        .ok { agent_name := "Collaboration", response := "Solo: done", tool_results := []
              requires_followup := false, agents_used := 1 } ∧
      str_find "Solo: done" "###" = false ∧ str_find "Solo: done" "Summary" = false := by
  decide

/-- C17 (amended): let the contributions of a collaboration be the agents, in invocation
order, whose `process` call succeeded, each with the content of its response.  Without a
contribution the collaboration fails.  With exactly one the response text is the name, a
colon and the content, without heading and without summary line.  With k contributions, k
at least 2, the text is the two title lines, then for every contribution in invocation
order the heading "### ", the name, a colon, the content and an empty line, then a rule
and the summary line that names k. -/
theorem C17_collaboration_text (sv : Services σ) (sys : System ω σ) (task : String)
    (names : List String) :
    (contributions sv task names sys = [] →
        (Coordinator.collaborate sv sys task names).1 =
          .error "No agents provided valid responses") ∧
      (∀ name content, contributions sv task names sys = [(name, content)] →
        ∃ r, (Coordinator.collaborate sv sys task names).1 = .ok r ∧
          r.response = name ++ ": " ++ content) ∧
      (2 ≤ (contributions sv task names sys).length →
        ∃ r, (Coordinator.collaborate sv sys task names).1 = .ok r ∧
          r.response =
            "## Collaborative Response\n\n" ++
              "Multiple agents have contributed to this response:\n\n" ++
              concatAll ((contributions sv task names sys).map
                (fun p => "### " ++ (p.1 ++ ": " ++ p.2) ++ "\n\n")) ++
              "---\n\n" ++
              ("**Summary**: This response combines insights from " ++
                to_string (contributions sv task names sys).length ++
                " specialized agents.")) := by
  have h := collaborate_loop_responses sv task names [] [] sys
  rw [List.nil_append] at h
  refine ⟨?_, ?_, ?_⟩
  · intro hc
    rw [hc] at h
    simp [Coordinator.collaborate, h]
  · intro name content hc
    rw [hc] at h
    simp [Coordinator.collaborate, h, Coordinator.aggregate_responses]
  · intro hk
    have hne : (Coordinator.collaborate_loop sv task names ([], [], sys)).1.isEmpty = false := by
      rw [h]
      cases hc : contributions sv task names sys with
      | nil => rw [hc] at hk; simp at hk
      | cons x xs => rfl
    have hlen : (Coordinator.collaborate_loop sv task names ([], [], sys)).1.length ≠ 1 := by
      rw [h, List.length_map]
      omega
    refine ⟨{ agent_name := "Collaboration"
              response := Coordinator.aggregate_responses
                (Coordinator.collaborate_loop sv task names ([], [], sys)).1
              tool_results := (Coordinator.collaborate_loop sv task names ([], [], sys)).2.1
              requires_followup := false
              agents_used := toInt32 names.length }, ?_, ?_⟩
    · simp only [Coordinator.collaborate, hne, Bool.false_eq_true, if_false]
    · simp only
      rw [aggregate_responses_many _ hlen, h]
      simp only [List.map_map, List.length_map]
      rfl

/-- C17 witness: two contributions, from the names Solo and Solo again. -/
theorem C17_collaboration_text_witness :
    ∃ r, (Coordinator.collaborate demoServices (demoSystem soloCoordinator) "task"
          ["Solo", "Solo"]).1 = .ok r ∧
      r.response =
        "## Collaborative Response\n\n" ++
          "Multiple agents have contributed to this response:\n\n" ++
          concatAll ((contributions demoServices "task" ["Solo", "Solo"]
            (demoSystem soloCoordinator)).map
              (fun p => "### " ++ (p.1 ++ ": " ++ p.2) ++ "\n\n")) ++
          "---\n\n" ++
          ("**Summary**: This response combines insights from " ++
            to_string (contributions demoServices "task" ["Solo", "Solo"]
              (demoSystem soloCoordinator)).length ++
            " specialized agents.") :=
  (C17_collaboration_text demoServices (demoSystem soloCoordinator) "task"
    ["Solo", "Solo"]).2.2 (by decide)

theorem count_usage_this (c : Coordinator) (name : String) :
    usageCount (c.count_usage name) name = usageCount c name + 1 := by
  simp [usageCount, Coordinator.count_usage, mapFind_mapInsert]

theorem count_usage_other (c : Coordinator) (name other : String) (h : other ≠ name) :
    mapFind (c.count_usage name).agent_usage_ other = mapFind c.agent_usage_ other := by
  simp [Coordinator.count_usage, mapFind_mapInsert, h]

theorem count_usage_congr (c1 c2 : Coordinator) (h : c1.agent_usage_ = c2.agent_usage_)
    (name : String) :
    (c1.count_usage name).agent_usage_ = (c2.count_usage name).agent_usage_ := by
  simp [Coordinator.count_usage, h]

/-- The usage counters after `handle_request`: those before it, with the counter of the
agent named in the response incremented when the request succeeded. -/
theorem handle_request_usage (sv : Services σ) (sys : System ω σ) (request : UserRequest)
    (now : Nat) :
    (∀ resp, (Coordinator.handle_request sv sys request now).1 = .ok resp →
        (Coordinator.handle_request sv sys request now).2.coordinator.agent_usage_ =
          (sys.coordinator.count_usage resp.agent_name).agent_usage_) ∧
      (∀ e, (Coordinator.handle_request sv sys request now).1 = .error e →
        (Coordinator.handle_request sv sys request now).2.coordinator.agent_usage_ =
          sys.coordinator.agent_usage_) := by
  have hrec := record_request_agents sys.coordinator request now
  obtain ⟨-, -, huse⟩ := route_request_spec sv (sys.coordinator.record_request request now)
    request sys.backend
  rcases hr : Coordinator.route_request sv (sys.coordinator.record_request request now)
    request sys.backend with ⟨out, c', b'⟩
  rw [hr] at huse
  simp only at huse
  have hc' : c'.agent_usage_ = sys.coordinator.agent_usage_ := huse.trans hrec.2.1
  cases out with
  | error e0 =>
    have heq : Coordinator.handle_request sv sys request now =
        (.error e0, { sys with coordinator := c', backend := b' }) := by
      simp only [Coordinator.handle_request, hr]
    rw [heq]
    exact ⟨fun resp h => (by cases h), fun e _ => hc'⟩
  | ok name =>
    obtain ⟨hnull, hagent⟩ := handle_request_routed sv sys request now name c' b' hr
    cases hg : c'.get_agent name with
    | none =>
      rw [hnull hg]
      exact ⟨fun resp h => (by cases h), fun e _ => hc'⟩
    | some agent =>
      cases hpr : ((sys.store agent).process sv.dump (sv.agent_backend agent) request.message
          b' sys.world).result with
      | error e1 =>
        rw [(hagent agent hg).1 e1 hpr]
        exact ⟨fun resp h => (by cases h), fun e _ => hc'⟩
      | ok r =>
        obtain ⟨resp0, heq, hname, -⟩ := (hagent agent hg).2 r hpr
        rw [heq]
        refine ⟨?_, fun e h => by cases h⟩
        intro resp hresp
        simp only [Except.ok.injEq] at hresp
        rw [← hresp, hname]
        exact count_usage_congr c' sys.coordinator hc' name

/-- The usage counters after the loop of `collaborate`: the counter of a name has grown by
the number of contributions made under that name. -/
theorem collaborate_loop_usage (sv : Services σ) (task : String) (names : List String)
    (rs ts : List String) (sys : System ω σ) (name : String) :
    usageCount (Coordinator.collaborate_loop sv task names (rs, ts, sys)).2.2.coordinator name =
        usageCount sys.coordinator name +
          (((contributions sv task names sys).map Prod.fst).count name : Nat) ∧
      (name ∉ (contributions sv task names sys).map Prod.fst →
        mapFind (Coordinator.collaborate_loop sv task names
            (rs, ts, sys)).2.2.coordinator.agent_usage_ name =
          mapFind sys.coordinator.agent_usage_ name) := by
  induction names generalizing rs ts sys with
  | nil => simp [Coordinator.collaborate_loop, contributions]
  | cons n rest ih =>
    simp only [Coordinator.collaborate_loop, contributions]
    cases hg : sys.coordinator.get_agent n with
    | none => exact ih _ _ _
    | some agent =>
      simp only
      cases hr : ((sys.store agent).process sv.dump (sv.agent_backend agent) task sys.backend
          sys.world).result with
      | error e => exact ih _ _ _
      | ok response =>
        simp only
        obtain ⟨h1, h2⟩ := ih (rs ++ [n ++ ": " ++ response.content])
          (ts ++ response.tool_calls_made)
          { coordinator := Coordinator.count_usage sys.coordinator n
            store := Function.update sys.store agent
              ((sys.store agent).process sv.dump (sv.agent_backend agent) task sys.backend
                sys.world).agent
            backend := ((sys.store agent).process sv.dump (sv.agent_backend agent) task
              sys.backend sys.world).backend
            world := ((sys.store agent).process sv.dump (sv.agent_backend agent) task
              sys.backend sys.world).world }
        refine ⟨?_, ?_⟩
        · rw [h1]
          simp only [List.map_cons, List.count_cons]
          by_cases hn : n = name
          · subst hn
            rw [count_usage_this]
            simp
            ring
          · have hne : name ≠ n := fun h => hn h.symm
            have : usageCount (Coordinator.count_usage sys.coordinator n) name =
                usageCount sys.coordinator name := by
              simp only [usageCount, count_usage_other _ _ _ hne]
            rw [this]
            simp [hn]
        · intro hnot
          simp only [List.map_cons, List.mem_cons, not_or] at hnot
          rw [h2 hnot.2]
          exact count_usage_other _ _ _ hnot.1

/-- C18: a successful `handle_request` increases the usage counter of the agent it was
routed to by exactly one and leaves every other counter as it was; a failed
`handle_request` changes no counter; `collaborate` increases the counter of each name by
the number of successful `process` calls made under that name and leaves the counter of
every name without such a call as it was. -/
theorem C18_usage_counters (sv : Services σ) (sys : System ω σ) (request : UserRequest)
    (now : Nat) (task : String) (names : List String) :
    (∀ resp, (Coordinator.handle_request sv sys request now).1 = .ok resp →
        usageCount (Coordinator.handle_request sv sys request now).2.coordinator
            resp.agent_name = usageCount sys.coordinator resp.agent_name + 1 ∧
        ∀ other, other ≠ resp.agent_name →
          mapFind (Coordinator.handle_request sv sys request now).2.coordinator.agent_usage_
            other = mapFind sys.coordinator.agent_usage_ other) ∧
      (∀ e, (Coordinator.handle_request sv sys request now).1 = .error e →
        (Coordinator.handle_request sv sys request now).2.coordinator.agent_usage_ =
          sys.coordinator.agent_usage_) ∧
      (∀ name,
        usageCount (Coordinator.collaborate sv sys task names).2.coordinator name =
          usageCount sys.coordinator name +
            (((contributions sv task names sys).map Prod.fst).count name : Nat)) ∧
      (∀ name, name ∉ (contributions sv task names sys).map Prod.fst →
        mapFind (Coordinator.collaborate sv sys task names).2.coordinator.agent_usage_ name =
          mapFind sys.coordinator.agent_usage_ name) := by
  obtain ⟨hok, herr⟩ := handle_request_usage sv sys request now
  have hfinal : (Coordinator.collaborate sv sys task names).2 =
      (Coordinator.collaborate_loop sv task names ([], [], sys)).2.2 := by
    simp only [Coordinator.collaborate]
    split <;> rfl
  refine ⟨?_, herr, ?_, ?_⟩
  · intro resp hresp
    have h := hok resp hresp
    refine ⟨?_, ?_⟩
    · simp only [usageCount, h]
      exact count_usage_this sys.coordinator resp.agent_name
    · intro other hne
      rw [h]
      exact count_usage_other _ _ _ hne
  · intro name
    rw [hfinal]
    exact (collaborate_loop_usage sv task names [] [] sys name).1
  · intro name hnot
    rw [hfinal]
    exact (collaborate_loop_usage sv task names [] [] sys name).2 hnot

/-- C18 witness: one request handled by the agent Solo takes its counter from 0 to 1, and
a collaboration that names Solo twice takes it from 0 to 2. -/
theorem C18_usage_counters_witness :
    (∃ resp, (Coordinator.handle_request demoServices (demoSystem soloCoordinator)
          { message := "hello" } 0).1 = .ok resp ∧ resp.agent_name = "Solo") ∧
      usageCount (demoSystem soloCoordinator).coordinator "Solo" = 0 ∧
      usageCount (Coordinator.handle_request demoServices (demoSystem soloCoordinator)
          { message := "hello" } 0).2.coordinator "Solo" = 0 + 1 ∧
      usageCount (Coordinator.collaborate demoServices (demoSystem soloCoordinator) "task"
          ["Solo", "Solo"]).2.coordinator "Solo" = 0 + (2 : Nat) :=
  ⟨⟨_, rfl, rfl⟩, rfl,
    ((C18_usage_counters demoServices (demoSystem soloCoordinator) { message := "hello" } 0
      "task" ["Solo", "Solo"]).1 _ rfl).1,
    (C18_usage_counters demoServices (demoSystem soloCoordinator) { message := "hello" } 0
      "task" ["Solo", "Solo"]).2.2.1 "Solo"⟩

end CoordinatorProps

/-! ## Properties of the protocol layer -/

section Protocol

variable {ω σ : Type}

/-- C21 (the code departs from the claim): the transport-level code internal_error and the
domain-level code invalid_tool_params have the same integer value, -32003, so the two
families of codes are not disjoint.  It is the only overlap: every other transport-level
code differs from every domain-level code.  An error that the client raises with
internal_error, as for a response with neither result nor error, therefore carries a
domain-level code. -/
theorem C21_internal_error_collides :
    JsonRpcErrorCode.internal_error ∈ transportLevelCodes ∧
      JsonRpcErrorCode.invalid_tool_params ∈ domainLevelCodes ∧
      JsonRpcErrorCode.internal_error = JsonRpcErrorCode.invalid_tool_params ∧
      JsonRpcErrorCode.internal_error = -32003 ∧
      ¬ (∀ t ∈ transportLevelCodes, ∀ d ∈ domainLevelCodes, t ≠ d) ∧
      (∀ t ∈ transportLevelCodes, ∀ d ∈ domainLevelCodes, t = d →
        t = JsonRpcErrorCode.internal_error) ∧
      (∃ e, McpClient.parse_response (.obj []) = .error e ∧ domainLevel e.code) := by
  refine ⟨by decide, by decide, by decide, by decide, by decide, by decide, ?_⟩
  exact ⟨{ code := JsonRpcErrorCode.internal_error
           message := "Invalid response: missing result or error" }, by rfl, by decide⟩

/-- The server after a request: the server before it, or, after a successful initialize,
the server with the client information stored and the flag set.  An initialize request
that leaves the server as it was has been answered with an error. -/
theorem handle_request_server (s : McpServer ω) (j : Json) (w : ω) :
    ((s.handle_request j w).2.1 = s ∧
        ∀ r, JsonRpcRequest.from_json j = .ok r → r.method = "initialize" →
          (s.handle_request j w).1.contains "result" = false) ∨
      (∃ info, (s.handle_request j w).2.1 =
          { s with client_info_ := some info, initialized_ := true } ∧
        (s.handle_request j w).1.contains "result" = true ∧
        (s.handle_request j w).1.contains "error" = false ∧
        ∃ r, JsonRpcRequest.from_json j = .ok r ∧ r.method = "initialize") := by
  unfold McpServer.handle_request
  cases hj : JsonRpcRequest.from_json j with
  | error e => exact Or.inl ⟨rfl, fun r hr => by cases hr⟩
  | ok request =>
    simp only
    unfold McpServer.dispatch
    by_cases h1 : request.method = "initialize"
    · simp only [h1, if_true]
      unfold McpServer.handle_initialize
      cases hp : request.params with
      | none =>
        refine Or.inl ⟨rfl, fun r _ _ => ?_⟩
        simp only [Json.contains, error_response_no_result, Option.isSome_none]
      | some p =>
        simp only
        cases hi : McpInitializeParams.from_json p with
        | error what =>
          refine Or.inl ⟨rfl, fun r _ _ => ?_⟩
          simp only [Json.contains, error_response_no_result, Option.isSome_none]
        | ok init_params =>
          right
          refine ⟨init_params.client_info, rfl, ?_, ?_, request, rfl, h1⟩
          · simp only [Json.contains, (success_response_members _ _).2, Option.isSome_some]
          · simp only [Json.contains, (success_response_members _ _).1, Option.isSome_none]
    · have hne : ∀ r, (Except.ok request : Except JsonRpcError JsonRpcRequest) = Except.ok r →
          r.method = "initialize" → False := by
        intro r hr hm
        simp only [Except.ok.injEq] at hr
        rw [← hr] at hm
        exact h1 hm
      simp only [h1, if_false]
      by_cases h2 : request.method = "tools/list"
      · simp only [h2, if_true]
        cases s.handle_list_tools request.params <;>
          exact Or.inl ⟨rfl, fun r hr hm => (hne r hr hm).elim⟩
      · simp only [h2, if_false]
        by_cases h3 : request.method = "tools/call"
        · simp only [h3, if_true]
          cases (s.handle_call_tool request.params w).1 <;>
            exact Or.inl ⟨rfl, fun r hr hm => (hne r hr hm).elim⟩
        · simp only [h3, if_false]
          by_cases h4 : request.method = "ping"
          · simp only [h4, if_true]
            cases s.handle_ping request.params <;>
              exact Or.inl ⟨rfl, fun r hr hm => (hne r hr hm).elim⟩
          · simp only [h4, if_false]
            exact Or.inl ⟨trivial, fun r hr hm => (hne r hr hm).elim⟩

/-- An initialize request does not touch the world of the tools. -/
theorem initialize_request_world (s : McpServer ω) (j : Json) (r : JsonRpcRequest) (w : ω)
    (hj : JsonRpcRequest.from_json j = .ok r) (hm : r.method = "initialize") :
    (s.handle_request j w).2.2 = w := by
  simp only [McpServer.handle_request, hj, McpServer.dispatch, hm, if_true]
  split <;> rename_i h <;> simp only [Prod.mk.injEq] at h <;> exact h.2.2.symm

theorem handle_request_stays_initialized (s : McpServer ω) (j : Json) (w : ω)
    (h : s.initialized_ = true) : (s.handle_request j w).2.1.initialized_ = true := by
  rcases handle_request_server s j w with ⟨h1, -⟩ | ⟨info, h1, -⟩
  · rw [h1]; exact h
  · rw [h1]

theorem applyOp_stays_initialized (s : McpServer ω) (op : ServerOp ω)
    (h : s.initialized_ = true) : (applyOp s op).initialized_ = true := by
  cases op with
  | register r => exact h
  | unregister name => exact h
  | request request_json w => exact handle_request_stays_initialized s request_json w h

theorem applyOps_stay_initialized (ops : List (ServerOp ω)) (s : McpServer ω)
    (h : s.initialized_ = true) : (ops.foldl applyOp s).initialized_ = true := by
  induction ops generalizing s with
  | nil => exact h
  | cons op rest ih => exact ih _ (applyOp_stays_initialized s op h)

/-- On an initialized dispatcher a tools/list request is answered with a result. -/
theorem list_request_initialized (s : McpServer ω) (j : Json) (r : JsonRpcRequest) (w : ω)
    (hs : s.initialized_ = true) (hj : JsonRpcRequest.from_json j = .ok r)
    (hm : r.method = "tools/list") :
    s.handle_request j w =
      ((JsonRpcResponse.success (McpListToolsResult.to_json { tools := s.tools_.map Prod.snd })
          (r.id.getD make_null_id)).to_json, s, w) := by
  simp +decide [McpServer.handle_request, hj, McpServer.dispatch, hm,
    McpServer.handle_list_tools, hs]
  cases r.id <;> rfl

/-- On an initialized dispatcher an error of a tools/call request is the error of the
code behind the guard: it has the code server_not_initialized only when the handler of the
called tool returned an error with that code. -/
theorem call_request_initialized (s : McpServer ω) (j : Json) (r : JsonRpcRequest) (w : ω)
    (hs : s.initialized_ = true) (hj : JsonRpcRequest.from_json j = .ok r)
    (hm : r.method = "tools/call")
    (hc : responseErrorCode (s.handle_request j w).1 =
      some (.int JsonRpcErrorCode.server_not_initialized)) :
    ∃ p call_params tool handler e w',
      r.params = some p ∧ McpCallToolParams.from_json p = .ok call_params ∧
      mapFind s.tools_ call_params.name = some tool ∧
      mapFind s.tool_handlers_ call_params.name = some handler ∧
      handler call_params.arguments w = (.err e, w') ∧
      e.code = JsonRpcErrorCode.server_not_initialized := by
  rw [handle_request_call s j r w hj hm] at hc
  simp only at hc
  cases hp : r.params with
  | none =>
    simp +decide [McpServer.handle_call_tool, hs, hp, responseErrorCode_error_response] at hc
  | some p =>
    cases hcp : McpCallToolParams.from_json p with
    | error what =>
      simp +decide [McpServer.handle_call_tool, hs, hp, hcp,
        responseErrorCode_error_response] at hc
    | ok call_params =>
      cases ht : mapFind s.tools_ call_params.name with
      | none =>
        simp +decide [McpServer.handle_call_tool, hs, hp, hcp, ht,
          responseErrorCode_error_response] at hc
      | some tool =>
        cases hh : mapFind s.tool_handlers_ call_params.name with
        | none =>
          simp +decide [McpServer.handle_call_tool, hs, hp, hcp, ht, hh,
            responseErrorCode_error_response] at hc
        | some handler =>
          cases hv : McpValidator.validate_tool_params call_params.arguments
              tool.input_schema with
          | error ev =>
            have hcode := validate_tool_params_code _ _ _ hv
            simp +decide [McpServer.handle_call_tool, hs, hp, hcp, ht, hh, hv,
              responseErrorCode_error_response, hcode] at hc
          | ok b =>
            rcases hout : handler call_params.arguments w with ⟨out, w'⟩
            cases out with
            | ok res =>
              simp +decide [McpServer.handle_call_tool, hs, hp, hcp, ht, hh, hv, hout,
                responseErrorCode, (success_response_members _ _).1] at hc
            | err e =>
              refine ⟨p, call_params, tool, handler, e, w', rfl, hcp, ht, hh, hout, ?_⟩
              simp +decide [McpServer.handle_call_tool, hs, hp, hcp, ht, hh, hv, hout,
                responseErrorCode_error_response] at hc
              exact hc
            | throws what =>
              simp +decide [McpServer.handle_call_tool, hs, hp, hcp, ht, hh, hv, hout,
                responseErrorCode_error_response] at hc

/-- C22 (as stated, refuted): an initialized dispatcher can still answer a tools/call
with the code server_not_initialized.  The tool mimic is registered with a handler that
returns an error with that code; the dispatcher passes the error of a handler on as it
is. -/
theorem C22_handler_mimics_guard_counterexample :
    extendedServer.initialized_ = true ∧
      mimicHandler (.obj []) 0 =
        (.err { code := JsonRpcErrorCode.server_not_initialized
                message := "Server not initialized. Call \x27initialize\x27 first." }, 1) ∧
      responseErrorCode
          (extendedServer.handle_request (callRequest "mimic" (.obj []) 5).to_json 0).1 =
        some (.int JsonRpcErrorCode.server_not_initialized) := by
  decide

/-- C22 (amended): the initialized flag is monotone.  An initialize request that is
answered with a result leaves the server initialized; a request answered with an error, a
failed initialize among them, leaves the server as it was, and an initialize request never
touches the world of the tools.  No sequence of requests, `register_tool` calls and
`unregister_tool` calls takes an initialized server back.  After any such sequence a
tools/list request is answered with a result, and a tools/call request is answered with
the code server_not_initialized only when the handler of the called tool itself returned
an error with that code. -/
theorem C22_initialized_is_monotone (s : McpServer ω) (j : Json) (w : ω)
    (ops : List (ServerOp ω)) :
    (∀ r, JsonRpcRequest.from_json j = .ok r → r.method = "initialize" →
        ((s.handle_request j w).1.contains "result" = true →
          (s.handle_request j w).2.1.initialized_ = true) ∧
        (s.handle_request j w).2.2 = w) ∧
      ((s.handle_request j w).1.contains "error" = true → (s.handle_request j w).2.1 = s) ∧
      (s.initialized_ = true → (ops.foldl applyOp s).initialized_ = true) ∧
      (s.initialized_ = true → ∀ r, JsonRpcRequest.from_json j = .ok r →
        (r.method = "tools/list" →
          ((ops.foldl applyOp s).handle_request j w).1.contains "result" = true ∧
          ((ops.foldl applyOp s).handle_request j w).1.contains "error" = false) ∧
        (r.method = "tools/call" →
          responseErrorCode ((ops.foldl applyOp s).handle_request j w).1 =
            some (.int JsonRpcErrorCode.server_not_initialized) →
          ∃ p call_params tool handler e w',
            r.params = some p ∧ McpCallToolParams.from_json p = .ok call_params ∧
            mapFind (ops.foldl applyOp s).tools_ call_params.name = some tool ∧
            mapFind (ops.foldl applyOp s).tool_handlers_ call_params.name = some handler ∧
            handler call_params.arguments w = (.err e, w') ∧
            e.code = JsonRpcErrorCode.server_not_initialized)) := by
  refine ⟨?_, ?_, applyOps_stay_initialized ops s, ?_⟩
  · intro r hj hm
    refine ⟨?_, initialize_request_world s j r w hj hm⟩
    intro hres
    rcases handle_request_server s j w with ⟨-, h2⟩ | ⟨info, h1, -⟩
    · rw [h2 r hj hm] at hres
      cases hres
    · rw [h1]
  · intro herr
    rcases handle_request_server s j w with ⟨h1, -⟩ | ⟨info, -, -, h3, -⟩
    · exact h1
    · rw [h3] at herr
      cases herr
  · intro hs r hj
    have hs' := applyOps_stay_initialized ops s hs
    refine ⟨?_, ?_⟩
    · intro hm
      rw [list_request_initialized _ j r w hs' hj hm]
      simp only [Json.contains, (success_response_members _ _).1,
        (success_response_members _ _).2, Option.isSome_some, Option.isSome_none, and_self]
    · intro hm hc
      exact call_request_initialized _ j r w hs' hj hm hc

/-- C22 witness: the dispatcher `readyServer` loses the tool echo and answers a second
initialize request; it is still initialized and answers tools/list with a result. -/
theorem C22_initialized_is_monotone_witness :
    ([ServerOp.unregister "echo", ServerOp.request initializeRequest 0].foldl applyOp
        readyServer).initialized_ = true ∧
      (([ServerOp.unregister "echo", ServerOp.request initializeRequest 0].foldl applyOp
        readyServer).handle_request
          (JsonRpcRequest.to_json { method := "tools/list", id := some (.int 9) }) 0).1.contains
            "result" = true :=
  ⟨(C22_initialized_is_monotone readyServer
      (JsonRpcRequest.to_json { method := "tools/list", id := some (.int 9) }) 0
      [ServerOp.unregister "echo", ServerOp.request initializeRequest 0]).2.2.1 (by decide),
   (((C22_initialized_is_monotone readyServer
      (JsonRpcRequest.to_json { method := "tools/list", id := some (.int 9) }) 0
      [ServerOp.unregister "echo", ServerOp.request initializeRequest 0]).2.2.2 (by decide)
        { method := "tools/list", id := some (.int 9) } (by rfl)).1 rfl).1⟩

/-- The call `send_request` hands the request of `build_request` to the server and moves
`next_id_` on by one. -/
theorem send_request_eq (c : McpClient) (s : McpServer ω) (method : String) (params : Json)
    (w : ω) :
    c.send_request s method params w =
      (McpClient.parse_response
          (s.handle_request (c.build_request method params).to_json w).1,
        { next_id_ := c.next_id_ + 1 },
        (s.handle_request (c.build_request method params).to_json w).2) := rfl

/-- Every public member function of the client sends exactly one request. -/
theorem run_eq_send_request (c : McpClient) (s : McpServer ω) (w : ω) (call : ClientCall) :
    call.run c s w = (c.send_request s call.wire.1 call.wire.2 w).2 := by
  cases call with
  | init client_name client_version =>
    simp only [ClientCall.run, ClientCall.wire, McpClient.initialize_]
    split
    · rfl
    · split <;> rfl
  | list =>
    simp only [ClientCall.run, ClientCall.wire, McpClient.list_tools]
    split
    · rfl
    · split
      · split <;> rfl
      · rfl
  | call tool_name arguments =>
    simp only [ClientCall.run, ClientCall.wire, McpClient.call_tool]
    split
    · rfl
    · split <;> rfl

theorem run_client (c : McpClient) (s : McpServer ω) (w : ω) (call : ClientCall) :
    (call.run c s w).1 = { next_id_ := c.next_id_ + 1 } := by
  rw [run_eq_send_request, send_request_eq]

/-- The identifiers of the requests of a sequence of calls count up from `next_id_`. -/
theorem sentRequests_ids (calls : List ClientCall) (c : McpClient) (s : McpServer ω) (w : ω) :
    (sentRequests c s w calls).map (fun r => r.id) =
      (List.range calls.length).map
        (fun (k : Nat) => some (JsonRpcId.int (c.next_id_ + (k : Int)))) := by
  induction calls generalizing c s w with
  | nil => rfl
  | cons call rest ih =>
    simp only [sentRequests, List.map_cons, List.length_cons, List.range_succ_eq_map,
      List.map_map]
    rw [ih, run_client]
    simp only [McpClient.build_request, Nat.cast_zero, add_zero, List.cons.injEq, true_and]
    apply List.map_congr_left
    intro k _
    simp only [Function.comp, Nat.cast_succ]
    congr 2
    ring

theorem sentRequests_shape (calls : List ClientCall) (c : McpClient) (s : McpServer ω) (w : ω) :
    ∀ r ∈ sentRequests c s w calls,
      ∃ method params k, k < calls.length ∧
        r = { method := method, params := some params,
              id := some (.int (c.next_id_ + (k : Int))) } := by
  induction calls generalizing c s w with
  | nil => intro r hr; cases hr
  | cons call rest ih =>
    intro r hr
    simp only [sentRequests, List.mem_cons] at hr
    rcases hr with hr | hr
    · exact ⟨call.wire.1, call.wire.2, 0, by simp, by simp [hr, McpClient.build_request]⟩
    · obtain ⟨method, params, k, hk, hreq⟩ := ih _ _ _ r hr
      rw [run_client] at hreq
      refine ⟨method, params, k + 1, by simp [hk], ?_⟩
      rw [hreq]
      simp only [Nat.cast_succ]
      congr 3
      ring

/-- C23: a client starts with the identifier 1 and every public member function sends
exactly one request, built with the current identifier, after which the identifier has
grown by one.  So the k-th request of a client carries the integer identifier k, every
request carries an identifier strictly greater than that of every request sent before, and
no identifier occurs twice.  The statement is for the first 2147483647 requests, all
those whose identifier the type `int` can hold; for them the server reads back the very
request that was built. -/
theorem C23_request_ids_increase (s : McpServer ω) (w : ω) (calls : List ClientCall)
    (hlen : calls.length ≤ 2147483647) :
    (∀ (c : McpClient) (call : ClientCall),
        call.run c s w =
          ({ next_id_ := c.next_id_ + 1 },
           (s.handle_request (c.build_request call.wire.1 call.wire.2).to_json w).2)) ∧
      (sentRequests { next_id_ := 1 } s w calls).map (fun r => r.id) =
        (List.range calls.length).map
          (fun (k : Nat) => some (JsonRpcId.int ((k : Int) + 1))) ∧
      ((sentRequests { next_id_ := 1 } s w calls).filterMap requestIntId).Pairwise
        (fun earlier later => earlier < later) ∧
      ((sentRequests { next_id_ := 1 } s w calls).map (fun r => r.id)).Nodup ∧
      (∀ r ∈ sentRequests { next_id_ := 1 } s w calls,
        JsonRpcRequest.from_json r.to_json = .ok r ∧
        ∃ n, r.id = some (.int n) ∧ 1 ≤ n ∧ n ≤ 2147483647) := by
  have hids : (sentRequests { next_id_ := 1 } s w calls).map (fun r => r.id) =
      (List.range calls.length).map
        (fun (k : Nat) => some (JsonRpcId.int ((k : Int) + 1))) := by
    rw [sentRequests_ids]
    apply List.map_congr_left
    intro k _
    simp only [Option.some.injEq, JsonRpcId.int.injEq]
    ring
  have hint : (sentRequests { next_id_ := 1 } s w calls).filterMap requestIntId =
      (List.range calls.length).map (fun (k : Nat) => (k : Int) + 1) := by
    have h1 : (sentRequests { next_id_ := 1 } s w calls).filterMap requestIntId =
        ((sentRequests { next_id_ := 1 } s w calls).map (fun r => r.id)).filterMap
          (fun i => match i with
            | some (JsonRpcId.int n) => some n
            | _ => none) := by
      rw [List.filterMap_map]
      rfl
    rw [h1, hids, List.filterMap_map]
    exact congrFun (List.filterMap_eq_map (fun (k : Nat) => (k : Int) + 1)) _
  refine ⟨?_, hids, ?_, ?_, ?_⟩
  · intro c call
    rw [run_eq_send_request, send_request_eq]
  · rw [hint, List.pairwise_map]
    exact (List.pairwise_lt_range _).imp (fun h => by omega)
  · rw [hids]
    refine (List.nodup_range _).map ?_
    intro a b hab
    simp only [Option.some.injEq, JsonRpcId.int.injEq] at hab
    omega
  · intro r hr
    obtain ⟨method, params, k, hk, hreq⟩ := sentRequests_shape calls _ s w r hr
    have hk1 : (1 : Int) ≤ 1 + (k : Int) := by omega
    have hk2 : 1 + (k : Int) ≤ 2147483647 := by omega
    refine ⟨?_, 1 + (k : Int), by rw [hreq], hk1, hk2⟩
    rw [hreq, from_json_sent_request, toInt32_of_range _ (by omega) hk2]

/-- C23 witness: an initialize, a tools/list and a tools/call sent by a fresh client
carry the identifiers 1, 2 and 3. -/
theorem C23_request_ids_increase_witness :
    (sentRequests { next_id_ := 1 } (McpServer.new "srv" "1.0" : McpServer Nat) 0
        [ClientCall.init "cli" "1.0", ClientCall.list,
          ClientCall.call "echo" (.obj [("text", .str "hi")])]).map (fun r => r.id) =
      [some (.int 1), some (.int 2), some (.int 3)] :=
  (C23_request_ids_increase (McpServer.new "srv" "1.0" : McpServer Nat) 0
    [ClientCall.init "cli" "1.0", ClientCall.list,
      ClientCall.call "echo" (.obj [("text", .str "hi")])] (by decide)).2.1

/-- A tool result survives its wire form. -/
theorem tool_result_round_trip (R : McpToolResult) :
    McpClient.decode_tool_result R.to_json = .ok R := by
  obtain ⟨content, is_error⟩ := R
  cases is_error <;>
    simp +decide [McpClient.decode_tool_result, McpToolResult.to_json, Json.set, Json.get?,
      mapInsert, mapFind, Json.get_bool]

/-- A successful answer of `handle_call_tool` reaches the caller of `call_tool` decoded. -/
theorem call_tool_of_result (c : McpClient) (s : McpServer ω) (tool_name : String)
    (arguments : Json) (w w' : ω) (R : McpToolResult)
    (h : s.handle_call_tool
        (some ((Json.null.set "name" (.str tool_name)).set "arguments" arguments)) w
          = (.ok R.to_json, w')) :
    c.call_tool s tool_name arguments w = (.ok R, { next_id_ := c.next_id_ + 1 }, s, w') := by
  simp +decide [McpClient.call_tool, McpClient.send_request, McpServer.handle_request,
    from_json_sent_request, McpServer.dispatch, h, parse_response_success,
    tool_result_round_trip]

/-- On an initialized dispatcher the handler of a registered tool runs on arguments that
pass validation, and its result is the answer. -/
theorem handle_call_tool_of_handler (s : McpServer ω) (tool_name : String) (arguments : Json)
    (w : ω) (tool : McpTool) (handler : ToolHandler ω) (b : Bool)
    (hs : s.initialized_ = true)
    (ht : mapFind s.tools_ tool_name = some tool)
    (hh : mapFind s.tool_handlers_ tool_name = some handler)
    (hv : McpValidator.validate_tool_params arguments tool.input_schema = .ok b) :
    s.handle_call_tool
        (some ((Json.null.set "name" (.str tool_name)).set "arguments" arguments)) w =
      match handler arguments w with
      | (.ok r, w') => (.ok r.to_json, w')
      | (.err e, w') => (.error e, w')
      | (.throws what, w') =>
        (.error { code := JsonRpcErrorCode.tool_execution_failed,
                  message := "Tool execution failed: " ++ what }, w') := by
  simp only [McpServer.handle_call_tool, hs, call_tool_params, ht, hh, hv, Bool.not_true,
    Bool.false_eq_true, if_false]

/-- C24: a tool invocation result survives the protocol round trip.  When the handler of
a registered tool returns a result R on arguments that pass validation, the initialized
dispatcher answers the request of the client with a success response (the member result
holds the wire form of R, there is no member error), and `McpClient::call_tool` returns R
itself, with the same content blocks and the same error flag, also when R is
error-flagged. -/
theorem C24_tool_result_round_trip (c : McpClient) (s : McpServer ω) (tool_name : String)
    (arguments : Json) (w w' : ω) (tool : McpTool) (handler : ToolHandler ω) (b : Bool)
    (R : McpToolResult)
    (hs : s.initialized_ = true)
    (ht : mapFind s.tools_ tool_name = some tool)
    (hh : mapFind s.tool_handlers_ tool_name = some handler)
    (hv : McpValidator.validate_tool_params arguments tool.input_schema = .ok b)
    (hr : handler arguments w = (.ok R, w')) :
    (s.handle_request (c.build_request "tools/call"
        ((Json.null.set "name" (.str tool_name)).set "arguments" arguments)).to_json w).1.get?
          "result" = some R.to_json ∧
      (s.handle_request (c.build_request "tools/call"
        ((Json.null.set "name" (.str tool_name)).set "arguments" arguments)).to_json
          w).1.contains "result" = true ∧
      (s.handle_request (c.build_request "tools/call"
        ((Json.null.set "name" (.str tool_name)).set "arguments" arguments)).to_json
          w).1.contains "error" = false ∧
      c.call_tool s tool_name arguments w =
        (.ok R, { next_id_ := c.next_id_ + 1 }, s, w') ∧
      McpClient.decode_tool_result R.to_json = .ok R := by
  have hcall := handle_call_tool_of_handler s tool_name arguments w tool handler b hs ht hh hv
  rw [hr] at hcall
  simp only at hcall
  have hresp : (s.handle_request (c.build_request "tools/call"
      ((Json.null.set "name" (.str tool_name)).set "arguments" arguments)).to_json w).1 =
      (JsonRpcResponse.success R.to_json (.int (toInt32 c.next_id_))).to_json := by
    simp +decide [McpClient.build_request, McpServer.handle_request, from_json_sent_request,
      McpServer.dispatch, hcall]
  rw [hresp]
  refine ⟨(success_response_members _ _).2, ?_, ?_,
    call_tool_of_result c s tool_name arguments w w' R hcall, tool_result_round_trip R⟩
  · simp only [Json.contains, (success_response_members _ _).2, Option.isSome_some]
  · simp only [Json.contains, (success_response_members _ _).1, Option.isSome_none]

/-- C24 witness: the tool flag of `extendedServer` returns an error-flagged result; the
client receives it with its flag. -/
theorem C24_tool_result_round_trip_witness :
    (McpToolResult.error_result "disk full").is_error = true ∧
      ({ next_id_ := 2 } : McpClient).call_tool extendedServer "flag" (.obj []) 0 =
        (.ok (McpToolResult.error_result "disk full"), { next_id_ := 2 + 1 },
          extendedServer, 1) :=
  ⟨rfl,
   (C24_tool_result_round_trip { next_id_ := 2 } extendedServer "flag" (.obj []) 0 1
      { name := "flag", description := "Returns a flagged result", input_schema := .obj [] }
      flaggingHandler true (McpToolResult.error_result "disk full")
      (by decide) (by decide) (by rfl) (by decide) (by rfl)).2.2.2.1⟩

end Protocol

/-! ## Properties of routing -/

section Routing

variable {ω σ : Type}

/-- Keyword routing is the first applicable category of the table, else the first
registered name. -/
theorem route_by_keywords_eq_spec (c : Coordinator) (message : String) :
    c.route_by_keywords message = specKeywordRoute c message := by
  have hfb : (match c.agents_ with
      | first :: _ => (Except.ok first.1 : Except String String)
      | [] => .error "No agents available") =
      (match c.list_agents with
      | first :: _ => .ok first
      | [] => .error "No agents available") := by
    unfold Coordinator.list_agents mapKeys
    cases c.agents_ <;> rfl
  unfold Coordinator.route_by_keywords specKeywordRoute keywordCategories
  simp only [List.find?, categoryApplies, List.any, Bool.or_false, Bool.or_assoc]
  rcases Bool.eq_false_or_eq_true ((str_find (to_lower message) "code" ||
      (str_find (to_lower message) "review" || (str_find (to_lower message) "refactor" ||
      (str_find (to_lower message) "bug" || str_find (to_lower message) "function")))) &&
      c.has_agent "CodeAssistant") with h | h
  · simp only [h, if_true]
  simp only [h, Bool.false_eq_true, if_false]
  rcases Bool.eq_false_or_eq_true ((str_find (to_lower message) "deploy" ||
      (str_find (to_lower message) "service" || (str_find (to_lower message) "log" ||
      (str_find (to_lower message) "infrastructure" ||
      str_find (to_lower message) "monitoring")))) && c.has_agent "DevOpsAgent") with h | h
  · simp only [h, if_true]
  simp only [h, Bool.false_eq_true, if_false]
  rcases Bool.eq_false_or_eq_true ((str_find (to_lower message) "document" ||
      (str_find (to_lower message) "docs" || (str_find (to_lower message) "api" ||
      str_find (to_lower message) "readme"))) && c.has_agent "DocumentationAgent") with h | h
  · simp only [h, if_true]
  simp only [h, Bool.false_eq_true, if_false]
  rcases Bool.eq_false_or_eq_true ((str_find (to_lower message) "test" ||
      (str_find (to_lower message) "coverage" || str_find (to_lower message) "unittest")) &&
      c.has_agent "TestingAgent") with h | h
  · simp only [h, if_true]
  simp only [h, Bool.false_eq_true, if_false]
  rcases Bool.eq_false_or_eq_true ((str_find (to_lower message) "data" ||
      (str_find (to_lower message) "analyze" || (str_find (to_lower message) "statistics" ||
      str_find (to_lower message) "metrics"))) && c.has_agent "DataAnalystAgent") with h | h
  · simp only [h, if_true]
  simp only [h, Bool.false_eq_true, if_false]
  rcases Bool.eq_false_or_eq_true ((str_find (to_lower message) "security" ||
      (str_find (to_lower message) "vulnerabilit" ||
      (str_find (to_lower message) "encryption" ||
      str_find (to_lower message) "authentication"))) && c.has_agent "SecurityAgent") with h | h
  · simp only [h, if_true]
  simp only [h, Bool.false_eq_true, if_false]
  exact hfb

theorem toNat_ofNat_small (n : Nat) (h : n < 55296) : (Char.ofNat n).toNat = n := by
  have hv : n.isValidChar := Or.inl h
  simp only [Char.ofNat, hv, dif_pos, Char.ofNatAux, Char.toNat]
  simp [UInt32.toNat]

theorem char_toLower_idem (c : Char) : c.toLower.toLower = c.toLower := by
  by_cases h : c.toNat ≥ 65 ∧ c.toNat ≤ 90
  · have h1 : c.toLower = Char.ofNat (c.toNat + 32) := by
      simp only [Char.toLower, h, and_self, if_true]
    have h2 : (Char.ofNat (c.toNat + 32)).toNat = c.toNat + 32 :=
      toNat_ofNat_small _ (by omega)
    rw [h1]
    have h3 : ¬ ((Char.ofNat (c.toNat + 32)).toNat ≥ 65 ∧
        (Char.ofNat (c.toNat + 32)).toNat ≤ 90) := by
      rw [h2]; omega
    simp only [Char.toLower, h3, if_false]
  · have h1 : c.toLower = c := by
      simp only [Char.toLower, h, if_false]
    rw [h1, h1]

theorem to_lower_idem (s : String) : to_lower (to_lower s) = to_lower s := by
  simp only [to_lower, List.map_map]
  congr 1
  apply List.map_congr_left
  intro c _
  exact char_toLower_idem c

/-- The first category of the table that applies decides keyword routing. -/
theorem route_by_keywords_first (c : Coordinator) (message : String)
    (before after : List (List String × String)) (category : List String × String)
    (htable : keywordCategories = before ++ category :: after)
    (hbefore : ∀ earlier ∈ before, categoryApplies c message earlier = false)
    (happlies : categoryApplies c message category = true) :
    c.route_by_keywords message = .ok category.2 := by
  rw [route_by_keywords_eq_spec]
  unfold specKeywordRoute
  have hfind : keywordCategories.find? (categoryApplies c message) = some category := by
    rw [htable, List.find?_append]
    have hnone : before.find? (categoryApplies c message) = none := by
      rw [List.find?_eq_none]
      intro x hx
      simp [hbefore x hx]
    rw [hnone]
    simp [List.find?, happlies]
  rw [hfind]

/-- C25: keyword routing lower-cases the message and goes through the categories code,
devops, documentation, testing, data analysis and security in this order; it returns the
agent of the first category one of whose keywords occurs in the lower-cased message and
whose agent is registered (and the first registered name when there is no such category).
Hence a message with keywords of exactly two categories, whose agents are both registered,
goes to the agent of the category that stands earlier in the table.  The result depends on
the message through its lower-cased form only: messages that differ in letter case alone
are routed alike. -/
theorem C25_keyword_priority (c : Coordinator) (message : String) :
    c.route_by_keywords message = specKeywordRoute c message ∧
      keywordCategories.map Prod.snd =
        ["CodeAssistant", "DevOpsAgent", "DocumentationAgent", "TestingAgent",
          "DataAnalystAgent", "SecurityAgent"] ∧
      (∀ before category after, keywordCategories = before ++ category :: after →
        (∀ earlier ∈ before, categoryApplies c message earlier = false) →
        categoryApplies c message category = true →
        c.route_by_keywords message = .ok category.2) ∧
      (∀ before first between second after,
        keywordCategories = before ++ first :: (between ++ second :: after) →
        (∀ category ∈ keywordCategories,
          category.1.any (fun keyword => str_find (to_lower message) keyword) = true →
            category = first ∨ category = second) →
        first.1.any (fun keyword => str_find (to_lower message) keyword) = true →
        second.1.any (fun keyword => str_find (to_lower message) keyword) = true →
        c.has_agent first.2 = true → c.has_agent second.2 = true →
        c.route_by_keywords message = .ok first.2) ∧
      (∀ other, to_lower other = to_lower message →
        c.route_by_keywords other = c.route_by_keywords message) ∧
      c.route_by_keywords (to_lower message) = c.route_by_keywords message := by
  have hcase : ∀ other, to_lower other = to_lower message →
      c.route_by_keywords other = c.route_by_keywords message := by
    intro other h
    simp only [Coordinator.route_by_keywords, h]
  refine ⟨route_by_keywords_eq_spec c message, by decide, ?_, ?_, hcase, ?_⟩
  · intro before category after htable hbefore happlies
    exact route_by_keywords_first c message before after category htable hbefore happlies
  · intro before first between second after htable hexact hfirst _ hreg _
    have hnodup : keywordCategories.Nodup := by decide
    rw [htable] at hnodup
    refine route_by_keywords_first c message before (between ++ second :: after) first htable
      ?_ (by simp [categoryApplies, hfirst, hreg])
    intro earlier hearlier
    have hmem : earlier ∈ keywordCategories := by
      rw [htable]
      exact List.mem_append_left _ hearlier
    have hdisj := (List.nodup_append.1 hnodup).2.2
    have hne1 : earlier ≠ first := fun h =>
      hdisj hearlier (by rw [h]; exact List.mem_cons_self _ _)
    have hne2 : earlier ≠ second := fun h =>
      hdisj hearlier (by rw [h]; simp)
    have hnot : ¬ earlier.1.any (fun keyword => str_find (to_lower message) keyword) = true :=
      fun h => (hexact earlier hmem h).elim hne1 hne2
    simp only [categoryApplies, Bool.and_eq_false_imp]
    intro h
    exact absurd h hnot
  · exact hcase (to_lower message) (to_lower_idem message)

/-- C25 witness: with the agents of both categories registered, a message with a testing
keyword and a documentation keyword goes to the documentation agent, in upper case as in
lower case. -/
theorem C25_keyword_priority_witness :
    Coordinator.route_by_keywords
        (registerAgents {} [("TestingAgent", some 0), ("DocumentationAgent", some 1)])
        "TEST the README" = .ok "DocumentationAgent" ∧
      Coordinator.route_by_keywords
        (registerAgents {} [("TestingAgent", some 0), ("DocumentationAgent", some 1)])
        "test the readme" = .ok "DocumentationAgent" :=
  have h := (C25_keyword_priority
    (registerAgents {} [("TestingAgent", some 0), ("DocumentationAgent", some 1)])
    "TEST the README").2.2.1
    [(["code", "review", "refactor", "bug", "function"], "CodeAssistant"),
     (["deploy", "service", "log", "infrastructure", "monitoring"], "DevOpsAgent")]
    (["document", "docs", "api", "readme"], "DocumentationAgent")
    [(["test", "coverage", "unittest"], "TestingAgent"),
     (["data", "analyze", "statistics", "metrics"], "DataAnalystAgent"),
     (["security", "vulnerabilit", "encryption", "authentication"], "SecurityAgent")]
    rfl (by decide) (by decide)
  ⟨h, ((C25_keyword_priority
    (registerAgents {} [("TestingAgent", some 0), ("DocumentationAgent", some 1)])
    "TEST the README").2.2.2.2.1 "test the readme" (by decide)).trans h⟩

/-- Two maps with the same set of keys have the same list of keys: a `std::map` iterates
in key order, whatever the order of the insertions was. -/
theorem sortedKeys_keys_ext {α β : Type} (m1 : List (String × α)) (m2 : List (String × β))
    (h1 : sortedKeys m1) (h2 : sortedKeys m2)
    (h : ∀ k, k ∈ mapKeys m1 ↔ k ∈ mapKeys m2) : mapKeys m1 = mapKeys m2 := by
  have hperm : (mapKeys m1).Perm (mapKeys m2) :=
    (List.perm_ext_iff_of_nodup (sortedKeys_nodup m1 h1) (sortedKeys_nodup m2 h2)).2 h
  have hanti : IsAntisymm String (fun a b => strLt a b = true) :=
    ⟨fun a b hab hba => by
      have := strLt_trans a b a hab hba
      rw [strLt_irrefl] at this
      cases this⟩
  exact @List.eq_of_perm_of_sorted _ _ hanti _ _ hperm h1 h2

theorem registerAgents_sorted (regs : List (String × AgentPtr)) (base : Coordinator)
    (hbase : sortedKeys base.agents_) : sortedKeys (registerAgents base regs).agents_ := by
  induction regs generalizing base with
  | nil => exact hbase
  | cons r rest ih =>
    exact ih _ (sortedKeys_mapInsert base.agents_ r.1 r.2 hbase)

theorem registerAgents_names (regs : List (String × AgentPtr)) (base : Coordinator)
    (name : String) :
    name ∈ (registerAgents base regs).list_agents ↔
      name ∈ base.list_agents ∨ name ∈ regs.map Prod.fst := by
  induction regs generalizing base with
  | nil => simp [registerAgents]
  | cons r rest ih =>
    have h := ih (base.register_agent r.1 r.2)
    simp only [registerAgents, List.foldl_cons] at h ⊢
    rw [h]
    simp only [Coordinator.list_agents, Coordinator.register_agent, mem_mapKeys_mapInsert,
      List.map_cons, List.mem_cons]
    tauto

/-- Keyword routing depends on the registry through the list of its names only. -/
theorem route_by_keywords_same_names (c1 c2 : Coordinator) (message : String)
    (h : c1.list_agents = c2.list_agents) :
    c1.route_by_keywords message = c2.route_by_keywords message := by
  have hhas : ∀ name, c1.has_agent name = c2.has_agent name := by
    intro name
    rw [Bool.eq_iff_iff, has_agent_iff, has_agent_iff, h]
  have happ : categoryApplies c1 message = categoryApplies c2 message := by
    funext category
    simp only [categoryApplies, hhas]
  rw [route_by_keywords_eq_spec, route_by_keywords_eq_spec]
  simp only [specKeywordRoute, happ, h]

/-- C26: for a registry that is not empty keyword routing returns a registered name, and
when no keyword category with a registered agent applies it returns the first name of the
registry, which is the least registered name in key order.  The result depends on the set
of registered names only: two coordinators that made their registrations on the same
registry and registered the same names, in the same order or in any other, hold the same
list of names and route every message alike. -/
theorem C26_fallback_is_deterministic (base : Coordinator)
    (regs1 regs2 : List (String × AgentPtr)) (message : String)
    (hbase : sortedKeys base.agents_)
    (hnames : ∀ name, name ∈ regs1.map Prod.fst ↔ name ∈ regs2.map Prod.fst)
    (hne : (registerAgents base regs1).list_agents ≠ []) :
    (∃ name ∈ (registerAgents base regs1).list_agents,
        (registerAgents base regs1).route_by_keywords message = .ok name) ∧
      ((∀ category ∈ keywordCategories,
          categoryApplies (registerAgents base regs1) message category = false) →
        ∃ first, (registerAgents base regs1).list_agents.head? = some first ∧
          (registerAgents base regs1).route_by_keywords message = .ok first ∧
          ∀ name ∈ (registerAgents base regs1).list_agents,
            name = first ∨ strLt first name = true) ∧
      (registerAgents base regs1).list_agents = (registerAgents base regs2).list_agents ∧
      (registerAgents base regs1).route_by_keywords message =
        (registerAgents base regs2).route_by_keywords message := by
  have hs1 := registerAgents_sorted regs1 base hbase
  have hs2 := registerAgents_sorted regs2 base hbase
  have hkeys : (registerAgents base regs1).list_agents =
      (registerAgents base regs2).list_agents := by
    apply sortedKeys_keys_ext _ _ hs1 hs2
    intro k
    have h1 := registerAgents_names regs1 base k
    have h2 := registerAgents_names regs2 base k
    simp only [Coordinator.list_agents] at h1 h2
    rw [h1, h2, hnames k]
  refine ⟨?_, ?_, hkeys, route_by_keywords_same_names _ _ message hkeys⟩
  · rcases route_by_keywords_spec (registerAgents base regs1) message with
      ⟨-, hnil⟩ | ⟨name, hname, hhas⟩
    · exact absurd (by simp [Coordinator.list_agents, mapKeys, hnil]) hne
    · exact ⟨name, (has_agent_iff _ _).1 hhas, hname⟩
  · intro hnone
    have hfind : keywordCategories.find? (categoryApplies (registerAgents base regs1) message)
        = none := by
      rw [List.find?_eq_none]
      intro x hx
      simp [hnone x hx]
    have hsorted : ((registerAgents base regs1).list_agents).Pairwise
        (fun a b => strLt a b = true) := hs1
    rw [route_by_keywords_eq_spec]
    simp only [specKeywordRoute, hfind]
    cases hl : (registerAgents base regs1).list_agents with
    | nil => exact absurd hl hne
    | cons first rest =>
      rw [hl] at hsorted
      refine ⟨first, rfl, rfl, ?_⟩
      intro name hname
      rcases List.mem_cons.1 hname with h | h
      · exact Or.inl h
      · exact Or.inr ((List.pairwise_cons.1 hsorted).1 name h)

/-- C26 witness: Zed and Amy registered in either order; a message without keyword goes
to Amy in both coordinators. -/
theorem C26_fallback_is_deterministic_witness :
    Coordinator.route_by_keywords
        (registerAgents {} [("Zed", some 0), ("Amy", some 1)]) "hello" = .ok "Amy" ∧
      Coordinator.route_by_keywords
        (registerAgents {} [("Amy", some 1), ("Zed", some 0)]) "hello" = .ok "Amy" :=
  have h := C26_fallback_is_deterministic {} [("Zed", some 0), ("Amy", some 1)]
    [("Amy", some 1), ("Zed", some 0)] "hello" (by decide)
    (fun name => by simp [or_comm]) (by decide)
  have h1 : Coordinator.route_by_keywords
      (registerAgents {} [("Zed", some 0), ("Amy", some 1)]) "hello" = .ok "Amy" := by
    obtain ⟨first, hfirst, hroute, -⟩ := h.2.1 (by decide)
    have : first = "Amy" := by
      have h2 : (registerAgents {} [("Zed", some 0), ("Amy", some 1)]).list_agents.head? =
          some "Amy" := by decide
      rw [h2] at hfirst
      exact (Option.some.inj hfirst).symm
    rw [hroute, this]
  ⟨h1, h.2.2.2 ▸ h1⟩

/-- The key that `std::advance` reaches is the entry of the list of names at that
position. -/
theorem key_at_eq (m : List (String × AgentPtr)) (n : Nat) :
    Coordinator.key_at m n = (mapKeys m).getD n "" := by
  induction m generalizing n with
  | nil => simp [Coordinator.key_at, mapKeys]
  | cons entry rest ih =>
    cases n with
    | zero => simp [Coordinator.key_at, mapKeys]
    | succ k =>
      have h := ih k
      simp only [Coordinator.key_at, mapKeys, List.drop_succ_cons, List.map_cons,
        List.getD_cons_succ] at h ⊢
      exact h

/-- One routing call under the round-robin strategy without a usable preferred agent. -/
theorem route_request_round_robin (sv : Services σ) (c : Coordinator) (request : UserRequest)
    (b : σ) (hs : c.routing_strategy_ = .RoundRobin) (hne : c.agents_ ≠ [])
    (hp : request.preferred_agent = none) :
    Coordinator.route_request sv c request b =
      (.ok (Coordinator.key_at c.agents_ (c.round_robin_index_ % c.agents_.length)),
       { c with round_robin_index_ := (c.round_robin_index_ + 1) % 18446744073709551616 },
       b) := by
  simp only [Coordinator.route_request, hp, hs, Coordinator.route_round_robin]
  cases hc : c.agents_ with
  | nil => exact absurd hc hne
  | cons first rest => rfl

/-- The results of a run of round-robin routing calls, as long as the counter of type
`size_t` does not wrap. -/
theorem routeAll_round_robin (sv : Services σ) (requests : List UserRequest) (c : Coordinator)
    (b : σ) (hs : c.routing_strategy_ = .RoundRobin) (hne : c.agents_ ≠ [])
    (hp : ∀ request ∈ requests, request.preferred_agent = none)
    (hlen : c.round_robin_index_ + requests.length ≤ 18446744073709551616) :
    routeAll sv c b requests =
      (List.range requests.length).map (fun (i : Nat) =>
        (Except.ok (Coordinator.key_at c.agents_
          ((c.round_robin_index_ + i) % c.agents_.length)) : Except String String)) := by
  induction requests generalizing c b with
  | nil => rfl
  | cons request rest ih =>
    have hreq := route_request_round_robin sv c request b hs hne
      (hp request (List.mem_cons_self _ _))
    simp only [routeAll, hreq, List.length_cons, List.range_succ_eq_map, List.map_cons,
      List.map_map, add_zero]
    congr 1
    cases rest with
    | nil => rfl
    | cons r2 rest2 =>
      simp only [List.length_cons] at hlen
      have hidx : (c.round_robin_index_ + 1) % 18446744073709551616 =
          c.round_robin_index_ + 1 := Nat.mod_eq_of_lt (by omega)
      rw [ih { c with round_robin_index_ := (c.round_robin_index_ + 1) % 18446744073709551616 }
        b hs hne (fun r hr => hp r (List.mem_cons_of_mem _ hr))
        (by simp only [hidx, List.length_cons]; omega)]
      simp only [hidx]
      apply List.map_congr_left
      intro i _
      simp only [Function.comp, Nat.succ_eq_add_one]
      congr 3
      omega

/-- A window of as many results as there are names is the list of names, rotated. -/
theorem round_robin_window (keys : List String) (len j : Nat)
    (hj : j + keys.length ≤ len) :
    ((((List.range len).map (fun (i : Nat) =>
        (Except.ok (keys.getD (i % keys.length) "") : Except String String))).drop j).take
          keys.length) = (keys.rotate j).map Except.ok := by
  apply List.ext_getElem?
  intro k
  by_cases hk : k < keys.length
  · have h1 : j + k < len := by omega
    have h2 : (j + k) % keys.length < keys.length := Nat.mod_lt _ (by omega)
    rw [List.getElem?_take_of_lt hk, List.getElem?_drop, List.getElem?_map,
      List.getElem?_range h1, List.getElem?_map, List.getElem?_rotate hk, Nat.add_comm k j,
      List.getElem?_eq_getElem h2]
    simp only [Option.map_some', List.getD_eq_getElem?_getD, List.getElem?_eq_getElem h2,
      Option.getD_some]
  · have h3 : ((keys.rotate j).map (Except.ok : String → Except String String)).length ≤ k := by
      simp only [List.length_map, List.length_rotate]
      omega
    rw [List.getElem?_take, if_neg hk, List.getElem?_eq_none h3]

/-- The results of a run of round-robin routing calls of any length: the counter is a
`size_t`, so the position of call i is taken from the counter reduced modulo 2^64. -/
theorem routeAll_round_robin_exact (sv : Services σ) (requests : List UserRequest)
    (c : Coordinator) (b : σ) (hs : c.routing_strategy_ = .RoundRobin) (hne : c.agents_ ≠ [])
    (hp : ∀ request ∈ requests, request.preferred_agent = none)
    (hidx : c.round_robin_index_ < 18446744073709551616) :
    routeAll sv c b requests =
      (List.range requests.length).map (fun (i : Nat) =>
        (Except.ok (Coordinator.key_at c.agents_
          ((c.round_robin_index_ + i) % 18446744073709551616 % c.agents_.length)) :
            Except String String)) := by
  induction requests generalizing c b with
  | nil => rfl
  | cons request rest ih =>
    have hreq := route_request_round_robin sv c request b hs hne
      (hp request (List.mem_cons_self _ _))
    simp only [routeAll, hreq, List.length_cons, List.range_succ_eq_map, List.map_cons,
      List.map_map, add_zero, Nat.mod_eq_of_lt hidx]
    congr 1
    rw [ih { c with round_robin_index_ := (c.round_robin_index_ + 1) % 18446744073709551616 }
      b hs hne (fun r hr => hp r (List.mem_cons_of_mem _ hr))
      (Nat.mod_lt _ (by decide))]
    apply List.map_congr_left
    intro i _
    simp only [Function.comp, Nat.succ_eq_add_one]
    congr 3
    omega

/-- C27: under the round-robin strategy, for a registry of n names that is not empty and
does not change, a coordinator whose counter stands at 0, as the constructor leaves it,
answers the i-th routing call without preferred agent (counting from 0) with the name at
position i mod n of its list of names, which is the iteration order of the registry.  Any
n calls in a row therefore return the list of names, rotated: every registered name exactly
once.  This holds for the first 18446744073709551616 calls; the counter is a `size_t`, and
in a run of any length the position of call i is (i mod 2^64) mod n. -/
theorem C27_round_robin_cycles (sv : Services σ) (c : Coordinator) (b : σ)
    (requests : List UserRequest)
    (hs : c.routing_strategy_ = .RoundRobin) (hne : c.agents_ ≠ [])
    (h0 : c.round_robin_index_ = 0)
    (hp : ∀ request ∈ requests, request.preferred_agent = none) :
    (routeAll sv c b requests).length = requests.length ∧
      routeAll sv c b requests =
        (List.range requests.length).map (fun (i : Nat) =>
          (Except.ok (c.list_agents.getD (i % 18446744073709551616 % c.list_agents.length) "") :
            Except String String)) ∧
      (requests.length ≤ 18446744073709551616 →
        (∀ i, i < requests.length →
          (routeAll sv c b requests)[i]? =
            (c.list_agents[i % c.list_agents.length]?).map Except.ok ∧
          i % c.list_agents.length < c.list_agents.length) ∧
        (∀ j, j + c.list_agents.length ≤ requests.length →
          ((routeAll sv c b requests).drop j).take c.list_agents.length =
              (c.list_agents.rotate j).map Except.ok ∧
            (((routeAll sv c b requests).drop j).take c.list_agents.length).Perm
              (c.list_agents.map Except.ok) ∧
            (sortedKeys c.agents_ → ∀ name ∈ c.list_agents,
              (((routeAll sv c b requests).drop j).take c.list_agents.length).count
                (Except.ok name) = 1))) := by
  have hexact : routeAll sv c b requests =
      (List.range requests.length).map (fun (i : Nat) =>
        (Except.ok (c.list_agents.getD (i % 18446744073709551616 % c.list_agents.length) "") :
          Except String String)) := by
    rw [routeAll_round_robin_exact sv requests c b hs hne hp (by rw [h0]; decide)]
    apply List.map_congr_left
    intro i _
    rw [key_at_eq, h0, Nat.zero_add]
    simp only [Coordinator.list_agents, mapKeys, List.length_map]
  have hpos : 0 < c.list_agents.length := by
    cases hc : c.agents_ with
    | nil => exact absurd hc hne
    | cons first rest => simp [Coordinator.list_agents, mapKeys, hc]
  refine ⟨by rw [hexact]; simp, hexact, ?_⟩
  intro hlen
  have hall : routeAll sv c b requests =
      (List.range requests.length).map (fun (i : Nat) =>
        (Except.ok (c.list_agents.getD (i % c.list_agents.length) "") :
          Except String String)) := by
    rw [routeAll_round_robin sv requests c b hs hne hp (by rw [h0]; omega)]
    apply List.map_congr_left
    intro i _
    rw [key_at_eq, h0, Nat.zero_add]
    simp only [Coordinator.list_agents, mapKeys, List.length_map]
  refine ⟨?_, ?_⟩
  · intro i hi
    have hmod : i % c.list_agents.length < c.list_agents.length := Nat.mod_lt _ hpos
    refine ⟨?_, hmod⟩
    rw [hall, List.getElem?_map, List.getElem?_range hi]
    simp only [Option.map_some', List.getD_eq_getElem?_getD, List.getElem?_eq_getElem hmod,
      Option.getD_some]
  · intro j hj
    have hwin := round_robin_window c.list_agents requests.length j hj
    rw [← hall] at hwin
    have hperm : (((routeAll sv c b requests).drop j).take c.list_agents.length).Perm
        (c.list_agents.map Except.ok) := by
      rw [hwin]
      exact (List.rotate_perm _ _).map _
    refine ⟨hwin, hperm, ?_⟩
    intro hsorted name hname
    rw [hperm.count_eq]
    have hnodup : (c.list_agents.map (Except.ok : String → Except String String)).Nodup :=
      (sortedKeys_nodup c.agents_ hsorted).map (fun a b h => by injection h)
    exact List.count_eq_one_of_mem hnodup (List.mem_map_of_mem _ hname)

/-- C27 witness: three agents, four calls: Ann, Bob, Cy and Ann again. -/
theorem C27_round_robin_cycles_witness :
    trioCoordinator.list_agents = ["Ann", "Bob", "Cy"] ∧
      (routeAll demoServices trioCoordinator 0
        [{ message := "a" }, { message := "b" }, { message := "c" }, { message := "d" }]).take 3
          = [.ok "Ann", .ok "Bob", .ok "Cy"] ∧
      ((routeAll demoServices trioCoordinator 0
        [{ message := "a" }, { message := "b" }, { message := "c" }, { message := "d" }]).drop
          1).take 3 = [.ok "Bob", .ok "Cy", .ok "Ann"] :=
  have h := (C27_round_robin_cycles demoServices trioCoordinator 0
    [{ message := "a" }, { message := "b" }, { message := "c" }, { message := "d" }]
    (by decide) (by decide) (by decide) (by decide)).2.2 (by decide)
  ⟨by decide, (h.2 0 (by decide)).1, (h.2 1 (by decide)).1⟩

theorem contributions_length_le (sv : Services σ) (task : String) (names : List String)
    (sys : System ω σ) : (contributions sv task names sys).length ≤ names.length := by
  induction names generalizing sys with
  | nil => simp [contributions]
  | cons name rest ih =>
    simp only [contributions, List.length_cons]
    split
    · exact Nat.le_succ_of_le (ih _)
    · split
      · simp only [List.length_cons]
        exact Nat.succ_le_succ (ih _)
      · exact Nat.le_succ_of_le (ih _)

/-- C28: in a successful response of `collaborate` the field `agents_used` is the length
of the argument `agent_names`, converted to `int`: it counts every name handed in, also a
name that is not registered, a name whose agent failed and a name that occurs again.  The
responses that were aggregated are those of the contributions, at least one and at most as
many as there are names, so `agents_used` can exceed their number. -/
theorem C28_agents_used_counts_names (sv : Services σ) (sys : System ω σ) (task : String)
    (names : List String) :
    ∀ r, (Coordinator.collaborate sv sys task names).1 = .ok r →
      r.agents_used = toInt32 names.length ∧
      (names.length ≤ 2147483647 → r.agents_used = (names.length : Int)) ∧
      (Coordinator.collaborate_loop sv task names ([], [], sys)).1.length =
        (contributions sv task names sys).length ∧
      0 < (contributions sv task names sys).length ∧
      (contributions sv task names sys).length ≤ names.length := by
  intro r hr
  have hresp := collaborate_loop_responses sv task names [] [] sys
  rw [List.nil_append] at hresp
  have hlen : (Coordinator.collaborate_loop sv task names ([], [], sys)).1.length =
      (contributions sv task names sys).length := by
    rw [hresp, List.length_map]
  simp only [Coordinator.collaborate] at hr
  split at hr
  · cases hr
  · rename_i hempty
    simp only [Except.ok.injEq] at hr
    have hused : r.agents_used = toInt32 names.length := by rw [← hr]
    refine ⟨hused, ?_, hlen, ?_, contributions_length_le sv task names sys⟩
    · intro hbound
      rw [hused]
      exact toInt32_of_range _ (by omega) (by omega)
    · rw [← hlen]
      cases hl : (Coordinator.collaborate_loop sv task names ([], [], sys)).1 with
      | nil => rw [hl] at hempty; simp at hempty
      | cons x xs => simp

/-- C28 witness: four names handed in, of which Bad fails, Zed is not registered and Good
occurs twice; two responses are aggregated and `agents_used` is 4. -/
theorem C28_agents_used_counts_names_witness :
    ∃ r, (Coordinator.collaborate mixedServices (demoSystem goodBadCoordinator) "task"
          ["Good", "Bad", "Zed", "Good"]).1 = .ok r ∧
      r.agents_used = 4 ∧
      (contributions mixedServices "task" ["Good", "Bad", "Zed", "Good"]
        (demoSystem goodBadCoordinator)).length = 2 :=
  ⟨_, rfl,
    ((C28_agents_used_counts_names mixedServices (demoSystem goodBadCoordinator) "task"
      ["Good", "Bad", "Zed", "Good"] _ rfl).2.1 (by decide)),
    by decide⟩

end Routing

/-! ## Properties of the agent at its limits -/

section AgentLimits

variable {ω σ : Type}

/-- The initialize request of a client is answered with a result by every dispatcher. -/
theorem initialize_succeeds (c : McpClient) (s : McpServer ω)
    (client_name client_version : String) (w : ω) :
    ∃ init_result, c.initialize_ s client_name client_version w =
      (.ok init_result, { next_id_ := c.next_id_ + 1 },
        { s with client_info_ := some { name := client_name, version := client_version }
                 initialized_ := true }, w) := by
  simp +decide [McpClient.initialize_, McpClient.send_request, McpServer.handle_request,
    from_json_sent_request, McpServer.dispatch, McpServer.handle_initialize,
    McpInitializeParams.from_json, McpClientInfo.from_json, Json.value_string, Json.set,
    Json.get?, mapInsert, mapFind, Json.get_string, McpCapabilities.to_json,
    McpCapabilities.from_json, parse_response_success, McpClient.decode_initialize_result,
    McpInitializeResult.to_json, McpServerInfo.to_json, Json.contains]

/-- The constructor of an agent succeeds for every configuration and stores it as it
is. -/
theorem new_keeps_config (config : AgentConfig) (builtin : List (ToolRegistration ω)) (w : ω) :
    ∃ a, (Agent.new config builtin w).1 = .ok a ∧ a.config_ = config ∧
      (Agent.new config builtin w).2 = w := by
  obtain ⟨init_result, h⟩ := initialize_succeeds ({ next_id_ := 1 } : McpClient)
    (McpServer.new config.name config.version : McpServer ω) config.name config.version w
  simp only [Agent.new, h]
  exact ⟨_, rfl, rfl, trivial⟩

/-- C29: the constructor of an agent accepts every configuration, also one whose
`max_tool_iterations` is 0 or negative.  For such an agent `process` appends the user
message to the history and returns at once: the backend is not called (its state is the
one handed in, and a backend that records its answers has recorded none), no tool runs
(the world, the dispatcher and the client are as before), and the result is the successful
response with `stopped_by_limit` true, `iterations` 0, no tool call made and the fixed
text about the limit. -/
theorem C29_nonpositive_limit (dump : Json → String) (backend : Backend σ) (a : Agent ω)
    (user_message : String) (b : σ) (w : ω)
    (hlimit : a.config_.max_tool_iterations ≤ 0) :
    a.process dump backend user_message b w =
        { result := .ok
            { content := "Maximum tool iterations reached. Please simplify your request."
              tool_calls_made := []
              iterations := 0
              stopped_by_limit := true }
          agent := { a with conversation_history_ := a.conversation_history_ ++
            [{ role := ChatRole.User, content := user_message }] }
          backend := b
          world := w } ∧
      (a.process dump (recording backend) user_message (b, []) w).backend = (b, []) ∧
      (∀ (builtin : List (ToolRegistration ω)) (w0 : ω),
        ∃ a0, (Agent.new a.config_ builtin w0).1 = .ok a0 ∧ a0.config_ = a.config_) := by
  have hzero : a.config_.max_tool_iterations.toNat = 0 := Int.toNat_eq_zero.2 hlimit
  refine ⟨?_, ?_, ?_⟩
  · simp only [Agent.process, hzero, Agent.process_loop]
  · simp only [Agent.process, hzero, Agent.process_loop]
  · intro builtin w0
    obtain ⟨a0, h1, h2, -⟩ := new_keeps_config a.config_ builtin w0
    exact ⟨a0, h1, h2⟩

/-- C29 witness: the demo agent with the limit -3 and a backend that would request tools
in every round. -/
theorem C29_nonpositive_limit_witness :
    ((demoAgent (-3)).process demoDump (recording eagerBackend) "hello" (0, []) 0).result =
        .ok { content := "Maximum tool iterations reached. Please simplify your request."
              tool_calls_made := []
              iterations := 0
              stopped_by_limit := true } ∧
      ((demoAgent (-3)).process demoDump (recording eagerBackend) "hello" (0, []) 0).backend =
        (0, []) ∧
      ((demoAgent (-3)).process demoDump (recording eagerBackend) "hello" (0, []) 0).world = 0 :=
  have h := (C29_nonpositive_limit demoDump (recording eagerBackend) (demoAgent (-3)) "hello"
    (0, []) 0 (by decide)).1
  ⟨by rw [h], by rw [h], by rw [h]⟩

/-- The text of a tool message is the serialized payload. -/
theorem result_content_eq (dump : Json → String)
    (tool_result : Except JsonRpcError McpToolResult) :
    Agent.result_content dump tool_result = dump (toolPayload tool_result) := by
  cases tool_result <;> rfl

/-- The member success of the payload tells a returned result from a failed call. -/
theorem toolPayload_success (tool_result : Except JsonRpcError McpToolResult) :
    ((toolPayload tool_result).get? "success" = some (.bool false) ↔
        ∃ e, tool_result = .error e) ∧
      ((toolPayload tool_result).get? "success" = some (.bool true) ↔
        ∃ r, tool_result = .ok r) ∧
      (toolPayload tool_result).get? "isError" = none := by
  cases tool_result with
  | error e =>
    refine ⟨⟨fun _ => ⟨e, rfl⟩, fun _ => by rfl⟩, ⟨fun h => ?_, fun h => ?_⟩, by rfl⟩
    · simp +decide [toolPayload, Json.get?, mapFind] at h
    · obtain ⟨r, hr⟩ := h
      cases hr
  | ok r =>
    refine ⟨⟨fun h => ?_, fun h => ?_⟩, ⟨fun _ => ⟨r, rfl⟩, fun _ => by rfl⟩, by rfl⟩
    · simp +decide [toolPayload, Json.get?, mapFind] at h
    · obtain ⟨e, he⟩ := h
      cases he

/-- C30: when a handler returns a result on validated arguments, error-flagged or not,
`McpClient::call_tool` returns that result and `process` writes a tool message, linked to
the call, whose content is the serialized object with the members content (the content
blocks of the result) and success (true).  The object has no member for the error flag:
it is the object written for the result with the same blocks and the flag cleared.  The
member success is false exactly when `call_tool` returned an error, that is when the call
failed at the protocol level. -/
theorem C30_error_flag_is_dropped (dump : Json → String) (a : Agent ω)
    (response : AgentResponse) (w w' : ω) (tc : ToolCall) (rest : List ToolCall)
    (tool : McpTool) (handler : ToolHandler ω) (b : Bool) (R : McpToolResult)
    (hs : a.mcp_server_.initialized_ = true)
    (ht : mapFind a.mcp_server_.tools_ tc.function.name = some tool)
    (hh : mapFind a.mcp_server_.tool_handlers_ tc.function.name = some handler)
    (hv : McpValidator.validate_tool_params tc.function.arguments tool.input_schema = .ok b)
    (hr : handler tc.function.arguments w = (.ok R, w')) :
    a.mcp_client_.call_tool a.mcp_server_ tc.function.name tc.function.arguments w =
        (.ok R, { next_id_ := a.mcp_client_.next_id_ + 1 }, a.mcp_server_, w') ∧
      Agent.run_tool_calls dump (tc :: rest) a response w =
        Agent.run_tool_calls dump rest
          { a with
            mcp_client_ := { next_id_ := a.mcp_client_.next_id_ + 1 }
            conversation_history_ := a.conversation_history_ ++
              [{ role := ChatRole.Tool
                 content := dump (.obj [("content", .arr R.content), ("success", .bool true)])
                 tool_calls := [], tool_call_id := tc.id }] }
          { response with
            tool_calls_made := response.tool_calls_made ++ [tc.function.name] }
          w' ∧
      toolPayload (.ok R) = .obj [("content", .arr R.content), ("success", .bool true)] ∧
      toolPayload (.ok R) = toolPayload (.ok { R with is_error := false }) ∧
      (∀ tool_result : Except JsonRpcError McpToolResult,
        Agent.result_content dump tool_result = dump (toolPayload tool_result) ∧
        ((toolPayload tool_result).get? "success" = some (.bool false) ↔
          ∃ e, tool_result = .error e) ∧
        ((toolPayload tool_result).get? "success" = some (.bool true) ↔
          ∃ r, tool_result = .ok r) ∧
        (toolPayload tool_result).get? "isError" = none) := by
  have hcall := handle_call_tool_of_handler a.mcp_server_ tc.function.name
    tc.function.arguments w tool handler b hs ht hh hv
  rw [hr] at hcall
  simp only at hcall
  have hclient := call_tool_of_result a.mcp_client_ a.mcp_server_ tc.function.name
    tc.function.arguments w w' R hcall
  refine ⟨hclient, ?_, rfl, rfl, fun tool_result =>
    ⟨result_content_eq dump tool_result, toolPayload_success tool_result⟩⟩
  simp only [Agent.run_tool_calls, hclient]
  rfl

/-- C30 witness: the tool flag returns an error-flagged result; the tool message written
for it is the one for a success. -/
theorem C30_error_flag_is_dropped_witness :
    flaggingHandler (.obj []) 0 = (.ok (McpToolResult.error_result "disk full"), 1) ∧
      (McpToolResult.error_result "disk full").is_error = true ∧
      (Agent.run_tool_calls demoDump
          [{ id := "call_f", type := "function"
             function := { name := "flag", arguments := .obj [] } }]
          (agentWith 2 extendedServer) {} 0).1.conversation_history_ =
        [{ role := ChatRole.System, content := "be brief" },
         { role := ChatRole.Tool, content := "success", tool_call_id := "call_f" }] :=
  ⟨rfl, rfl, by
    rw [(C30_error_flag_is_dropped demoDump (agentWith 2 extendedServer) {} 0 1
      { id := "call_f", type := "function"
        function := { name := "flag", arguments := .obj [] } }
      [] { name := "flag", description := "Returns a flagged result", input_schema := .obj [] }
      flaggingHandler true (McpToolResult.error_result "disk full")
      (by decide) (by decide) (by rfl) (by decide) (by rfl)).2.1]
    rfl⟩

end AgentLimits

/-! ## Properties of the code with handlers that throw a value of any type -/

section FullModel

variable {ω σ : Type}

/-- A tools/call request on a dispatcher whose handlers may throw anything: the answer of
`handle_call_tool` as a response object, or the value that has left it. -/
theorem full_handle_request_call (s : Full.McpServer ω) (j : Json) (r : JsonRpcRequest)
    (w : ω) (hj : JsonRpcRequest.from_json j = .ok r) (hm : r.method = "tools/call") :
    s.handle_request j w =
      ((match (s.handle_call_tool r.params w).1 with
        | .returned (.ok v) =>
          .returned (JsonRpcResponse.success v (r.id.getD make_null_id)).to_json
        | .returned (.error e) =>
          .returned (JsonRpcResponse.error_response e (r.id.getD make_null_id)).to_json
        | .escaped thrown => .escaped thrown),
       s, (s.handle_call_tool r.params w).2) := by
  simp +decide only [Full.McpServer.handle_request, hj, Full.McpServer.dispatch, hm,
    if_true, if_false]
  rcases s.handle_call_tool r.params w with ⟨out, w'⟩
  cases out with
  | returned x => cases x <;> (cases r.id <;> rfl)
  | escaped thrown => rfl

/-- The call of a tool through the client, from the table of the dispatcher to the value
handed back. -/
theorem full_call_tool_eq_spec (c : McpClient) (s : Full.McpServer ω) (tool_name : String)
    (arguments : Json) (w : ω) :
    Full.McpClient.call_tool c s tool_name arguments w =
      ((specToolCall s tool_name arguments w).1, { next_id_ := c.next_id_ + 1 }, s,
        (specToolCall s tool_name arguments w).2) := by
  have hreq := full_handle_request_call s
    (JsonRpcRequest.to_json
      { method := "tools/call"
        params := some ((Json.null.set "name" (.str tool_name)).set "arguments" arguments)
        id := some (.int c.next_id_) }) _ w (from_json_sent_request _ _ _) rfl
  simp only [Full.McpClient.call_tool, Full.McpClient.send_request, hreq]
  simp only [Full.McpServer.handle_call_tool, specToolCall, call_tool_params]
  cases hi : s.initialized_ with
  | false => simp +decide [parse_response_error]
  | true =>
    simp only [Bool.not_true, Bool.false_eq_true, if_false]
    cases ht : mapFind s.tools_ tool_name with
    | none => simp +decide [parse_response_error]
    | some tool =>
      simp only []
      cases hh : mapFind s.tool_handlers_ tool_name with
      | none => simp +decide [parse_response_error]
      | some handler =>
        simp only []
        cases hv : McpValidator.validate_tool_params arguments tool.input_schema with
        | error e => simp +decide [parse_response_error, wireError]
        | ok b =>
          simp only []
          rcases hout : handler arguments w with ⟨out, w'⟩
          cases out with
          | ok res => simp +decide [parse_response_success, tool_result_round_trip]
          | err e => simp +decide [parse_response_error, wireError]
          | throws what => simp +decide [parse_response_error]
          | throws_other thrown => simp +decide

/-- A run of tool calls, from the table of the dispatcher: the loop leaves the messages,
the names and the world of `specRound`, the client has used one request id per call made,
and the dispatcher is as before. -/
theorem full_run_tool_calls_eq_spec (dump : Json → String) (calls : List ToolCall)
    (a : Full.Agent ω) (response : AgentResponse) (w : ω) :
    Full.Agent.run_tool_calls dump calls a response w =
      ((match (specRound dump a.mcp_server_ calls w).thrown with
        | none =>
          .returned { response with
            tool_calls_made :=
              response.tool_calls_made ++ (specRound dump a.mcp_server_ calls w).names }
        | some thrown => .escaped thrown),
       { a with
         mcp_client_ :=
           { next_id_ := a.mcp_client_.next_id_ +
               (((specRound dump a.mcp_server_ calls w).names.length +
                 (if (specRound dump a.mcp_server_ calls w).thrown.isSome then 1 else 0) :
                   Nat) : Int) }
         conversation_history_ :=
           a.conversation_history_ ++ (specRound dump a.mcp_server_ calls w).messages },
       (specRound dump a.mcp_server_ calls w).world) := by
  induction calls generalizing a response w with
  | nil =>
    simp [Full.Agent.run_tool_calls, specRound]
  | cons tool_call rest ih =>
    obtain ⟨out, w', hx⟩ : ∃ out w', specToolCall a.mcp_server_ tool_call.function.name
        tool_call.function.arguments w = (out, w') := ⟨_, _, rfl⟩
    simp only [Full.Agent.run_tool_calls, full_call_tool_eq_spec, specRound, hx]
    cases out with
    | escaped thrown =>
      simp
    | returned tool_result =>
      simp only [ih, result_content_eq]
      refine Prod.ext ?_ (Prod.ext ?_ rfl)
      · simp only
        cases (specRound dump a.mcp_server_ rest w').thrown <;> simp
      · simp only [List.length_cons, List.append_assoc, List.singleton_append]
        congr 2
        push_cast
        ring

/-- Recording the answers does not change what the loop does. -/
theorem full_process_loop_recording (dump : Json → String) (backend : Backend σ) (n : Nat)
    (iteration : Int) (a : Full.Agent ω) (response : AgentResponse) (b : σ)
    (log : List (Except LlmError ChatMessage)) (w : ω) :
    (Full.Agent.process_loop dump (recording backend) n iteration a response (b, log) w).result =
        (Full.Agent.process_loop dump backend n iteration a response b w).result ∧
      (Full.Agent.process_loop dump (recording backend) n iteration a response (b, log) w).agent =
        (Full.Agent.process_loop dump backend n iteration a response b w).agent ∧
      (Full.Agent.process_loop dump (recording backend) n iteration a response (b, log) w).world =
        (Full.Agent.process_loop dump backend n iteration a response b w).world ∧
      (Full.Agent.process_loop dump (recording backend) n iteration a response (b, log)
        w).backend.1 =
        (Full.Agent.process_loop dump backend n iteration a response b w).backend := by
  induction n generalizing iteration a response b log w with
  | zero => exact ⟨rfl, rfl, rfl, rfl⟩
  | succ n ih =>
    simp only [Full.Agent.process_loop, recording]
    rcases hb : backend a.conversation_history_ a.get_function_schemas b with ⟨out, b'⟩
    cases out with
    | error e => exact ⟨rfl, rfl, rfl, rfl⟩
    | ok chat_result =>
      simp only
      by_cases hempty : chat_result.tool_calls.isEmpty = true
      · simp [hempty]
      · simp only [hempty, Bool.false_eq_true, if_false]
        rcases Full.Agent.run_tool_calls dump chat_result.tool_calls
          { a with conversation_history_ := a.conversation_history_ ++
            [{ role := ChatRole.Assistant, content := chat_result.content,
               tool_calls := chat_result.tool_calls }] }
          { response with iterations := iteration + 1 } w with ⟨out, a2, w'⟩
        cases out with
        | escaped thrown => exact ⟨rfl, rfl, rfl, rfl⟩
        | returned response' => exact ih _ _ _ _ _ _

/-- A round that no thrown value has ended has left one tool message and one name per
requested call, in request order. -/
theorem specRound_complete (dump : Json → String) (s : Full.McpServer ω)
    (calls : List ToolCall) (w : ω) (h : (specRound dump s calls w).thrown = none) :
    (specRound dump s calls w).names = calls.map (fun tc => tc.function.name) ∧
      (specRound dump s calls w).messages.map messageShape =
        calls.map (fun tc => (ChatRole.Tool, tc.id, ([] : List ToolCall))) := by
  induction calls generalizing w with
  | nil => exact ⟨rfl, rfl⟩
  | cons tc rest ih =>
    obtain ⟨out, w', hx⟩ : ∃ out w', specToolCall s tc.function.name
        tc.function.arguments w = (out, w') := ⟨_, _, rfl⟩
    simp only [specRound, hx] at h ⊢
    cases out with
    | escaped thrown => simp at h
    | returned tool_result =>
      simp only at h ⊢
      obtain ⟨h1, h2⟩ := ih w' h
      exact ⟨by rw [List.map_cons, h1], by rw [List.map_cons, List.map_cons, h2]; rfl⟩

theorem answersOf_nil : answersOf ([] : List (Except LlmError ChatMessage)) = [] := rfl

theorem answersOf_cons_error (e : LlmError) (log : List (Except LlmError ChatMessage)) :
    answersOf (Except.error e :: log) = answersOf log := by
  simp [answersOf, List.filterMap_cons]

/-- What the loop of `process` leaves is laid down by the answers of the backend and the
table of the dispatcher: the transcript grows by the messages of `specRounds`, the world is
the one `specRounds` reaches, the dispatcher is as before, a thrown value leaves the loop
exactly when it leaves a tool call of `specRounds`, and a returned response records the
names of `specRounds`. -/
theorem full_process_loop_trace (dump : Json → String) (backend : Backend σ) (n : Nat)
    (iteration : Int) (a : Full.Agent ω) (response : AgentResponse) (b : σ)
    (log : List (Except LlmError ChatMessage)) (w : ω) :
    ∃ newlog,
      (Full.Agent.process_loop dump (recording backend) n iteration a response (b, log)
          w).backend.2 = log ++ newlog ∧
        newlog.length ≤ n ∧
        (∀ e ∈ newlog, ∃ history functions st, e = (backend history functions st).1) ∧
        (Full.Agent.process_loop dump (recording backend) n iteration a response (b, log)
            w).agent.conversation_history_ =
          a.conversation_history_ ++
            (specRounds dump a.mcp_server_ (answersOf newlog) w).messages ∧
        (Full.Agent.process_loop dump (recording backend) n iteration a response (b, log)
            w).world = (specRounds dump a.mcp_server_ (answersOf newlog) w).world ∧
        (Full.Agent.process_loop dump (recording backend) n iteration a response (b, log)
            w).agent.mcp_server_ = a.mcp_server_ ∧
        (Full.Agent.process_loop dump (recording backend) n iteration a response (b, log)
            w).agent.config_ = a.config_ ∧
        (∀ thrown,
          (Full.Agent.process_loop dump (recording backend) n iteration a response (b, log)
              w).result = .escaped thrown ↔
            (specRounds dump a.mcp_server_ (answersOf newlog) w).thrown = some thrown) ∧
        (∀ r,
          (Full.Agent.process_loop dump (recording backend) n iteration a response (b, log)
              w).result = .returned (.ok r) →
            r.tool_calls_made = response.tool_calls_made ++
              (specRounds dump a.mcp_server_ (answersOf newlog) w).names) ∧
        ((specRounds dump a.mcp_server_ (answersOf newlog) w).thrown = none →
          (specRounds dump a.mcp_server_ (answersOf newlog) w).names =
              requestedNames (answersOf newlog) ∧
            (specRounds dump a.mcp_server_ (answersOf newlog) w).messages.map messageShape =
              expectedShapes (answersOf newlog)) := by
  induction n generalizing iteration a response b log w with
  | zero =>
    refine ⟨[], (by simp [Full.Agent.process_loop]), le_refl _, fun e he => (by cases he), ?_⟩
    simp [Full.Agent.process_loop, answersOf_nil, specRounds, requestedNames, expectedShapes]
  | succ n ih =>
    simp only [Full.Agent.process_loop, recording]
    rcases hb : backend a.conversation_history_ a.get_function_schemas b with ⟨out, b'⟩
    have hmem : ∃ history functions st, out = (backend history functions st).1 :=
      ⟨_, _, _, by rw [hb]⟩
    cases out with
    | error e =>
      refine ⟨[.error e], rfl, (by simp), ?_, ?_⟩
      · intro x hx
        simp only [List.mem_singleton] at hx
        rw [hx]
        exact hmem
      · simp [answersOf_cons_error, answersOf_nil, specRounds, requestedNames, expectedShapes]
    | ok m =>
      simp only
      by_cases hempty : m.tool_calls.isEmpty = true
      · refine ⟨[.ok m], (by simp [hempty]), (by simp), ?_, ?_⟩
        · intro x hx
          simp only [List.mem_singleton] at hx
          rw [hx]
          exact hmem
        · have hnil : m.tool_calls = [] := List.isEmpty_iff.1 hempty
          simp [hempty, answersOf_cons_ok, answersOf_nil, specRounds, requestedNames,
            expectedShapes, hnil, messageShape]
      · have hne : m.tool_calls.isEmpty = false := by simpa using hempty
        simp only [hne, Bool.false_eq_true, if_false, full_run_tool_calls_eq_spec]
        cases hR : (specRound dump a.mcp_server_ m.tool_calls w).thrown with
        | some t =>
          refine ⟨[.ok m], (by simp), (by simp), ?_, ?_⟩
          · intro x hx
            simp only [List.mem_singleton] at hx
            rw [hx]
            exact hmem
          · simp [answersOf_cons_ok, answersOf_nil, specRounds, hne, hR]
        | none =>
          simp only
          obtain ⟨newlog, h1, h2, h3, h4, h5, h6, h7, h8, h9, h10⟩ := ih (iteration + 1)
            { a with
              mcp_client_ :=
                { next_id_ := a.mcp_client_.next_id_ +
                    (((specRound dump a.mcp_server_ m.tool_calls w).names.length +
                      (if (none : Option String).isSome then 1 else 0) : Nat) : Int) }
              conversation_history_ :=
                (a.conversation_history_ ++
                  [{ role := ChatRole.Assistant, content := m.content
                     tool_calls := m.tool_calls }]) ++
                  (specRound dump a.mcp_server_ m.tool_calls w).messages }
            { response with
              iterations := iteration + 1
              tool_calls_made := response.tool_calls_made ++
                (specRound dump a.mcp_server_ m.tool_calls w).names }
            b' (log ++ [.ok m]) (specRound dump a.mcp_server_ m.tool_calls w).world
          simp only at h1 h4 h5 h6 h7 h8 h9 h10
          refine ⟨.ok m :: newlog, ?_, ?_, ?_, ?_⟩
          · rw [h1]; simp
          · simp only [List.length_cons]; omega
          · intro x hx
            rcases List.mem_cons.1 hx with hx | hx
            · rw [hx]; exact hmem
            · exact h3 x hx
          · simp only [answersOf_cons_ok]
            simp only [specRounds, hne, hR, Bool.false_eq_true, if_false]
            refine ⟨?_, h5, h6, h7, h8, ?_, ?_⟩
            · rw [h4]
              simp only [List.append_assoc, List.singleton_append, List.cons_append,
                List.nil_append]
            · intro r hr
              rw [h9 r hr, List.append_assoc]
            · intro hnone
              obtain ⟨hn, hs⟩ := h10 hnone
              obtain ⟨hrn, hrs⟩ := specRound_complete dump a.mcp_server_ m.tool_calls w hR
              constructor
              · rw [hn, hrn]
                simp only [requestedNames, List.flatMap_cons]
              · simp only [List.map_append, List.map_cons, hs, hrs, expectedShapes,
                  List.flatMap_cons, messageShape, List.cons_append]

/-- C5 (as stated, refuted): on the initialized dispatcher `fullServer` the registered tool
refuse has a handler that returns an error labelled invalid_params, and tools/call answers
with that error unchanged: the response is neither a success result nor an error with a
domain-level code (its code is -32602).  The registered tool abort has a handler that
throws a value of type `int`: no `catch` clause names it, so the value leaves
`handle_request` and there is no response at all; the handler has run. -/
theorem C5_handler_error_counterexample :
    fullServer.initialized_ = true ∧ "refuse" ∈ fullServer.list_tool_names ∧
      "abort" ∈ fullServer.list_tool_names ∧
      (∃ response,
        (fullServer.handle_request (callRequest "refuse" (.obj []) 2).to_json 0).1 =
          .returned response ∧
        responseErrorCode response = some (.int (-32602)) ∧
        response.get? "result" = none) ∧
      ¬ domainLevel (-32602) ∧
      (fullServer.handle_request (callRequest "abort" (.obj []) 2).to_json 0).1 =
        .escaped "42" ∧
      (fullServer.handle_request (callRequest "abort" (.obj []) 2).to_json 0).2.2 = 1 := by
  refine ⟨by decide, by decide, by decide, ⟨_, rfl, by decide, by decide⟩, by decide,
    by rfl, by rfl⟩

/-- C5 (amended): on an initialized dispatcher, a tools/call that names a registered tool
(whatever the rest of params is) ends in exactly one of five ways. (1) The arguments fail
validation: error response with code invalid_tool_params, handler not run. Otherwise the
handler runs once on the arguments, and (2) it returns a result: success response carrying
that result; (3) it returns an error: error response carrying that very error, code
unchanged, which is a domain-level code exactly when the handler chose one; (4) it throws
an exception derived from `std::exception`: error response with code tool_execution_failed
(-32002); (5) it throws a value of any other type: that value leaves `handle_request`, and
no response is returned.  In every case the dispatcher is left as it was and the world is
the one the handler left. -/
theorem C5_call_outcomes (s : Full.McpServer ω) (j : Json) (r : JsonRpcRequest)
    (p : Json) (n : String) (w : ω) (tool : McpTool) (handler : Full.ToolHandler ω)
    (hs : s.initialized_ = true) (hj : JsonRpcRequest.from_json j = .ok r)
    (hm : r.method = "tools/call") (hp : r.params = some p)
    (hn : p.get? "name" = some (.str n))
    (ht : mapFind s.tools_ n = some tool) (hh : mapFind s.tool_handlers_ n = some handler) :
    (∃ e : JsonRpcError,
        McpValidator.validate_tool_params ((p.get? "arguments").getD (.obj []))
          tool.input_schema = .error e ∧
        e.code = JsonRpcErrorCode.invalid_tool_params ∧
        s.handle_request j w =
          (.returned (JsonRpcResponse.error_response e (r.id.getD make_null_id)).to_json,
            s, w)) ∨
    (∃ (b : Bool) (res : McpToolResult) (w' : ω),
        McpValidator.validate_tool_params ((p.get? "arguments").getD (.obj []))
          tool.input_schema = .ok b ∧
        handler ((p.get? "arguments").getD (.obj [])) w = (.ok res, w') ∧
        s.handle_request j w =
          (.returned (JsonRpcResponse.success res.to_json (r.id.getD make_null_id)).to_json,
            s, w')) ∨
    (∃ (b : Bool) (e : JsonRpcError) (w' : ω),
        McpValidator.validate_tool_params ((p.get? "arguments").getD (.obj []))
          tool.input_schema = .ok b ∧
        handler ((p.get? "arguments").getD (.obj [])) w = (.err e, w') ∧
        s.handle_request j w =
          (.returned (JsonRpcResponse.error_response e (r.id.getD make_null_id)).to_json,
            s, w') ∧
        responseErrorCode (JsonRpcResponse.error_response e (r.id.getD make_null_id)).to_json
          = some (.int e.code)) ∨
    (∃ (b : Bool) (what : String) (w' : ω),
        McpValidator.validate_tool_params ((p.get? "arguments").getD (.obj []))
          tool.input_schema = .ok b ∧
        handler ((p.get? "arguments").getD (.obj [])) w = (.throws what, w') ∧
        s.handle_request j w =
          (.returned (JsonRpcResponse.error_response
              { code := JsonRpcErrorCode.tool_execution_failed,
                message := "Tool execution failed: " ++ what }
              (r.id.getD make_null_id)).to_json, s, w') ∧
        responseErrorCode (JsonRpcResponse.error_response
              { code := JsonRpcErrorCode.tool_execution_failed,
                message := "Tool execution failed: " ++ what }
              (r.id.getD make_null_id)).to_json = some (.int (-32002))) ∨
    (∃ (b : Bool) (thrown : String) (w' : ω),
        McpValidator.validate_tool_params ((p.get? "arguments").getD (.obj []))
          tool.input_schema = .ok b ∧
        handler ((p.get? "arguments").getD (.obj [])) w = (.throws_other thrown, w') ∧
        s.handle_request j w = (.escaped thrown, s, w')) := by
  rw [full_handle_request_call s j r w hj hm]
  simp only [Full.McpServer.handle_call_tool, hs, hp, call_params_of_name p n hn, ht, hh,
    Bool.not_true, Bool.false_eq_true, if_false]
  cases hv : McpValidator.validate_tool_params ((p.get? "arguments").getD (.obj []))
      tool.input_schema with
  | error e =>
    exact Or.inl ⟨e, rfl, validate_tool_params_code _ _ _ hv, rfl⟩
  | ok b =>
    right
    simp only []
    rcases hh' : handler ((p.get? "arguments").getD (.obj [])) w with ⟨out, w'⟩
    cases out with
    | ok res => exact Or.inl ⟨b, res, w', rfl, rfl, rfl⟩
    | err e =>
      exact Or.inr (Or.inl ⟨b, e, w', rfl, rfl, rfl, responseErrorCode_error_response _ _⟩)
    | throws what =>
      exact Or.inr (Or.inr (Or.inl
        ⟨b, what, w', rfl, rfl, rfl, responseErrorCode_error_response _ _⟩))
    | throws_other thrown =>
      exact Or.inr (Or.inr (Or.inr ⟨b, thrown, w', rfl, rfl, rfl⟩))

/-- C5 witness: on `fullServer` the tool abort throws a value of type `int`; the value
leaves `handle_request`, the dispatcher is as before and the handler has run once. -/
theorem C5_call_outcomes_witness :
    fullServer.handle_request (callRequest "abort" (.obj []) 2).to_json 0 =
      (.escaped "42", fullServer, 1) := by
  have h := C5_call_outcomes fullServer (callRequest "abort" (.obj []) 2).to_json
    (callRequest "abort" (.obj []) 2)
    ((Json.null.set "name" (.str "abort")).set "arguments" (.obj []))
    "abort" 0 { name := "abort", description := "Throws an int", input_schema := .obj [] }
    abortHandler (by decide) (by rfl) (by decide) (by rfl) (by decide) (by decide)
    (by rfl)
  rcases h with ⟨e, hv, -⟩ | ⟨b, res, w', -, hr, -⟩ | ⟨b, e, w', -, hr, -⟩ |
    ⟨b, what, w', -, hr, -⟩ | ⟨b, thrown, w', -, hr, hq⟩
  · have hok : McpValidator.validate_tool_params
        ((((Json.null.set "name" (.str "abort")).set "arguments" (.obj [])).get?
          "arguments").getD (.obj [])) (.obj []) = .ok true := by rfl
    rw [hok] at hv
    cases hv
  · exact absurd hr (by simp [abortHandler])
  · exact absurd hr (by simp [abortHandler])
  · exact absurd hr (by simp [abortHandler])
  · have h1 : thrown = "42" ∧ w' = 1 := by
      simp only [abortHandler] at hr
      injection hr with h1 h2
      injection h1 with h1
      exact ⟨h1.symm, h2.symm⟩
    obtain ⟨rfl, rfl⟩ := h1
    exact hq

/-- The loop of `process` returns an error only when the backend has answered with an
error. -/
theorem full_process_loop_error (dump : Json → String) (backend : Backend σ) (n : Nat)
    (iteration : Int) (a : Full.Agent ω) (response : AgentResponse) (b : σ) (w : ω)
    (err : String)
    (h : (Full.Agent.process_loop dump backend n iteration a response b w).result =
      .returned (.error err)) :
    ∃ history functions st e,
      (backend history functions st).1 = .error e ∧ err = "LLM error: " ++ e.message := by
  induction n generalizing iteration a response b w with
  | zero => simp [Full.Agent.process_loop] at h
  | succ n ih =>
    simp only [Full.Agent.process_loop] at h
    rcases hb : backend a.conversation_history_ a.get_function_schemas b with ⟨out, b'⟩
    rw [hb] at h
    cases out with
    | error e =>
      simp only [Full.Outcome.returned.injEq, Except.error.injEq] at h
      exact ⟨_, _, _, e, by rw [hb], h.symm⟩
    | ok m =>
      simp only at h
      by_cases hempty : m.tool_calls.isEmpty = true
      · simp [hempty] at h
      · simp only [hempty, Bool.false_eq_true, if_false] at h
        rcases hr : Full.Agent.run_tool_calls dump m.tool_calls
          { a with conversation_history_ := a.conversation_history_ ++
            [{ role := ChatRole.Assistant, content := m.content,
               tool_calls := m.tool_calls }] }
          { response with iterations := iteration + 1 } w with ⟨out, a2, w'⟩
        rw [hr] at h
        cases out with
        | escaped thrown => simp at h
        | returned response' => exact ih _ _ _ _ _ h

/-- A value leaves a tool call only when the handler registered for the tool has thrown
it, and it is no exception object. -/
theorem specToolCall_escaped (s : Full.McpServer ω) (tool_name : String) (arguments : Json)
    (w w' : ω) (thrown : String)
    (h : specToolCall s tool_name arguments w = (.escaped thrown, w')) :
    ∃ handler, mapFind s.tool_handlers_ tool_name = some handler ∧
      handler arguments w = (.throws_other thrown, w') := by
  simp only [specToolCall] at h
  split at h
  · cases h
  · split at h
    · cases h
    · split at h
      · cases h
      · next handler hh =>
        split at h
        · cases h
        · rcases hout : handler arguments w with ⟨out, w2⟩
          rw [hout] at h
          cases out with
          | ok r => cases h
          | err e => cases h
          | throws what => cases h
          | throws_other t =>
            simp only [Prod.mk.injEq, Full.Outcome.escaped.injEq] at h
            exact ⟨handler, hh, by rw [← h.1, ← h.2]; exact hout⟩

/-- A value ends a round only when a handler has thrown it. -/
theorem specRound_thrown (dump : Json → String) (s : Full.McpServer ω)
    (calls : List ToolCall) (w : ω) (thrown : String)
    (h : (specRound dump s calls w).thrown = some thrown) :
    ∃ name handler arguments w0 w1, mapFind s.tool_handlers_ name = some handler ∧
      handler arguments w0 = (.throws_other thrown, w1) := by
  induction calls generalizing w with
  | nil => simp [specRound] at h
  | cons tc rest ih =>
    obtain ⟨out, w', hx⟩ : ∃ out w', specToolCall s tc.function.name
        tc.function.arguments w = (out, w') := ⟨_, _, rfl⟩
    simp only [specRound, hx] at h
    cases out with
    | escaped t =>
      simp only [Option.some.injEq] at h
      subst h
      obtain ⟨handler, hh, ho⟩ := specToolCall_escaped s _ _ w w' t hx
      exact ⟨_, handler, _, w, w', hh, ho⟩
    | returned tool_result => exact ih w' h

/-- A value ends the rounds only when a handler has thrown it. -/
theorem specRounds_thrown (dump : Json → String) (s : Full.McpServer ω)
    (answers : List ChatMessage) (w : ω) (thrown : String)
    (h : (specRounds dump s answers w).thrown = some thrown) :
    ∃ name handler arguments w0 w1, mapFind s.tool_handlers_ name = some handler ∧
      handler arguments w0 = (.throws_other thrown, w1) := by
  induction answers generalizing w with
  | nil => simp [specRounds] at h
  | cons m later ih =>
    simp only [specRounds] at h
    split at h
    · simp at h
    · cases hR : (specRound dump s m.tool_calls w).thrown with
      | some t =>
        simp only [hR, Option.some.injEq] at h
        subst h
        exact specRound_thrown dump s m.tool_calls w t hR
      | none =>
        simp only [hR] at h
        exact ih _ h

/-- The names and the shapes of the messages of a round are a beginning of those that the
requested calls ask for. -/
theorem specRound_prefix (dump : Json → String) (s : Full.McpServer ω)
    (calls : List ToolCall) (w : ω) :
    (specRound dump s calls w).names <+: calls.map (fun tc => tc.function.name) ∧
      (specRound dump s calls w).messages.map messageShape <+:
        calls.map (fun tc => (ChatRole.Tool, tc.id, ([] : List ToolCall))) := by
  induction calls generalizing w with
  | nil => exact ⟨List.prefix_refl _, List.prefix_refl _⟩
  | cons tc rest ih =>
    obtain ⟨out, w', hx⟩ : ∃ out w', specToolCall s tc.function.name
        tc.function.arguments w = (out, w') := ⟨_, _, rfl⟩
    simp only [specRound, hx]
    cases out with
    | escaped t => exact ⟨List.nil_prefix, List.nil_prefix⟩
    | returned tool_result =>
      obtain ⟨h1, h2⟩ := ih w'
      simp only [List.map_cons]
      exact ⟨(List.prefix_cons_inj _).2 h1, (List.prefix_cons_inj _).2 h2⟩

/-- The names and the shapes of the messages of the rounds are a beginning of those that
the answers ask for. -/
theorem specRounds_prefix (dump : Json → String) (s : Full.McpServer ω)
    (answers : List ChatMessage) (w : ω) :
    (specRounds dump s answers w).names <+: requestedNames answers ∧
      (specRounds dump s answers w).messages.map messageShape <+: expectedShapes answers := by
  induction answers generalizing w with
  | nil => exact ⟨List.prefix_refl _, List.prefix_refl _⟩
  | cons m later ih =>
    simp only [specRounds, requestedNames, expectedShapes, List.flatMap_cons]
    split
    · next hempty =>
      have hnil : m.tool_calls = [] := List.isEmpty_iff.1 hempty
      refine ⟨List.nil_prefix, ?_⟩
      simp only [hnil, List.map_cons, List.map_nil, messageShape, List.singleton_append]
      exact (List.prefix_cons_inj _).2 List.nil_prefix
    · cases hR : (specRound dump s m.tool_calls w).thrown with
      | some t =>
        obtain ⟨h1, h2⟩ := specRound_prefix dump s m.tool_calls w
        simp only [List.map_cons, messageShape, List.cons_append]
        exact ⟨List.IsPrefix.trans h1 (List.prefix_append _ _),
          (List.prefix_cons_inj _).2 (List.IsPrefix.trans h2 (List.prefix_append _ _))⟩
      | none =>
        obtain ⟨h1, h2⟩ := specRound_complete dump s m.tool_calls w hR
        obtain ⟨h3, h4⟩ := ih (specRound dump s m.tool_calls w).world
        simp only [List.map_cons, List.map_append, messageShape, List.cons_append, h1]
        refine ⟨(List.prefix_append_right_inj _).2 h3, (List.prefix_cons_inj _).2 ?_⟩
        rw [h2]
        exact (List.prefix_append_right_inj _).2 h4

/-- Against a backend that requests at least one tool call in every round, the loop ends
in one of two ways: a value thrown by a handler has left it, or it has run all its turns
and returns the limit response after exactly as many backend calls as turns were
allowed. -/
theorem full_process_loop_always_tools (dump : Json → String) (backend : Backend σ)
    (hb : ∀ history functions st, ∃ m,
      (backend history functions st).1 = .ok m ∧ m.tool_calls ≠ [])
    (n : Nat) (iteration : Int) (a : Full.Agent ω) (response : AgentResponse) (b : σ)
    (log : List (Except LlmError ChatMessage)) (w : ω) :
    (∃ thrown,
        (Full.Agent.process_loop dump (recording backend) n iteration a response (b, log)
          w).result = .escaped thrown) ∨
      ((∃ r,
          (Full.Agent.process_loop dump (recording backend) n iteration a response (b, log)
            w).result = .returned (.ok r) ∧
          r.stopped_by_limit = true ∧
          r.content = "Maximum tool iterations reached. Please simplify your request.") ∧
        (Full.Agent.process_loop dump (recording backend) n iteration a response (b, log)
          w).backend.2.length = log.length + n) := by
  induction n generalizing iteration a response b log w with
  | zero => exact Or.inr ⟨⟨_, rfl, rfl, rfl⟩, rfl⟩
  | succ n ih =>
    obtain ⟨m, hm, hne⟩ := hb a.conversation_history_ a.get_function_schemas b
    have hempty : m.tool_calls.isEmpty = false := by
      cases hc : m.tool_calls with
      | nil => exact absurd hc hne
      | cons x xs => rfl
    simp only [Full.Agent.process_loop, recording, hm, hempty, Bool.false_eq_true, if_false]
    rcases hr : Full.Agent.run_tool_calls dump m.tool_calls
      { a with conversation_history_ := a.conversation_history_ ++
        [{ role := ChatRole.Assistant, content := m.content, tool_calls := m.tool_calls }] }
      { response with iterations := iteration + 1 } w with ⟨out, a2, w'⟩
    cases out with
    | escaped thrown => exact Or.inl ⟨thrown, rfl⟩
    | returned response' =>
      simp only
      rcases ih (iteration + 1) a2 response'
        (backend a.conversation_history_ a.get_function_schemas b).2
        (log ++ [Except.ok m]) w' with h | ⟨h, hlen⟩
      · exact Or.inl h
      · refine Or.inr ⟨h, ?_⟩
        rw [hlen]
        simp only [List.length_append, List.length_singleton]
        omega

/-- C10: in `Agent::process` the tools are invoked in the order the backend listed them.
With the answers of the backend recorded during the run (recording changes neither the
result nor the agent nor the world), the run is the one `specRounds` lays down from the
handlers registered with the dispatcher: answer by answer, and within an answer call by
call in request order, the handler of the requested tool runs on the requested arguments
in the world its predecessor left.  The transcript after the user message consists of the
messages of `specRounds`, contents included (per answer the assistant message carrying the
requested calls, then one tool message per call made, linked to the identifier of the call
and holding the serialized outcome of that call), the world is the one `specRounds`
reaches, and the dispatcher is as before.  The names recorded and the shapes of the
messages are always a beginning of the requested names and shapes in request order; when
`process` returns a response, its `tool_calls_made` is the whole concatenation, round by
round, of the requested tool names, and the messages are all the requested ones.  A value
leaves `process` exactly when it leaves a handler call of `specRounds`.  Hence, when the
backend requests exactly one call per round, every response that `process` returns
records exactly `max_tool_iterations` tool calls, and `process` does return one when no
registered handler throws a value that is no exception object. -/
theorem C10_tool_call_order (dump : Json → String) (backend : Backend σ) (a : Full.Agent ω)
    (user_message : String) (b : σ) (w : ω) :
    (a.process dump (recording backend) user_message (b, []) w).agent.conversation_history_ =
        a.conversation_history_ ++ [{ role := ChatRole.User, content := user_message }] ++
          (specRounds dump a.mcp_server_
            (answersOf (a.process dump (recording backend) user_message (b, []) w).backend.2)
            w).messages ∧
      (a.process dump (recording backend) user_message (b, []) w).world =
        (specRounds dump a.mcp_server_
          (answersOf (a.process dump (recording backend) user_message (b, []) w).backend.2)
          w).world ∧
      (a.process dump (recording backend) user_message (b, []) w).agent.mcp_server_ =
        a.mcp_server_ ∧
      (specRounds dump a.mcp_server_
          (answersOf (a.process dump (recording backend) user_message (b, []) w).backend.2)
          w).names <+:
        requestedNames
          (answersOf (a.process dump (recording backend) user_message (b, []) w).backend.2) ∧
      (specRounds dump a.mcp_server_
          (answersOf (a.process dump (recording backend) user_message (b, []) w).backend.2)
          w).messages.map messageShape <+:
        expectedShapes
          (answersOf (a.process dump (recording backend) user_message (b, []) w).backend.2) ∧
      (∀ thrown,
        (a.process dump (recording backend) user_message (b, []) w).result = .escaped thrown ↔
          (specRounds dump a.mcp_server_
            (answersOf (a.process dump (recording backend) user_message (b, []) w).backend.2)
            w).thrown = some thrown) ∧
      (∀ r,
        (a.process dump (recording backend) user_message (b, []) w).result =
            .returned (.ok r) →
          r.tool_calls_made = requestedNames
              (answersOf
                (a.process dump (recording backend) user_message (b, []) w).backend.2) ∧
            r.tool_calls_made =
              (specRounds dump a.mcp_server_
                (answersOf
                  (a.process dump (recording backend) user_message (b, []) w).backend.2)
                w).names ∧
            (specRounds dump a.mcp_server_
                (answersOf
                  (a.process dump (recording backend) user_message (b, []) w).backend.2)
                w).messages.map messageShape =
              expectedShapes
                (answersOf
                  (a.process dump (recording backend) user_message (b, []) w).backend.2)) ∧
      (∀ e ∈ (a.process dump (recording backend) user_message (b, []) w).backend.2,
        ∃ history functions st, e = (backend history functions st).1) ∧
      (a.process dump (recording backend) user_message (b, []) w).result =
        (a.process dump backend user_message b w).result ∧
      (a.process dump (recording backend) user_message (b, []) w).agent =
        (a.process dump backend user_message b w).agent ∧
      (a.process dump (recording backend) user_message (b, []) w).world =
        (a.process dump backend user_message b w).world ∧
      ((∀ history functions st, ∃ m,
          (backend history functions st).1 = .ok m ∧ m.tool_calls.length = 1) →
        (∀ r, (a.process dump (recording backend) user_message (b, []) w).result =
            .returned (.ok r) →
          r.tool_calls_made.length = a.config_.max_tool_iterations.toNat) ∧
        ((∀ name handler arguments w0 thrown,
            mapFind a.mcp_server_.tool_handlers_ name = some handler →
            (handler arguments w0).1 ≠ .throws_other thrown) →
          ∃ r, (a.process dump (recording backend) user_message (b, []) w).result =
              .returned (.ok r) ∧
            r.tool_calls_made.length = a.config_.max_tool_iterations.toNat)) := by
  obtain ⟨newlog, h1, -, h3, h4, h5, h6, -, h8, h9, h10⟩ := full_process_loop_trace dump
    backend a.config_.max_tool_iterations.toNat 0
    { a with conversation_history_ := a.conversation_history_ ++
      [{ role := ChatRole.User, content := user_message }] } {} b [] w
  have hrec := full_process_loop_recording dump backend a.config_.max_tool_iterations.toNat 0
    { a with conversation_history_ := a.conversation_history_ ++
      [{ role := ChatRole.User, content := user_message }] } {} b [] w
  rw [List.nil_append] at h1
  simp only [Full.Agent.process]
  rw [h1]
  simp only at h4 h5 h6 h8 h9 h10
  have hpre := specRounds_prefix dump a.mcp_server_ (answersOf newlog) w
  have hmade : ∀ r,
      (Full.Agent.process_loop dump (recording backend) a.config_.max_tool_iterations.toNat 0
          { a with conversation_history_ := a.conversation_history_ ++
            [{ role := ChatRole.User, content := user_message }] } {} (b, []) w).result =
        .returned (.ok r) →
      r.tool_calls_made = requestedNames (answersOf newlog) ∧
        r.tool_calls_made = (specRounds dump a.mcp_server_ (answersOf newlog) w).names ∧
        (specRounds dump a.mcp_server_ (answersOf newlog) w).messages.map messageShape =
          expectedShapes (answersOf newlog) := by
    intro r hr
    have hnone : (specRounds dump a.mcp_server_ (answersOf newlog) w).thrown = none := by
      cases ht : (specRounds dump a.mcp_server_ (answersOf newlog) w).thrown with
      | none => rfl
      | some t =>
        have := (h8 t).2 ht
        rw [hr] at this
        cases this
    have hn := h9 r hr
    simp only [List.nil_append] at hn
    obtain ⟨g1, g2⟩ := h10 hnone
    exact ⟨by rw [hn, g1], hn, g2⟩
  refine ⟨h4, h5, h6, hpre.1, hpre.2, h8, hmade, h3, hrec.1, hrec.2.1, hrec.2.2.1, ?_⟩
  intro hone
  have hb : ∀ history functions st, ∃ m,
      (backend history functions st).1 = .ok m ∧ m.tool_calls ≠ [] := by
    intro history functions st
    obtain ⟨m, hm, hl⟩ := hone history functions st
    refine ⟨m, hm, ?_⟩
    intro hnil
    rw [hnil] at hl
    cases hl
  have hcount : ∀ r,
      (Full.Agent.process_loop dump (recording backend) a.config_.max_tool_iterations.toNat 0
          { a with conversation_history_ := a.conversation_history_ ++
            [{ role := ChatRole.User, content := user_message }] } {} (b, []) w).result =
        .returned (.ok r) →
      r.tool_calls_made.length = a.config_.max_tool_iterations.toNat := by
    intro r hr
    rcases full_process_loop_always_tools dump backend hb
      a.config_.max_tool_iterations.toNat 0
      { a with conversation_history_ := a.conversation_history_ ++
        [{ role := ChatRole.User, content := user_message }] } {} b [] w with
      ⟨t, ht⟩ | ⟨-, hlen⟩
    · rw [hr] at ht
      cases ht
    · rw [(hmade r hr).1, requestedNames_length_single]
      · rw [h1] at hlen
        simpa using hlen
      · intro e he
        obtain ⟨history, functions, st, rfl⟩ := h3 e he
        obtain ⟨m, hm, hl⟩ := hone history functions st
        exact ⟨m, hm, hl⟩
  refine ⟨hcount, ?_⟩
  intro hquiet
  rcases full_process_loop_always_tools dump backend hb
    a.config_.max_tool_iterations.toNat 0
    { a with conversation_history_ := a.conversation_history_ ++
      [{ role := ChatRole.User, content := user_message }] } {} b [] w with
    ⟨t, ht⟩ | ⟨⟨r, hr, -⟩, -⟩
  · obtain ⟨name, handler, arguments, w0, w1, hh, ho⟩ :=
      specRounds_thrown dump a.mcp_server_ (answersOf newlog) w t ((h8 t).1 ht)
    exact absurd (by rw [ho]) (hquiet name handler arguments w0 t hh)
  · exact ⟨r, hr, hcount r hr⟩

/-- C10 witness: the agent over `markingServer`, whose handlers write their names into the
world.  The backend requests second and then first in the first round and first in the
second round: the world holds the marks in that order.  With limit 3 and the backend that
requests first once per round, the response records three tool calls. -/
theorem C10_tool_call_order_witness :
    ((markingAgent 3).process demoDump
        (recording (scriptedBackend
          [[toolCall "a" "second" (.obj []), toolCall "b" "first" (.obj [])],
           [toolCall "c" "first" (.obj [])]])) "go" (0, []) []).world =
        ["second", "first", "first"] ∧
      ∃ r, ((markingAgent 3).process demoDump
          (recording (repeatingBackend (toolCall "a" "first" (.obj [])))) "go" (0, [])
          []).result = .returned (.ok r) ∧
        r.tool_calls_made.length = (markingAgent 3).config_.max_tool_iterations.toNat :=
  ⟨(C10_tool_call_order demoDump
      (scriptedBackend
        [[toolCall "a" "second" (.obj []), toolCall "b" "first" (.obj [])],
         [toolCall "c" "first" (.obj [])]]) (markingAgent 3) "go" 0 []).2.1.trans (by rfl),
    ((C10_tool_call_order demoDump (repeatingBackend (toolCall "a" "first" (.obj [])))
      (markingAgent 3) "go" 0 []).2.2.2.2.2.2.2.2.2.2.2
      (fun _ _ _ => ⟨_, rfl, rfl⟩)).2
      (by
        intro name handler arguments w0 thrown hh
        have hs : (markingAgent 3).mcp_server_.tool_handlers_ =
            [("first", markingHandler "first"), ("second", markingHandler "second")] := rfl
        rw [hs] at hh
        simp only [mapFind] at hh
        split at hh
        · cases hh
          simp [markingHandler]
        · split at hh
          · cases hh
            simp [markingHandler]
          · cases hh)⟩

/-- C11 (as stated, refuted): the tool abort is registered with the initialized dispatcher
of the agent, and its handler fails by throwing a value of type `int`.  The backend
requests abort and then echo.  `Agent::process` does not return: the thrown value leaves
it.  No tool message is appended for the failed call, the remaining call is not made (the
world counts one handler run, and one request id is used), and the backend is not asked
again. -/
theorem C11_foreign_throw_counterexample :
    (fullAgent 2).mcp_server_.initialized_ = true ∧
      "abort" ∈ (fullAgent 2).mcp_server_.list_tool_names ∧
      ((fullAgent 2).process demoDump
          (scriptedBackend [[toolCall "c1" "abort" (.obj []),
            toolCall "c2" "echo" (.obj [("text", .str "hi")])]]) "hello" 0 0).result =
        .escaped "42" ∧
      ((fullAgent 2).process demoDump
          (scriptedBackend [[toolCall "c1" "abort" (.obj []),
            toolCall "c2" "echo" (.obj [("text", .str "hi")])]]) "hello" 0
          0).agent.conversation_history_ =
        [{ role := ChatRole.System, content := "be brief" },
         { role := ChatRole.User, content := "hello" },
         { role := ChatRole.Assistant, content := ""
           tool_calls := [toolCall "c1" "abort" (.obj []),
             toolCall "c2" "echo" (.obj [("text", .str "hi")])] }] ∧
      ((fullAgent 2).process demoDump
          (scriptedBackend [[toolCall "c1" "abort" (.obj []),
            toolCall "c2" "echo" (.obj [("text", .str "hi")])]]) "hello" 0 0).world = 1 ∧
      ((fullAgent 2).process demoDump
          (scriptedBackend [[toolCall "c1" "abort" (.obj []),
            toolCall "c2" "echo" (.obj [("text", .str "hi")])]]) "hello" 0
          0).agent.mcp_client_.next_id_ = 3 ∧
      ((fullAgent 2).process demoDump
          (scriptedBackend [[toolCall "c1" "abort" (.obj []),
            toolCall "c2" "echo" (.obj [("text", .str "hi")])]]) "hello" 0 0).backend = 1 := by
  refine ⟨by decide, by decide, by rfl, by rfl, by rfl, by rfl, by rfl⟩

/-- C11 (amended): a tool invocation made by `Agent::process` on the initialized dispatcher
of the agent fails with an error that `call_tool` returns when the tool is not registered
(message "Tool not found: " and the name), the arguments fail validation (the message of
the validation error), the handler returns an error (its message) or the handler throws an
exception derived from `std::exception` (message "Tool execution failed: " and the text of
the exception).  Such a failure does not make `process` fail: the loop appends the tool
message linked to the id of the call whose content is the serialized object with the
members success (false) and error (the message of the error), records the tool name in
`tool_calls_made`, and goes on with the remaining calls and the next backend round; in a
round of two calls of which the first fails, followed by a final answer, `process` returns
the response with that answer, both names and two iterations.  `process` returns an error
only when the backend answers with one.  A handler that throws a value of any other type is
not covered: the value leaves `call_tool` and `process`, no tool message is appended for
the call, the remaining calls are not made and no response is returned; a value leaves
`process` only in this way. -/
theorem C11_tool_failure_is_fed_back (dump : Json → String) (backend : Backend σ)
    (a : Full.Agent ω) (response : AgentResponse) (w : ω) (tc : ToolCall)
    (rest : List ToolCall) (hinit : a.mcp_server_.initialized_ = true) :
    (∀ e c' s' w',
        Full.McpClient.call_tool a.mcp_client_ a.mcp_server_ tc.function.name
            tc.function.arguments w = (.returned (.error e), c', s', w') →
        Full.Agent.run_tool_calls dump (tc :: rest) a response w =
          Full.Agent.run_tool_calls dump rest
            { a with
              mcp_client_ := c'
              mcp_server_ := s'
              conversation_history_ := a.conversation_history_ ++
                [{ role := ChatRole.Tool
                   content := dump (.obj [("error", .str e.message), ("success", .bool false)])
                   tool_calls := [], tool_call_id := tc.id }] }
            { response with
              tool_calls_made := response.tool_calls_made ++ [tc.function.name] }
            w') ∧
      (∀ thrown c' s' w',
        Full.McpClient.call_tool a.mcp_client_ a.mcp_server_ tc.function.name
            tc.function.arguments w = (.escaped thrown, c', s', w') →
        Full.Agent.run_tool_calls dump (tc :: rest) a response w =
          (.escaped thrown, { a with mcp_client_ := c', mcp_server_ := s' }, w')) ∧
      (tc.function.name ∉ a.mcp_server_.list_tool_names →
        Full.McpClient.call_tool a.mcp_client_ a.mcp_server_ tc.function.name
            tc.function.arguments w =
          (.returned (.error { code := -32001
                               message := "Tool not found: " ++ tc.function.name }),
           { next_id_ := a.mcp_client_.next_id_ + 1 }, a.mcp_server_, w)) ∧
      (∀ tool handler,
        mapFind a.mcp_server_.tools_ tc.function.name = some tool →
        mapFind a.mcp_server_.tool_handlers_ tc.function.name = some handler →
        (∀ ev, McpValidator.validate_tool_params tc.function.arguments tool.input_schema
            = .error ev →
          Full.McpClient.call_tool a.mcp_client_ a.mcp_server_ tc.function.name
              tc.function.arguments w =
            (.returned
              (.error { code := toInt32 ev.code, message := ev.message, data := ev.data }),
             { next_id_ := a.mcp_client_.next_id_ + 1 }, a.mcp_server_, w)) ∧
        (∀ ok eh w', McpValidator.validate_tool_params tc.function.arguments
            tool.input_schema = .ok ok →
          handler tc.function.arguments w = (.err eh, w') →
          Full.McpClient.call_tool a.mcp_client_ a.mcp_server_ tc.function.name
              tc.function.arguments w =
            (.returned
              (.error { code := toInt32 eh.code, message := eh.message, data := eh.data }),
             { next_id_ := a.mcp_client_.next_id_ + 1 }, a.mcp_server_, w')) ∧
        (∀ ok what w', McpValidator.validate_tool_params tc.function.arguments
            tool.input_schema = .ok ok →
          handler tc.function.arguments w = (.throws what, w') →
          Full.McpClient.call_tool a.mcp_client_ a.mcp_server_ tc.function.name
              tc.function.arguments w =
            (.returned
              (.error { code := -32002, message := "Tool execution failed: " ++ what }),
             { next_id_ := a.mcp_client_.next_id_ + 1 }, a.mcp_server_, w')) ∧
        (∀ ok thrown w', McpValidator.validate_tool_params tc.function.arguments
            tool.input_schema = .ok ok →
          handler tc.function.arguments w = (.throws_other thrown, w') →
          Full.McpClient.call_tool a.mcp_client_ a.mcp_server_ tc.function.name
              tc.function.arguments w =
            (.escaped thrown, { next_id_ := a.mcp_client_.next_id_ + 1 }, a.mcp_server_,
              w'))) ∧
      (∀ (user_message : String) (b b1 b2 : σ) (m1 m2 : ChatMessage) (tc2 : ToolCall)
          (e : JsonRpcError) (out2 : Except JsonRpcError McpToolResult)
          (c1 c2 : McpClient) (s1 s2 : Full.McpServer ω) (w1 w2 : ω),
        2 ≤ a.config_.max_tool_iterations →
        backend
            (a.conversation_history_ ++ [{ role := ChatRole.User, content := user_message }])
            a.get_function_schemas b = (.ok m1, b1) →
        m1.tool_calls = [tc, tc2] →
        Full.McpClient.call_tool a.mcp_client_ a.mcp_server_ tc.function.name
            tc.function.arguments w = (.returned (.error e), c1, s1, w1) →
        Full.McpClient.call_tool c1 s1 tc2.function.name tc2.function.arguments w1 =
            (.returned out2, c2, s2, w2) →
        backend
            (a.conversation_history_ ++
              [{ role := ChatRole.User, content := user_message },
               { role := ChatRole.Assistant, content := m1.content
                 tool_calls := [tc, tc2] },
               { role := ChatRole.Tool
                 content := dump (.obj [("error", .str e.message), ("success", .bool false)])
                 tool_calls := [], tool_call_id := tc.id },
               { role := ChatRole.Tool, content := dump (toolPayload out2)
                 tool_calls := [], tool_call_id := tc2.id }])
            s2.get_function_schemas b1 = (.ok m2, b2) →
        m2.tool_calls = [] →
        a.process dump backend user_message b w =
          { result := .returned (.ok
              { content := m2.content
                tool_calls_made := [tc.function.name, tc2.function.name]
                iterations := 2
                stopped_by_limit := false })
            agent :=
              { config_ := a.config_
                mcp_server_ := s2
                mcp_client_ := c2
                conversation_history_ := a.conversation_history_ ++
                  [{ role := ChatRole.User, content := user_message },
                   { role := ChatRole.Assistant, content := m1.content
                     tool_calls := [tc, tc2] },
                   { role := ChatRole.Tool
                     content :=
                       dump (.obj [("error", .str e.message), ("success", .bool false)])
                     tool_calls := [], tool_call_id := tc.id },
                   { role := ChatRole.Tool, content := dump (toolPayload out2)
                     tool_calls := [], tool_call_id := tc2.id },
                   { role := ChatRole.Assistant, content := m2.content }] }
            backend := b2
            world := w2 }) ∧
      (∀ (user_message : String) (b b1 : σ) (m1 : ChatMessage) (thrown : String)
          (c1 : McpClient) (s1 : Full.McpServer ω) (w1 : ω),
        1 ≤ a.config_.max_tool_iterations →
        backend
            (a.conversation_history_ ++ [{ role := ChatRole.User, content := user_message }])
            a.get_function_schemas b = (.ok m1, b1) →
        m1.tool_calls = tc :: rest →
        Full.McpClient.call_tool a.mcp_client_ a.mcp_server_ tc.function.name
            tc.function.arguments w = (.escaped thrown, c1, s1, w1) →
        a.process dump backend user_message b w =
          { result := .escaped thrown
            agent :=
              { config_ := a.config_
                mcp_server_ := s1
                mcp_client_ := c1
                conversation_history_ := a.conversation_history_ ++
                  [{ role := ChatRole.User, content := user_message },
                   { role := ChatRole.Assistant, content := m1.content
                     tool_calls := tc :: rest }] }
            backend := b1
            world := w1 }) ∧
      (∀ (user_message : String) (b : σ) (err : String),
        (a.process dump backend user_message b w).result = .returned (.error err) →
        ∃ history functions st e,
          (backend history functions st).1 = .error e ∧ err = "LLM error: " ++ e.message) ∧
      (∀ (user_message : String) (b : σ) (thrown : String),
        (a.process dump backend user_message b w).result = .escaped thrown →
        ∃ name handler arguments w0 w1,
          mapFind a.mcp_server_.tool_handlers_ name = some handler ∧
          handler arguments w0 = (.throws_other thrown, w1)) := by
  refine ⟨?_, ?_, ?_, ?_, ?_, ?_, ?_, ?_⟩
  · intro e c' s' w' h
    simp +decide [Full.Agent.run_tool_calls, h, Agent.result_content, Json.set, mapInsert]
  · intro thrown c' s' w' h
    simp only [Full.Agent.run_tool_calls, h]
  · intro hu
    have hnone : mapFind a.mcp_server_.tools_ tc.function.name = none :=
      (mapFind_eq_none_iff _ _).2 hu
    rw [full_call_tool_eq_spec]
    simp [specToolCall, hinit, hnone]
    rfl
  · intro tool handler ht hh
    refine ⟨?_, ?_, ?_, ?_⟩
    · intro ev hv
      rw [full_call_tool_eq_spec]
      simp [specToolCall, hinit, ht, hh, hv, wireError]
    · intro ok eh w' hv he
      rw [full_call_tool_eq_spec]
      simp [specToolCall, hinit, ht, hh, hv, he, wireError]
    · intro ok what w' hv he
      rw [full_call_tool_eq_spec]
      simp [specToolCall, hinit, ht, hh, hv, he]
      rfl
    · intro ok thrown w' hv he
      rw [full_call_tool_eq_spec]
      simp [specToolCall, hinit, ht, hh, hv, he]
  · intro user_message b b1 b2 m1 m2 tc2 e out2 c1 c2 s1 s2 w1 w2 hlim hb1 htc h1 h2 hb2 hnil
    obtain ⟨k, hk⟩ : ∃ k, a.config_.max_tool_iterations.toNat = k + 2 :=
      ⟨a.config_.max_tool_iterations.toNat - 2, by omega⟩
    simp only [Full.Agent.get_function_schemas] at hb1
    simp only [Full.Agent.process, hk, Full.Agent.process_loop, Full.Agent.get_function_schemas,
      hb1, htc, List.isEmpty_cons, Bool.false_eq_true, if_false, Full.Agent.run_tool_calls,
      h1, h2, result_content_eq, toolPayload, List.append_assoc, List.singleton_append,
      List.cons_append, List.nil_append]
    simp only [toolPayload] at hb2
    simp only [hb2, hnil, List.isEmpty_nil, if_true]
    rfl
  · intro user_message b b1 m1 thrown c1 s1 w1 hlim hb1 htc h1
    obtain ⟨k, hk⟩ : ∃ k, a.config_.max_tool_iterations.toNat = k + 1 :=
      ⟨a.config_.max_tool_iterations.toNat - 1, by omega⟩
    simp only [Full.Agent.get_function_schemas] at hb1
    simp only [Full.Agent.process, hk, Full.Agent.process_loop, Full.Agent.get_function_schemas,
      hb1, htc, List.isEmpty_cons, Bool.false_eq_true, if_false, Full.Agent.run_tool_calls,
      h1, List.append_assoc, List.singleton_append, List.cons_append, List.nil_append]
  · intro user_message b err h
    exact full_process_loop_error dump backend _ _ _ _ b w err h
  · intro user_message b thrown h
    obtain ⟨newlog, -, -, -, -, -, -, -, h8, -⟩ := full_process_loop_trace dump
      backend a.config_.max_tool_iterations.toNat 0
      { a with conversation_history_ := a.conversation_history_ ++
        [{ role := ChatRole.User, content := user_message }] } {} b [] w
    have hrec := (full_process_loop_recording dump backend
      a.config_.max_tool_iterations.toNat 0
      { a with conversation_history_ := a.conversation_history_ ++
        [{ role := ChatRole.User, content := user_message }] } {} b [] w).1
    simp only [Full.Agent.process] at h
    rw [← hrec] at h
    exact specRounds_thrown dump a.mcp_server_ (answersOf newlog) w thrown ((h8 thrown).1 h)

/-- C11 witness: the agent over `fullServer`, limit 2.  The backend requests the tool
nonexistent, which is not registered, and then echo, and gives its final answer in the
next round: `process` returns that answer with both names recorded, the failed call has
left its tool message with the error payload, and the handler of echo has run once. -/
theorem C11_tool_failure_is_fed_back_witness :
    (fullAgent 2).process demoDump
        (scriptedBackend [[toolCall "c1" "nonexistent" (.obj []),
          toolCall "c2" "echo" (.obj [("text", .str "hi")])]]) "hello" 0 0 =
      { result := .returned (.ok
          { content := "done"
            tool_calls_made := ["nonexistent", "echo"]
            iterations := 2
            stopped_by_limit := false })
        agent :=
          { config_ := (fullAgent 2).config_
            mcp_server_ := fullServer
            mcp_client_ := { next_id_ := 4 }
            conversation_history_ := (fullAgent 2).conversation_history_ ++
              [{ role := ChatRole.User, content := "hello" },
               { role := ChatRole.Assistant, content := ""
                 tool_calls := [toolCall "c1" "nonexistent" (.obj []),
                   toolCall "c2" "echo" (.obj [("text", .str "hi")])] },
               { role := ChatRole.Tool
                 content := demoDump (.obj [("error", .str "Tool not found: nonexistent"),
                   ("success", .bool false)])
                 tool_calls := [], tool_call_id := "c1" },
               { role := ChatRole.Tool
                 content := demoDump
                   (toolPayload (.ok { content := [.obj [("text", .str "hi")]] }))
                 tool_calls := [], tool_call_id := "c2" },
               { role := ChatRole.Assistant, content := "done" }] }
        backend := 2
        world := 1 } :=
  (C11_tool_failure_is_fed_back demoDump
      (scriptedBackend [[toolCall "c1" "nonexistent" (.obj []),
        toolCall "c2" "echo" (.obj [("text", .str "hi")])]])
      (fullAgent 2) {} 0 (toolCall "c1" "nonexistent" (.obj [])) [] (by decide)).2.2.2.2.1
    "hello" 0 1 2
    { role := ChatRole.Assistant, content := ""
      tool_calls := [toolCall "c1" "nonexistent" (.obj []),
        toolCall "c2" "echo" (.obj [("text", .str "hi")])] }
    { role := ChatRole.Assistant, content := "done", tool_calls := [] }
    (toolCall "c2" "echo" (.obj [("text", .str "hi")]))
    { code := -32001, message := "Tool not found: nonexistent" }
    (.ok { content := [.obj [("text", .str "hi")]] })
    { next_id_ := 3 } { next_id_ := 4 } fullServer fullServer 0 1
    (by decide) (by rfl) (by rfl) (by rfl) (by rfl) (by rfl) (by rfl)

theorem mapFind_map_snd {α β : Type} (f : α → β) (m : List (String × α)) (k : String) :
    mapFind (m.map (fun kv => (kv.1, f kv.2))) k = (mapFind m k).map f := by
  induction m with
  | nil => rfl
  | cons kv rest ih =>
    obtain ⟨k', v'⟩ := kv
    simp only [List.map_cons, mapFind]
    split
    · rfl
    · exact ih

theorem mapInsert_map_snd {α β : Type} (f : α → β) (m : List (String × α)) (k : String)
    (v : α) :
    mapInsert (m.map (fun kv => (kv.1, f kv.2))) k (f v) =
      (mapInsert m k v).map (fun kv => (kv.1, f kv.2)) := by
  induction m with
  | nil => rfl
  | cons kv rest ih =>
    obtain ⟨k', v'⟩ := kv
    simp only [List.map_cons, mapInsert]
    split
    · rfl
    · split
      · rfl
      · simp only [List.map_cons, ih]

/-- Registration commutes with the passage to the wider kind of dispatcher. -/
theorem lift_register_tool (s : McpServer ω) (name description : String)
    (input_schema : Json) (handler : ToolHandler ω) :
    liftServer (s.register_tool name description input_schema handler) =
      (liftServer s).register_tool name description input_schema (liftHandler handler) := by
  simp only [liftServer, McpServer.register_tool, Full.McpServer.register_tool,
    mapInsert_map_snd]

/-- For handlers that throw nothing but exceptions derived from `std::exception`, the two
embeddings of `handle_call_tool` agree: no value leaves the call. -/
theorem lift_handle_call_tool (s : McpServer ω) (params : Option Json) (w : ω) :
    (liftServer s).handle_call_tool params w =
      (.returned (s.handle_call_tool params w).1, (s.handle_call_tool params w).2) := by
  simp only [Full.McpServer.handle_call_tool, McpServer.handle_call_tool, liftServer,
    mapFind_map_snd]
  split
  · rfl
  · cases params with
    | none => rfl
    | some p =>
      simp only
      cases McpCallToolParams.from_json p with
      | error what => rfl
      | ok call_params =>
        simp only
        cases mapFind s.tools_ call_params.name with
        | none => rfl
        | some tool =>
          simp only
          cases mapFind s.tool_handlers_ call_params.name with
          | none => rfl
          | some handler =>
            simp only [Option.map_some']
            cases McpValidator.validate_tool_params call_params.arguments
                tool.input_schema with
            | error e => rfl
            | ok b =>
              simp only [liftHandler]
              rcases handler call_params.arguments w with ⟨out, w'⟩
              cases out <;> rfl

/-- For handlers that throw nothing but exceptions derived from `std::exception`, the two
embeddings of the routing part of `handle_request` agree. -/
theorem lift_dispatch (s : McpServer ω) (request : JsonRpcRequest) (w : ω) :
    (liftServer s).dispatch request w =
      (.returned (s.dispatch request w).1, liftServer (s.dispatch request w).2.1,
        (s.dispatch request w).2.2) := by
  simp only [Full.McpServer.dispatch, McpServer.dispatch]
  by_cases h1 : request.method = "initialize"
  · simp only [h1, if_true, Full.McpServer.handle_initialize, McpServer.handle_initialize]
    cases request.params with
    | none => rfl
    | some p =>
      simp only
      cases McpInitializeParams.from_json p <;> rfl
  · by_cases h2 : request.method = "tools/list"
    · simp only [h1, h2, if_true, if_false, Full.McpServer.handle_list_tools,
        McpServer.handle_list_tools]
      cases hi : s.initialized_ <;> simp [liftServer, hi]
    · by_cases h3 : request.method = "tools/call"
      · simp +decide only [h3, if_true, if_false, lift_handle_call_tool]
      · by_cases h4 : request.method = "ping"
        · simp only [h1, h2, h3, h4, if_true, if_false]
          rfl
        · simp only [h1, h2, h3, h4, if_false]

/-- For handlers that throw nothing but exceptions derived from `std::exception`, the two
embeddings of `handle_request` agree. -/
theorem lift_handle_request (s : McpServer ω) (j : Json) (w : ω) :
    (liftServer s).handle_request j w =
      (.returned (s.handle_request j w).1, liftServer (s.handle_request j w).2.1,
        (s.handle_request j w).2.2) := by
  simp only [Full.McpServer.handle_request, McpServer.handle_request]
  cases JsonRpcRequest.from_json j with
  | error e => rfl
  | ok request =>
    simp only [lift_dispatch]
    rcases s.dispatch request w with ⟨out, s', w'⟩
    cases out <;> rfl

/-- For handlers that throw nothing but exceptions derived from `std::exception`, the two
embeddings of `McpClient::call_tool` agree. -/
theorem lift_call_tool (c : McpClient) (s : McpServer ω) (tool_name : String)
    (arguments : Json) (w : ω) :
    Full.McpClient.call_tool c (liftServer s) tool_name arguments w =
      (.returned (c.call_tool s tool_name arguments w).1,
        (c.call_tool s tool_name arguments w).2.1,
        liftServer (c.call_tool s tool_name arguments w).2.2.1,
        (c.call_tool s tool_name arguments w).2.2.2) := by
  simp only [Full.McpClient.call_tool, Full.McpClient.send_request, McpClient.call_tool,
    McpClient.send_request, lift_handle_request]
  cases McpClient.parse_response (s.handle_request _ w).1 with
  | error e => rfl
  | ok result =>
    simp only
    cases McpClient.decode_tool_result result <;> rfl

/-- For handlers that throw nothing but exceptions derived from `std::exception`, the two
embeddings of the tool loop agree. -/
theorem lift_run_tool_calls (dump : Json → String) (calls : List ToolCall) (a : Agent ω)
    (response : AgentResponse) (w : ω) :
    Full.Agent.run_tool_calls dump calls (liftAgent a) response w =
      (.returned (Agent.run_tool_calls dump calls a response w).2.1,
        liftAgent (Agent.run_tool_calls dump calls a response w).1,
        (Agent.run_tool_calls dump calls a response w).2.2) := by
  induction calls generalizing a response w with
  | nil => rfl
  | cons tc rest ih =>
    simp only [Full.Agent.run_tool_calls, Agent.run_tool_calls, liftAgent, lift_call_tool]
    exact ih
      { a with
        mcp_client_ := (a.mcp_client_.call_tool a.mcp_server_ tc.function.name
          tc.function.arguments w).2.1
        mcp_server_ := (a.mcp_client_.call_tool a.mcp_server_ tc.function.name
          tc.function.arguments w).2.2.1
        conversation_history_ := a.conversation_history_ ++
          [{ role := ChatRole.Tool
             content := Agent.result_content dump (a.mcp_client_.call_tool a.mcp_server_
               tc.function.name tc.function.arguments w).1
             tool_calls := [], tool_call_id := tc.id }] } _ _

/-- For handlers that throw nothing but exceptions derived from `std::exception`, the two
embeddings of the loop of `process` agree: it always returns. -/
theorem lift_process_loop (dump : Json → String) (backend : Backend σ) (n : Nat)
    (iteration : Int) (a : Agent ω) (response : AgentResponse) (b : σ) (w : ω) :
    Full.Agent.process_loop dump backend n iteration (liftAgent a) response b w =
      { result := .returned (Agent.process_loop dump backend n iteration a response b w).result
        agent := liftAgent (Agent.process_loop dump backend n iteration a response b w).agent
        backend := (Agent.process_loop dump backend n iteration a response b w).backend
        world := (Agent.process_loop dump backend n iteration a response b w).world } := by
  induction n generalizing iteration a response b w with
  | zero => rfl
  | succ n ih =>
    simp only [Full.Agent.process_loop, Agent.process_loop]
    have hf : (liftAgent a).get_function_schemas = a.get_function_schemas := rfl
    have hh : (liftAgent a).conversation_history_ = a.conversation_history_ := rfl
    rw [hf, hh]
    rcases backend a.conversation_history_ a.get_function_schemas b with ⟨out, b'⟩
    cases out with
    | error e => rfl
    | ok m =>
      simp only
      split
      · rfl
      · have hl := lift_run_tool_calls dump m.tool_calls
          { a with conversation_history_ := a.conversation_history_ ++
            [{ role := ChatRole.Assistant, content := m.content,
               tool_calls := m.tool_calls }] }
          { response with iterations := iteration + 1 } w
        simp only [liftAgent] at hl ⊢
        rw [hl]
        exact ih _ _ _ _ _

/-- For handlers that throw nothing but exceptions derived from `std::exception`, the two
embeddings of `Agent::process` agree: `process` always returns, with the same result, the
same agent, the same backend state and the same world. -/
theorem lift_process (dump : Json → String) (backend : Backend σ) (a : Agent ω)
    (user_message : String) (b : σ) (w : ω) :
    (liftAgent a).process dump backend user_message b w =
      { result := .returned (a.process dump backend user_message b w).result
        agent := liftAgent (a.process dump backend user_message b w).agent
        backend := (a.process dump backend user_message b w).backend
        world := (a.process dump backend user_message b w).world } :=
  lift_process_loop dump backend a.config_.max_tool_iterations.toNat 0
    { a with conversation_history_ := a.conversation_history_ ++
      [{ role := ChatRole.User, content := user_message }] } {} b w

end FullModel

end Intellistant
